import Mathlib

/-! # Tamagotchi: pixel-art synthesis (`pixel.js`) and the animator (`animation.js`)

Shallow embedding of the pixel pipeline.  An RGBA buffer is a list of bytes in
row-major order, four per pixel.

* `applyMedianFilter` and `applyPaletteQuantization` take an `ImageData`, whose
  `data` always holds `4 * width * height` bytes (`ImageData.WF`); all their
  reads are then in range.
* `addEyesToPixelArt` and `computeBounds` take a bare array with `width` and
  `height`; a read outside the array is only compared with `> 20`, and
  `undefined > 20` is false like `0 > 20`, so `load` returns `0` there.
-/

namespace Tamagotchi

/-! ## Data model -/

/-- An `ImageData`: `width`, `height` and the byte array `data`. -/
structure ImageData where
  width : Nat
  height : Nat
  data : List Nat
deriving DecidableEq, Repr

/-- Well-formed image: `data` holds four bytes per pixel and every entry is a byte. -/
def ImageData.WF (img : ImageData) : Prop :=
  img.data.length = img.width * img.height * 4 ∧ ∀ v ∈ img.data, v ≤ 255

instance instDecidableWF (img : ImageData) : Decidable img.WF := by
  unfold ImageData.WF; infer_instance

/-- Typed-array read `buf[i]`. -/
def load (buf : List Nat) (i : Nat) : Nat := buf.getD i 0

/-- Clamping done by a `Uint8ClampedArray` when a non-negative integer is stored. -/
def clampByte (v : Nat) : Nat := min v 255

/-- Typed-array write `buf[i] = v` into a `Uint8ClampedArray` (ignored out of range). -/
def store (buf : List Nat) (i v : Nat) : List Nat := buf.set i (clampByte v)

/-- Four consecutive writes `buf[idx] = r; buf[idx+1] = g; buf[idx+2] = b; buf[idx+3] = a`. -/
def store4 (buf : List Nat) (idx r g b a : Nat) : List Nat :=
  store (store (store (store buf idx r) (idx + 1) g) (idx + 2) b) (idx + 3) a

/-- The opacity threshold `alphaThreshold = 20`. -/
def alphaThreshold : Nat := 20

/-! ## `applyMedianFilter` and `median` (pixel.js 56-104) -/

/-- Source `median`: sort ascending, take the element at `floor(length / 2)`, `0` if absent. -/
def median (values : List Nat) : Nat :=
  let sorted := values.insertionSort (· ≤ ·)
  sorted.getD (sorted.length / 2) 0

/-- The offsets `-1, 0, 1` walked by both neighbourhood loops. -/
def offsets : List Int := [-1, 0, 1]

/-- The indices `nIdx` visited by the two neighbourhood loops of `applyMedianFilter`
at pixel `(x, y)`, in visiting order; out-of-bounds rows and columns are skipped. -/
def neighbourIndices (width height y x : Nat) : List Nat :=
  offsets.flatMap fun oy =>
    let ny : Int := (y : Int) + oy
    if ny < 0 ∨ ny ≥ (height : Int) then []
    else
      offsets.flatMap fun ox =>
        let nx : Int := (x : Int) + ox
        if nx < 0 ∨ nx ≥ (width : Int) then []
        else [((ny * (width : Int) + nx) * 4).toNat]

/-- Body of the inner loop of `applyMedianFilter` at `(x, y)`. -/
def medianPixel (img : ImageData) (filtered : List Nat) (y x : Nat) : List Nat :=
  let data := img.data
  let idx := (y * img.width + x) * 4
  if load data (idx + 3) ≤ alphaThreshold then
    store4 filtered idx (load data idx) (load data (idx + 1)) (load data (idx + 2))
      (load data (idx + 3))
  else
    let ns := neighbourIndices img.width img.height y x
    let reds := ns.map fun nIdx => load data nIdx
    let greens := ns.map fun nIdx => load data (nIdx + 1)
    let blues := ns.map fun nIdx => load data (nIdx + 2)
    let alphas := ns.map fun nIdx => load data (nIdx + 3)
    store4 filtered idx (median reds) (median greens) (median blues) (median alphas)

/-- Source `applyMedianFilter`. -/
def applyMedianFilter (imageData : ImageData) : ImageData :=
  let filtered := List.replicate imageData.data.length 0
  let out := (List.range imageData.height).foldl
    (fun buf y => (List.range imageData.width).foldl
      (fun buf x => medianPixel imageData buf y x) buf) filtered
  { width := imageData.width, height := imageData.height, data := out }

/-! ## `addEyesToPixelArt` (pixel.js 106-146) and `computeBounds` (animation.js 547-567) -/

/-- Bounding box `{ minX, maxX, minY, maxY }`. -/
structure Bounds where
  minX : Nat
  maxX : Nat
  minY : Nat
  maxY : Nat
deriving DecidableEq, Repr

/-- A coordinate pair `{ x, y }`. -/
structure Point where
  x : Int
  y : Int
deriving DecidableEq, Repr

/-- One eye: `{ pupil, highlight }`. -/
structure EyePoint where
  pupil : Point
  highlight : Point
deriving DecidableEq, Repr

/-- Result of `addEyesToPixelArt`: `{ left, right, centerY, bounds }`. -/
structure EyePair where
  left : EyePoint
  right : EyePoint
  centerY : Int
  bounds : Bounds
deriving DecidableEq, Repr

/-- Body of the scanning loops: widen the box when the pixel at `(x, y)` has alpha above 20. -/
def scanPixel (pixels : List Nat) (width : Nat) (b : Bounds) (y x : Nat) : Bounds :=
  let idx := (y * width + x) * 4
  let alpha := load pixels (idx + 3)
  if alpha > 20 then
    { minX := min b.minX x, maxX := max b.maxX x, minY := min b.minY y, maxY := max b.maxY y }
  else b

/-- The two scanning loops shared by `addEyesToPixelArt` and `computeBounds`,
started from `minX = width, maxX = 0, minY = height, maxY = 0`. -/
def scanBounds (pixels : List Nat) (width height : Nat) : Bounds :=
  (List.range height).foldl
    (fun b y => (List.range width).foldl (fun b x => scanPixel pixels width b y x) b)
    { minX := width, maxX := 0, minY := height, maxY := 0 }

/-- The guard `if (minX > maxX) { minX = 4; maxX = 12; minY = 4; maxY = 12; }`. -/
def fallbackBounds (b : Bounds) : Bounds :=
  if b.minX > b.maxX then { minX := 4, maxX := 12, minY := 4, maxY := 12 } else b

/-- Source `computeBounds` of the animator. -/
def computeBounds (pixels : List Nat) (width height : Nat) : Bounds :=
  fallbackBounds (scanBounds pixels width height)

/-- Source `addEyesToPixelArt`.  The products with `0.6`, `0.25`, `0.75` and the
floor are taken over the rationals. -/
def addEyesToPixelArt (pixels : List Nat) (width height : Nat) : EyePair :=
  let b := fallbackBounds (scanBounds pixels width height)
  let eyeY : Int := ⌊(b.minY : ℚ) + ((b.maxY : ℚ) - (b.minY : ℚ)) * 0.6⌋
  let leftEyeX : Int := ⌊(b.minX : ℚ) + ((b.maxX : ℚ) - (b.minX : ℚ)) * 0.25⌋
  let rightEyeX : Int := ⌊(b.minX : ℚ) + ((b.maxX : ℚ) - (b.minX : ℚ)) * 0.75⌋
  { left := { pupil := { x := leftEyeX, y := eyeY },
              highlight := { x := leftEyeX + 1, y := eyeY } },
    right := { pupil := { x := rightEyeX - 1, y := eyeY },
               highlight := { x := rightEyeX, y := eyeY } },
    centerY := eyeY,
    bounds := b }

/-! ## `applyPaletteQuantization`, `nearestColor`, `kMeansPalette` (pixel.js 148-274)

The model covers `paletteSize ≥ 1`, where every array access of `kMeansPalette`
is in range.  `Math.random` is modelled by the list `draws` of the successive
values of `Math.floor(Math.random() * n)`; the centre initialisation consumes it
from the front and yields `none` when the list ends before `k` centres are
chosen.  The floating-point colour transform of `lightenSaturatePalette` is a
parameter `lighten`: the map from `[r, g, b]` to the rounded `[nr, ng, nb]`. -/

/-- An RGB triple `[r, g, b]`. -/
abbrev Color := Nat × Nat × Nat

/-- The values `i = 0, 4, 8, ...` below `len` of the loops `for (i = 0; i < len; i += 4)`. -/
def pixelOffsets (len : Nat) : List Nat := (List.range ((len + 3) / 4)).map (· * 4)

/-- First loop of `applyPaletteQuantization`: the colours of the pixels with alpha above 20. -/
def opaqueColors (data : List Nat) : List Color :=
  (pixelOffsets data.length).filterMap fun i =>
    if load data (i + 3) > alphaThreshold then
      some (load data i, load data (i + 1), load data (i + 2))
    else none

/-- The values of the `Map` keyed by `r,g,b`, in insertion order: a key already present
keeps its position. -/
def uniqueColors (colors : List Color) : List Color :=
  colors.foldl (fun unique c => if c ∈ unique then unique else unique ++ [c]) []

/-- Squared distance `dr * dr + dg * dg + db * db` between `color` and `(r, g, b)`. -/
def dist2 (color : Color) (r g b : Nat) : Int :=
  let dr : Int := (color.1 : Int) - (r : Int)
  let dg : Int := (color.2.1 : Int) - (g : Int)
  let db : Int := (color.2.2 : Int) - (b : Int)
  dr * dr + dg * dg + db * db

/-- The test `dist < bestDist`, where `none` stands for `Number.POSITIVE_INFINITY`. -/
def distLt (dist : Int) (bestDist : Option Int) : Bool :=
  match bestDist with
  | none => true
  | some d => decide (dist < d)

/-- Body of the loop of `nearestColor` on the state `(best, bestDist)`. -/
def nearestStep (r g b : Nat) (st : Option Color × Option Int) (color : Color) :
    Option Color × Option Int :=
  let dist := dist2 color r g b
  if distLt dist st.2 then (some color, some dist) else st

/-- Source `nearestColor`; `best` starts as `palette[0]`, which is `none` for an empty palette. -/
def nearestColor (palette : List Color) (r g b : Nat) : Option Color :=
  (palette.foldl (nearestStep r g b) (palette.head?, none)).1

/-- The centre-picking `while` loop of `kMeansPalette`, fed with the drawn indices. -/
def initCenters (colors : List Color) (k : Nat) :
    List Nat → List Color → List Nat → Option (List Color)
  | [], centers, _ => if centers.length < k then none else some centers
  | idx :: rest, centers, used =>
    if centers.length < k then
      if idx ∈ used then initCenters colors k rest centers used
      else
        match colors[idx]? with
        | none => none
        | some c => initCenters colors k rest (centers ++ [c]) (idx :: used)
    else some centers

/-- Index of the first centre nearest to `(r, g, b)` among `centers[0..k-1]`. -/
def nearestCenter (centers : List Color) (k r g b : Nat) : Nat :=
  ((List.range k).foldl
    (fun (st : Nat × Option Int) c =>
      let dist := dist2 (centers.getD c (0, 0, 0)) r g b
      if distLt dist st.2 then (c, some dist) else st)
    (0, none)).1

/-- The assignment loop of one iteration: new assignments and the flag `changed`. -/
def assignPass (colors centers : List Color) (k : Nat) (assignments : List Nat) :
    List Nat × Bool :=
  (List.range colors.length).foldl
    (fun (st : List Nat × Bool) i =>
      let col := colors.getD i (0, 0, 0)
      let best := nearestCenter centers k col.1 col.2.1 col.2.2
      if st.1.getD i 0 ≠ best then (st.1.set i best, true) else st)
    (assignments, false)

/-- The accumulation loop: per cluster the channel sums and the member count. -/
def accumulate (colors : List Color) (k : Nat) (assignments : List Nat) :
    List (Nat × Nat × Nat × Nat) :=
  (List.range colors.length).foldl
    (fun sums i =>
      let cluster := assignments.getD i 0
      let col := colors.getD i (0, 0, 0)
      let s := sums.getD cluster (0, 0, 0, 0)
      sums.set cluster (s.1 + col.1, s.2.1 + col.2.1, s.2.2.1 + col.2.2, s.2.2.2 + 1))
    (List.replicate k (0, 0, 0, 0))

/-- The value of `Math.round(sum / count)` for integers `sum ≥ 0`, `count ≥ 1`. -/
def roundDiv (sum count : Nat) : Nat := (2 * sum + count) / (2 * count)

/-- The centre update loop `for (c = 0; c < k; c++)`. -/
def updateCenters (centers : List Color) (k : Nat) (sums : List (Nat × Nat × Nat × Nat)) :
    List Color :=
  (List.range k).foldl
    (fun cs c =>
      let s := sums.getD c (0, 0, 0, 0)
      let count := max 1 s.2.2.2
      cs.set c (roundDiv s.1 count, roundDiv s.2.1 count, roundDiv s.2.2.1 count))
    centers

/-- The loop `for (iter = 0; iter < maxIter; iter++)` with its early `break`;
the first argument counts the iterations left. -/
def kMeansIterate (colors : List Color) (k : Nat) :
    Nat → List Color → List Nat → List Color
  | 0, centers, _ => centers
  | iters + 1, centers, assignments =>
    let pass := assignPass colors centers k assignments
    let sums := accumulate colors k pass.1
    let centers1 := updateCenters centers k sums
    if !pass.2 then centers1 else kMeansIterate colors k iters centers1 pass.1

/-- Source `kMeansPalette` with `maxIter = 12`. -/
def kMeansPalette (colors : List Color) (k : Nat) (draws : List Nat) : Option (List Color) :=
  let n := colors.length
  if k ≥ n then some (colors.take k)
  else
    match initCenters colors k draws [] [] with
    | none => none
    | some centers => some (kMeansIterate colors k 12 centers (List.replicate n 0))

/-- Source `lightenSaturatePalette`: the colour transform applied to every entry. -/
def lightenSaturatePalette (lighten : Color → Color) (palette : List Color) : List Color :=
  palette.map lighten

/-- Body of the recolouring loop of `applyPaletteQuantization` at offset `i`. -/
def recolorPixel (data : List Nat) (palette : List Color) (output : List Nat) (i : Nat) :
    Option (List Nat) :=
  let a := load data (i + 3)
  if a ≤ alphaThreshold then
    some (store4 output i (load data i) (load data (i + 1)) (load data (i + 2))
      (load data (i + 3)))
  else
    match nearestColor palette (load data i) (load data (i + 1)) (load data (i + 2)) with
    | none => none
    | some nearest => some (store4 output i nearest.1 nearest.2.1 nearest.2.2 a)

/-- Source `applyPaletteQuantization`: the pair `(imageData, palette)` it returns. -/
def applyPaletteQuantization (lighten : Color → Color) (draws : List Nat)
    (imageData : ImageData) (paletteSize : Nat) : Option (ImageData × List Color) :=
  let data := imageData.data
  let colors := opaqueColors data
  if colors.length = 0 then some (imageData, [])
  else
    let unique := uniqueColors colors
    let k := min paletteSize (max 1 unique.length)
    match kMeansPalette unique k draws with
    | none => none
    | some centers =>
      let palette := lightenSaturatePalette lighten centers
      match (pixelOffsets data.length).foldlM (recolorPixel data palette)
          (List.replicate data.length 0) with
      | none => none
      | some output =>
        some ({ width := imageData.width, height := imageData.height, data := output }, palette)

/-! ## Specification-side notions -/

/-- Byte `c` (0 = R, 1 = G, 2 = B, 3 = A) of the pixel at column `x`, row `y`. -/
def channel (img : ImageData) (x y c : Nat) : Nat :=
  load img.data ((y * img.width + x) * 4 + c)

/-- The pixel at `(x, y)` is opaque: its alpha exceeds the threshold 20. -/
def isOpaque (pixels : List Nat) (width x y : Nat) : Prop :=
  20 < load pixels ((y * width + x) * 4 + 3)

instance instDecidableIsOpaque (pixels : List Nat) (width x y : Nat) :
    Decidable (isOpaque pixels width x y) := by
  unfold isOpaque; infer_instance

/-- The in-bounds pixels `(ny, nx)` of the 3x3 neighbourhood of `(x, y)`, row-major. -/
def inBoundsNeighbours (width height x y : Nat) : List (Nat × Nat) :=
  (List.range height ×ˢ List.range width).filter fun p =>
    decide (p.1 ≤ y + 1 ∧ y ≤ p.1 + 1 ∧ p.2 ≤ x + 1 ∧ x ≤ p.2 + 1)

/-- The values of channel `c` over the in-bounds 3x3 neighbourhood of `(x, y)`. -/
def neighbourValues (img : ImageData) (x y c : Nat) : List Nat :=
  (inBoundsNeighbours img.width img.height x y).map fun p => channel img p.2 p.1 c

/-- The RGB triples of the pixels `(x, y)` of the image whose alpha exceeds 20. -/
def opaqueTriples (img : ImageData) : Finset Color :=
  ((List.range img.height ×ˢ List.range img.width).filterMap fun p =>
    if 20 < channel img p.2 p.1 3 then
      some (channel img p.2 p.1 0, channel img p.2 p.1 1, channel img p.2 p.1 2)
    else none).toFinset

/-- The number `d` of distinct RGB triples among the pixels with alpha above 20. -/
def distinctColorCount (img : ImageData) : Nat := (opaqueTriples img).card

/-! ## Proof-side helpers -/

/-- Writes, for each `a` of the list in turn, the four values `v a 0 .. v a 3` at pixel
number `key a`. -/
def paintAll {α : Type} (key : α → Nat) (v : α → Nat → Nat) (buf : List Nat) (l : List α) :
    List Nat :=
  l.foldl (fun b a => store4 b (key a * 4) (v a 0) (v a 1) (v a 2) (v a 3)) buf

/-- The value `applyMedianFilter` writes for channel `c` of pixel `(x, y)`, before clamping. -/
def filteredValue (img : ImageData) (x y c : Nat) : Nat :=
  if channel img x y 3 ≤ alphaThreshold then channel img x y c
  else median ((neighbourIndices img.width img.height y x).map fun nIdx =>
    load img.data (nIdx + c))

/-- The rows (or columns) `pos - 1, pos, pos + 1` that lie in `0 .. n - 1`. -/
def axisList (n pos : Nat) : List Nat :=
  (if 0 < pos ∧ pos ≤ n then [pos - 1] else []) ++ (if pos < n then [pos] else []) ++
    (if pos + 1 < n then [pos + 1] else [])

/-- How many of `pos - 1, pos, pos + 1` lie in `0 .. n - 1`, for `pos < n`. -/
def inRangeCount (n pos : Nat) : Nat :=
  (if 0 < pos then 1 else 0) + 1 + (if pos + 1 < n then 1 else 0)

/-- The scanning loops run over an explicit list of `(y, x)` pairs. -/
def scanList (pixels : List Nat) (width : Nat) (b : Bounds) (l : List (Nat × Nat)) : Bounds :=
  l.foldl (fun b p => scanPixel pixels width b p.1 p.2) b

/-- The eye pair of `addEyesToPixelArt` for a box `b`, in integer arithmetic with floor
division. -/
def eyesOfBounds (b : Bounds) : EyePair :=
  let eyeY : Int := (b.minY : Int) + (3 * ((b.maxY : Int) - (b.minY : Int))) / 5
  let leftEyeX : Int := (b.minX : Int) + ((b.maxX : Int) - (b.minX : Int)) / 4
  let rightEyeX : Int := (b.minX : Int) + (3 * ((b.maxX : Int) - (b.minX : Int))) / 4
  { left := { pupil := { x := leftEyeX, y := eyeY },
              highlight := { x := leftEyeX + 1, y := eyeY } },
    right := { pupil := { x := rightEyeX - 1, y := eyeY },
               highlight := { x := rightEyeX, y := eyeY } },
    centerY := eyeY,
    bounds := b }

/-- The point lies inside a `width` by `height` buffer. -/
def Point.inBuffer (p : Point) (width height : Nat) : Prop :=
  0 ≤ p.x ∧ p.x < (width : Int) ∧ 0 ≤ p.y ∧ p.y < (height : Int)

instance instDecidableInBuffer (p : Point) (width height : Nat) :
    Decidable (p.inBuffer width height) := by
  unfold Point.inBuffer; infer_instance

/-- The value the recolouring loop writes for channel `c` of pixel number `p`, before
clamping. -/
def recolorValue (data : List Nat) (palette : List Color) (p c : Nat) : Nat :=
  if load data (p * 4 + 3) ≤ alphaThreshold then load data (p * 4 + c)
  else
    match nearestColor palette (load data (p * 4)) (load data (p * 4 + 1))
        (load data (p * 4 + 2)) with
    | none => 0
    | some nearest =>
      if c = 0 then nearest.1 else if c = 1 then nearest.2.1
      else if c = 2 then nearest.2.2 else load data (p * 4 + 3)

/-- The colour `q` is a nearest palette entry to `(r, g, b)` and the first such in palette
order. -/
def IsFirstNearest (palette : List Color) (r g b : Nat) (q : Color) : Prop :=
  ∃ i : Nat, palette[i]? = some q ∧
    (∀ q1 ∈ palette, dist2 q r g b ≤ dist2 q1 r g b) ∧
    ∀ j : Nat, j < i → ∀ q1 : Color, palette[j]? = some q1 → dist2 q r g b < dist2 q1 r g b

/-- The draws let the centre initialisation finish: when `K` is below the number `d` of
distinct opaque colours, every draw is an index below `d` and at least `K` distinct indices
occur. -/
def drawsSuffice (img : ImageData) (paletteSize : Nat) (draws : List Nat) : Prop :=
  paletteSize < distinctColorCount img →
    (∀ i ∈ draws, i < distinctColorCount img) ∧ paletteSize ≤ draws.toFinset.card

/-- The bytes the recolouring loop leaves in `output` for the palette `palette`. -/
def quantizedData (img : ImageData) (palette : List Color) : List Nat :=
  paintAll (fun p : Nat => p) (recolorValue img.data palette)
    (List.replicate img.data.length 0) (List.range (img.width * img.height))

/-- Every component of the colour is a byte. -/
def Color.isBytes (c : Color) : Prop := c.1 ≤ 255 ∧ c.2.1 ≤ 255 ∧ c.2.2 ≤ 255

/-- The image has a pixel inside the grid whose alpha exceeds 20. -/
def hasOpaquePixel (img : ImageData) : Prop :=
  ∃ x y, x < img.width ∧ y < img.height ∧ 20 < channel img x y 3

instance instDecidableDrawsSuffice (img : ImageData) (paletteSize : Nat) (draws : List Nat) :
    Decidable (drawsSuffice img paletteSize draws) := by
  unfold drawsSuffice; infer_instance

/-- A 2x2 sample buffer: three pixels with alpha above 20, one with alpha 10. -/
def sampleImage : ImageData :=
  { width := 2, height := 2,
    data := [1, 2, 3, 255, 5, 6, 7, 10, 9, 10, 11, 255, 13, 14, 15, 30] }

/-- A sample colour transform with byte results: each component capped at 255. -/
def sampleLighten (c : Color) : Color := (min c.1 255, min c.2.1 255, min c.2.2 255)

/-! ## The animator `TamagotchiAnimator` (animation.js)

Numbers are rationals.  `Math.random()` is a stream `rand` of values, read from index 0 by
the call that needs them; `performance.now()` is an argument; `sinTurns x` stands for
`Math.sin(x * Math.PI * 2)`.  A thrown `TypeError` or `RangeError` is `none`.  The canvas is
the list `display` of its RGBA bytes. -/

/-- `Math.round` on a rational: the nearest integer, halves rounded up. -/
def jsRound (q : ℚ) : Int := ⌊q + 1 / 2⌋

/-- The helper `clamp(value, min, max) = Math.min(max, Math.max(min, value))`. -/
def clamp (value lo hi : Int) : Int := min hi (max lo value)

/-- The remainder `a % b` of JavaScript: it has the sign of the dividend. -/
def jsMod (a b : ℚ) : ℚ :=
  if 0 ≤ a / b then a - b * (⌊a / b⌋ : ℚ) else a - b * (⌈a / b⌉ : ℚ)

/-- A colour `[r, g, b, a]`. -/
abbrev Rgba := Nat × Nat × Nat × Nat

/-- The constant `BLACK = [0, 0, 0, 255]`. -/
def BLACK : Rgba := (0, 0, 0, 255)

/-- The constant `WHITE = [255, 255, 255, 255]`. -/
def WHITE : Rgba := (255, 255, 255, 255)

/-- The record `winkState`; `endsAt` is absent until the first wink. -/
structure WinkState where
  active : Bool
  next : ℚ
  duration : ℚ
  endsAt : Option ℚ

/-- An entry `{ x, y, color }` of `edgePixels`. -/
structure EdgePixel where
  x : Nat
  y : Nat
  color : Rgba
deriving DecidableEq, Repr

/-- The part `{ minY, height }` of a stretch transform. -/
structure Span where
  minY : Int
  height : Int
deriving DecidableEq, Repr

/-- A transform `{ offsetX, offsetY, stretch }`; absent offsets read as 0. -/
structure Transform where
  offsetX : Int
  offsetY : Int
  stretch : Option Span
deriving DecidableEq, Repr

/-- The result `{ leftX, rightX, baseY }` of `getSimpleEyeLayout`. -/
structure EyeLayout where
  leftX : Int
  rightX : Int
  baseY : Int
deriving DecidableEq, Repr

/-- The gaze direction `"left"` or `"right"`. -/
inductive Direction where
  | left
  | right
deriving DecidableEq, Repr

/-- The fields of a `TamagotchiAnimator`, with the canvas content as `display`. -/
structure Animator where
  width : Nat
  height : Nat
  mode : String
  basePixels : Option (List Nat)
  bodyPixels : Option (List Nat)
  bounds : Option Bounds
  eyes : Option EyePair
  frameBuffer : Option (List Nat)
  outputImageData : Option ImageData
  running : Bool
  lastTimestamp : ℚ
  tearPhase : ℚ
  tearPeriod : ℚ
  winkState : WinkState
  sleepElapsed : ℚ
  sleepDuration : ℚ
  edgePixels : List EdgePixel
  display : List Nat

/-- Source `constructor(canvas)` for a canvas of the given size and content. -/
def newAnimator (canvasWidth canvasHeight : Nat) (content : List Nat) : Animator :=
  { width := canvasWidth, height := canvasHeight, mode := "calm",
    basePixels := none, bodyPixels := none, bounds := none, eyes := none,
    frameBuffer := none, outputImageData := none, running := false, lastTimestamp := 0,
    tearPhase := 0, tearPeriod := 1600,
    winkState := { active := false, next := 0, duration := 140, endsAt := none },
    sleepElapsed := 0, sleepDuration := 4000, edgePixels := [], display := content }

/-- Source `clearCanvas`: `clearRect(0, 0, width, height)` on a canvas of that size. -/
def clearCanvas (a : Animator) : Animator :=
  { a with display := List.replicate (a.width * a.height * 4) 0 }

/-- Source `setMode`: `this.mode = mode || "calm"`; the empty string is the falsy string. -/
def setMode (a : Animator) (mode : String) : Animator :=
  { a with mode := if mode = "" then "calm" else mode }

/-- Source `scheduleNextWink`, with `r` the value of `Math.random()`. -/
def scheduleNextWink (a : Animator) (baseTimestamp r : ℚ) : Animator :=
  let delay := 1000 + r * 1000
  { a with winkState := { a.winkState with next := baseTimestamp + delay } }

/-- Source `ensureRunning`, with `now` the value of `performance.now()`. -/
def ensureRunning (a : Animator) (now : ℚ) : Animator :=
  if a.running then a else { a with running := true, lastTimestamp := now }

/-- The offsets `[0, -1], [1, 0], [0, 1], [-1, 0]` of `computeEdgePixels`. -/
def neighborOffsets : List (Int × Int) := [(0, -1), (1, 0), (0, 1), (-1, 0)]

/-- The test `isEdge` of `computeEdgePixels` at `(x, y)`. -/
def isEdge (pixels : List Nat) (width height x y : Nat) : Bool :=
  neighborOffsets.any fun o =>
    let nx : Int := (x : Int) + o.1
    let ny : Int := (y : Int) + o.2
    if nx < 0 ∨ ny < 0 ∨ nx ≥ (width : Int) ∨ ny ≥ (height : Int) then true
    else
      let nIdx := ((ny * (width : Int) + nx) * 4).toNat
      decide (load pixels (nIdx + 3) ≤ 20)

/-- Body of the loops of `computeEdgePixels` at `(x, y)`. -/
def edgeStep (pixels : List Nat) (width height : Nat) (edges : List EdgePixel) (y x : Nat) :
    List EdgePixel :=
  let idx := (y * width + x) * 4
  if load pixels (idx + 3) ≤ 20 then edges
  else if isEdge pixels width height x y then
    edges ++ [{ x := x, y := y,
                color := (load pixels idx, load pixels (idx + 1), load pixels (idx + 2),
                  load pixels (idx + 3)) }]
  else edges

/-- Source `computeEdgePixels`. -/
def computeEdgePixels (a : Animator) : List EdgePixel :=
  match a.bodyPixels with
  | none => []
  | some pixels =>
    (List.range a.height).foldl
      (fun edges y => (List.range a.width).foldl
        (fun edges x => edgeStep pixels a.width a.height edges y x) edges) []

/-- Source `setSprite({ imageData, eyes })`; `rand 0` and `rand 1` are the two values of
`Math.random()`, `now` and `nowRun` the two readings of `performance.now()`. -/
def setSprite (a : Animator) (imageData : Option ImageData) (eyes : Option EyePair)
    (rand : Nat → ℚ) (now nowRun : ℚ) : Animator :=
  match imageData with
  | none => clearCanvas { a with bodyPixels := none, eyes := none }
  | some img =>
    let a1 : Animator :=
      { a with width := img.width, height := img.height,
               display := List.replicate (img.width * img.height * 4) 0,
               basePixels := some img.data, bodyPixels := some img.data, eyes := eyes,
               bounds := some (match eyes with
                 | some e => e.bounds
                 | none => computeBounds img.data img.width img.height) }
    let a2 : Animator := { a1 with edgePixels := computeEdgePixels a1 }
    let total := a2.width * a2.height * 4
    let a3 : Animator :=
      { a2 with frameBuffer := some (List.replicate total 0),
                outputImageData := some { width := a2.width, height := a2.height,
                                          data := List.replicate total 0 },
                tearPhase := 0, sleepElapsed := 0, sleepDuration := 3000 + rand 0 * 2000 }
    ensureRunning (scheduleNextWink a3 now (rand 1)) nowRun

/-- The method `dst.set(src)` of a typed array: a `RangeError` when `src` is longer. -/
def typedSet (dst src : List Nat) : Option (List Nat) :=
  if src.length ≤ dst.length then some (src ++ dst.drop src.length) else none

/-- Source `ensureFrameBuffer`. -/
def ensureFrameBuffer (a : Animator) : Option (List Nat) :=
  match a.bodyPixels with
  | none => none
  | some body =>
    match a.frameBuffer with
    | none => some (List.replicate body.length 0)
    | some fb => if fb.length ≠ body.length then some (List.replicate body.length 0) else some fb

/-- Source `prepareFrameWithBody`: the frame after `frame.set(this.bodyPixels)`. -/
def prepareFrameWithBody (a : Animator) : Option (List Nat) :=
  match ensureFrameBuffer a, a.bodyPixels with
  | some frame, some body => typedSet frame body
  | _, _ => none

/-- Source `prepareEmptyFrame`: the frame after `frame.fill(0)`. -/
def prepareEmptyFrame (a : Animator) : Option (List Nat) :=
  match ensureFrameBuffer a with
  | some frame => some (List.replicate frame.length 0)
  | none => none

/-- Source `commitFrame`; the frame buffer of the animator is the frame that was drawn. -/
def commitFrame (a : Animator) (frame : List Nat) : Option Animator :=
  let out : ImageData :=
    match a.outputImageData with
    | none => { width := a.width, height := a.height,
                data := List.replicate (a.width * a.height * 4) 0 }
    | some o =>
      if o.width ≠ a.width then
        { width := a.width, height := a.height,
          data := List.replicate (a.width * a.height * 4) 0 }
      else o
  match typedSet out.data frame with
  | none => none
  | some data =>
    some { a with frameBuffer := some frame,
                  outputImageData := some { out with data := data },
                  display := data }

/-- Source `setPixel`. -/
def setPixel (a : Animator) (buffer : List Nat) (x y : Int) (color : Rgba) : List Nat :=
  if x < 0 ∨ y < 0 ∨ x ≥ (a.width : Int) ∨ y ≥ (a.height : Int) then buffer
  else
    let idx := ((y * (a.width : Int) + x) * 4).toNat
    store4 buffer idx color.1 color.2.1 color.2.2.1 color.2.2.2

/-- Source `getBodyPixel`. -/
def getBodyPixel (a : Animator) (x y : Int) : Option Rgba :=
  if x < 0 ∨ y < 0 ∨ x ≥ (a.width : Int) ∨ y ≥ (a.height : Int) then some (0, 0, 0, 0)
  else
    match a.bodyPixels with
    | none => none
    | some body =>
      let idx := ((y * (a.width : Int) + x) * 4).toNat
      some (load body idx, load body (idx + 1), load body (idx + 2), load body (idx + 3))

/-- Source `restoreBodyPixel`. -/
def restoreBodyPixel (a : Animator) (frame : List Nat) (x y : Int) : Option (List Nat) :=
  match getBodyPixel a x y with
  | none => none
  | some color => some (setPixel a frame x y color)

/-- Source `getSimpleEyeLayout(shiftTowardsCenter)`. -/
def getSimpleEyeLayout (a : Animator) (shiftTowardsCenter : Bool) : Option EyeLayout :=
  match a.bounds with
  | none => none
  | some b =>
    let width : Int := max 1 ((b.maxX : Int) - (b.minX : Int))
    let leftX0 : Int := clamp ((b.minX : Int) + ⌊(width : ℚ) * 0.25⌋) 0 ((a.width : Int) - 1)
    let rightX0 : Int := clamp ((b.minX : Int) + ⌈(width : ℚ) * 0.75⌉) 0 ((a.width : Int) - 1)
    let rightX1 : Int := if leftX0 = rightX0 then clamp (leftX0 + 2) 0 ((a.width : Int) - 1)
      else rightX0
    let baseY : Int := clamp
      (jsRound ((b.minY : ℚ) + ((b.maxY : ℚ) - (b.minY : ℚ)) * 0.4)) 0 ((a.height : Int) - 2)
    if shiftTowardsCenter then
      let leftX2 := clamp (leftX0 + 1) 0 ((a.width : Int) - 1)
      let rightX2 := clamp (rightX1 - 1) 0 ((a.width : Int) - 1)
      if leftX2 ≥ rightX2 then
        some { leftX := max 0 (leftX2 - 1), rightX := min ((a.width : Int) - 1) (rightX2 + 1),
               baseY := baseY }
      else some { leftX := leftX2, rightX := rightX2, baseY := baseY }
    else some { leftX := leftX0, rightX := rightX1, baseY := baseY }

/-- Source `getEyePosition(side, fallbackLayout)`; `side` is `true` for `"left"`. -/
def getEyePosition (a : Animator) (isLeft : Bool) (fallbackLayout : EyeLayout) : Point :=
  match a.eyes with
  | some e =>
    let eye := if isLeft then e.left else e.right
    { x := clamp (jsRound (eye.pupil.x : ℚ)) 0 ((a.width : Int) - 1),
      y := clamp (jsRound (eye.pupil.y : ℚ)) 0 ((a.height : Int) - 1) }
  | none =>
    { x := if isLeft then fallbackLayout.leftX else fallbackLayout.rightX,
      y := fallbackLayout.baseY }

/-- Source `computeEyeDirection(timestamp, period)`. -/
def computeEyeDirection (sinTurns : ℚ → ℚ) (timestamp period : ℚ) : Direction :=
  let wave := sinTurns (timestamp / period)
  if wave ≥ 0 then Direction.left else Direction.right

/-- Source `mapYWithTransform(y, transform)`. -/
def mapYWithTransform (a : Animator) (y : Int) (transform : Transform) : Option Int :=
  match transform.stretch with
  | none => some (clamp (jsRound (y : ℚ)) 0 ((a.height : Int) - 1))
  | some st =>
    match a.bounds with
    | none => none
    | some b =>
      let bodyHeight : Int := max 1 ((b.maxY : Int) - (b.minY : Int) + 1)
      let ratio : ℚ := ((y : ℚ) - (b.minY : ℚ)) / (bodyHeight : ℚ)
      let mapped : ℚ := (st.minY : ℚ) + ratio * ((st.height : ℚ) - 1)
      some (clamp (jsRound mapped) 0 ((a.height : Int) - 1))

/-- Source `transformEye(eye, transform)`. -/
def transformEye (a : Animator) (eye : EyePoint) (transform : Transform) : Option EyePoint :=
  match mapYWithTransform a eye.pupil.y transform,
      mapYWithTransform a eye.highlight.y transform with
  | some pupilY, some highlightY =>
    some
      { pupil :=
          { x := clamp (jsRound ((eye.pupil.x + transform.offsetX : Int) : ℚ)) 0
              ((a.width : Int) - 1),
            y := clamp (jsRound ((pupilY + transform.offsetY : Int) : ℚ)) 0
              ((a.height : Int) - 1) },
        highlight :=
          { x := clamp (jsRound ((eye.highlight.x + transform.offsetX : Int) : ℚ)) 0
              ((a.width : Int) - 1),
            y := clamp (jsRound ((highlightY + transform.offsetY : Int) : ℚ)) 0
              ((a.height : Int) - 1) } }
  | _, _ => none

/-- Source `paintEye(frame, eye, direction)`. -/
def paintEye (a : Animator) (frame : List Nat) (eye : EyePoint) (direction : Direction) :
    List Nat :=
  match direction with
  | Direction.right =>
    setPixel a (setPixel a frame eye.highlight.x eye.highlight.y BLACK)
      eye.pupil.x eye.pupil.y WHITE
  | Direction.left =>
    setPixel a (setPixel a frame eye.pupil.x eye.pupil.y BLACK)
      eye.highlight.x eye.highlight.y WHITE

/-- Source `drawFacingEyes(frame, direction, transform)`. -/
def drawFacingEyes (a : Animator) (frame : List Nat) (direction : Direction)
    (transform : Transform) : Option (List Nat) :=
  match a.eyes with
  | none => some frame
  | some e =>
    match transformEye a e.left transform, transformEye a e.right transform with
    | some left, some right => some (paintEye a (paintEye a frame left direction) right direction)
    | _, _ => none

/-- Source `drawVerticalEyeLine(frame, column, baseY, length)`. -/
def drawVerticalEyeLine (a : Animator) (frame : List Nat) (column baseY : Int) (length : Nat) :
    List Nat :=
  (List.range length).foldl
    (fun frame i =>
      let y := clamp (baseY + (i : Int)) 0 ((a.height : Int) - 1)
      setPixel a frame column y BLACK)
    frame

/-- Source `computeSleepyOpacity(phase)`. -/
def computeSleepyOpacity (phase : ℚ) : ℚ :=
  if phase < 0.7 then 1 - phase / 0.7
  else if phase < 0.85 then 0
  else 1

/-- Source `drawSleepyEye(frame, x, baseY, opacity)`. -/
def drawSleepyEye (a : Animator) (frame : List Nat) (x baseY : Int) (opacity : ℚ) :
    Option (List Nat) :=
  let bottomY := clamp (baseY + 1) 0 ((a.height : Int) - 1)
  let frame1 := setPixel a frame x bottomY BLACK
  let topY := clamp baseY 0 ((a.height : Int) - 1)
  if opacity ≤ 0 then restoreBodyPixel a frame1 x topY
  else if opacity ≥ 1 then some (setPixel a frame1 x topY BLACK)
  else
    match getBodyPixel a x topY with
    | none => none
    | some baseColor =>
      let mix := fun (src dst : Nat) => (jsRound ((src : ℚ) * (1 - opacity) + (dst : ℚ) * opacity)).toNat
      some (setPixel a frame1 x topY
        (mix baseColor.1 0, mix baseColor.2.1 0, mix baseColor.2.2.1 0, 255))

/-- Source `updateWinkState(timestamp)`, with `r` the value of `Math.random()`. -/
def updateWinkState (a : Animator) (timestamp r : ℚ) : Animator :=
  let a1 : Animator :=
    if timestamp ≥ a.winkState.next then
      let endsAt := timestamp + a.winkState.duration
      scheduleNextWink
        { a with winkState := { a.winkState with active := true, endsAt := some endsAt } }
        endsAt r
    else a
  let ended : Bool :=
    match a1.winkState.endsAt with
    | none => false
    | some e => decide (timestamp ≥ e)
  if a1.winkState.active ∧ ended then
    { a1 with winkState := { a1.winkState with active := false } }
  else a1

/-- Body of the inner loop of `drawBodyWithOffset` at source pixel `(x, y)`, row `ny`. -/
def drawBodyPixel (source : List Nat) (width : Nat) (offsetX : Int) (ny : Int)
    (frame : List Nat) (y x : Nat) : List Nat :=
  let nx : Int := (x : Int) + offsetX
  if nx < 0 ∨ nx ≥ (width : Int) then frame
  else
    let srcIdx := (y * width + x) * 4
    let alpha := load source (srcIdx + 3)
    if alpha = 0 then frame
    else
      let destIdx := ((ny * (width : Int) + nx) * 4).toNat
      store4 frame destIdx (load source srcIdx) (load source (srcIdx + 1))
        (load source (srcIdx + 2)) alpha

/-- Source `drawBodyWithOffset(frame, offsetX, offsetY)`: the frame it leaves. -/
def drawBodyWithOffset (a : Animator) (frame : List Nat) (offsetX offsetY : Int) :
    Option (List Nat) :=
  match a.bodyPixels with
  | none => none
  | some source =>
    some ((List.range a.height).foldl
      (fun (frame : List Nat) (y : Nat) =>
        let ny : Int := (y : Int) + offsetY
        if ny < 0 ∨ ny ≥ (a.height : Int) then frame
        else (List.range a.width).foldl
          (fun frame x => drawBodyPixel source a.width offsetX ny frame y x) frame)
      frame)

/-- The span `{ minY: targetMinY, height: newHeight }` of `drawAnchoredVerticalStretch`. -/
def stretchSpan (b : Bounds) (height : Nat) (scale : ℚ) : Span :=
  let bodyHeight : Int := max 1 ((b.maxY : Int) - (b.minY : Int) + 1)
  let newHeight : Int := clamp (jsRound ((bodyHeight : ℚ) * scale)) 1 (height : Int)
  let targetMaxY : Int := (b.maxY : Int)
  let targetMinY : Int := clamp (targetMaxY - newHeight + 1) 0 ((height : Int) - newHeight)
  { minY := targetMinY, height := newHeight }

/-- The blend `Math.round(a * (1 - t) + b * t)` of two array reads; an absent operand makes
the value `NaN`, which a `Uint8ClampedArray` stores as 0. -/
def mixBytes (a b : Option Nat) (t : ℚ) : Nat :=
  match a, b with
  | some a, some b => (jsRound ((a : ℚ) * (1 - t) + (b : ℚ) * t)).toNat
  | _, _ => 0

/-- Body of the inner loop of `drawAnchoredVerticalStretch` at column `x`, step `step`. -/
def stretchPixel (base : List Nat) (width : Nat) (b : Bounds) (span : Span)
    (frame : List Nat) (x step : Nat) : List Nat :=
  let bodyHeight : Int := max 1 ((b.maxY : Int) - (b.minY : Int) + 1)
  let destY : Int := span.minY + (step : Int)
  let ratio : ℚ := if span.height = 1 then 0 else (step : ℚ) / ((span.height : ℚ) - 1)
  let sourceY : ℚ := (b.minY : ℚ) + ratio * ((bodyHeight : ℚ) - 1)
  let y0 : Int := ⌊sourceY⌋
  let y1 : Int := min (b.maxY : Int) (y0 + 1)
  let t : ℚ := sourceY - (y0 : ℚ)
  let idx0 := ((y0 * (width : Int) + (x : Int)) * 4).toNat
  let idx1 := ((y1 * (width : Int) + (x : Int)) * 4).toNat
  let alpha0 := base[idx0 + 3]?
  let alpha1 := base[idx1 + 3]?
  if alpha0.getD 0 = 0 ∧ alpha1.getD 0 = 0 then frame
  else
    let destIdx := ((destY * (width : Int) + (x : Int)) * 4).toNat
    store4 frame destIdx (mixBytes base[idx0]? base[idx1]? t)
      (mixBytes base[idx0 + 1]? base[idx1 + 1]? t)
      (mixBytes base[idx0 + 2]? base[idx1 + 2]? t) (mixBytes alpha0 alpha1 t)

/-- Source `drawAnchoredVerticalStretch(frame, scale)`: the frame it leaves and the span. -/
def drawAnchoredVerticalStretch (a : Animator) (frame : List Nat) (scale : ℚ) :
    Option (List Nat × Span) :=
  match a.bodyPixels, a.bounds with
  | some base, some b =>
    let span := stretchSpan b a.height scale
    some ((List.range' b.minX (b.maxX + 1 - b.minX)).foldl
      (fun frame x => (List.range span.height.toNat).foldl
        (fun frame step => stretchPixel base a.width b span frame x step) frame)
      frame, span)
  | _, _ => none

/-- Source `overlayEdgeShake(frame)`; edge number `i` reads `rand (2 * i)` and
`rand (2 * i + 1)` for its two calls of `jitter`. -/
def overlayEdgeShake (a : Animator) (frame : List Nat) (rand : Nat → ℚ) : List Nat :=
  (a.edgePixels.foldl
    (fun (st : List Nat × Nat) edge =>
      let dx : Int := ⌊rand st.2 * 3⌋ - 1
      let dy : Int := ⌊rand (st.2 + 1) * 3⌋ - 1
      let nx := clamp ((edge.x : Int) + dx) 0 ((a.width : Int) - 1)
      let ny := clamp ((edge.y : Int) + dy) 0 ((a.height : Int) - 1)
      (setPixel a st.1 nx ny edge.color, st.2 + 2))
    (frame, 0)).1

/-- Source `drawSadEyesAndTears(frame, delta)`: the frame it leaves and the animator with
the new `tearPhase`. -/
def drawSadEyesAndTears (a : Animator) (frame : List Nat) (delta : ℚ) :
    Option (List Nat × Animator) :=
  match getSimpleEyeLayout a false, a.bounds with
  | some layout, some b =>
    let leftEye := getEyePosition a true layout
    let rightEye := getEyePosition a false layout
    let paintEyePair := fun (frame : List Nat) (eye : Point) =>
      let whiteX := clamp (eye.x + 1) 0 ((a.width : Int) - 1)
      setPixel a (setPixel a frame eye.x eye.y BLACK) whiteX eye.y WHITE
    let frame1 := paintEyePair frame leftEye
    let frame2 := paintEyePair frame1 rightEye
    let tearPhase : ℚ := jsMod (a.tearPhase + delta / a.tearPeriod) 1
    let dropProgress : ℚ := if tearPhase < 0.9 then tearPhase / 0.9 else 0
    let tear := fun (frame : List Nat) (eye : Point) =>
      let startY := clamp (eye.y + 1) 0 ((a.height : Int) - 1)
      let endY := clamp (b.maxY : Int) 0 ((a.height : Int) - 1)
      let tearY : Int :=
        if tearPhase < 0.9 then
          jsRound ((startY : ℚ) + ((endY : ℚ) - (startY : ℚ)) * dropProgress)
        else startY
      setPixel a frame eye.x tearY WHITE
    some (tear (tear frame2 leftEye) rightEye, { a with tearPhase := tearPhase })
  | _, _ => none

/-- Source `renderCalm(timestamp)`. -/
def renderCalm (a : Animator) (sinTurns : ℚ → ℚ) (timestamp : ℚ) : Option Animator :=
  match prepareFrameWithBody a with
  | none => none
  | some frame =>
    let direction := computeEyeDirection sinTurns timestamp 3200
    match drawFacingEyes a frame direction { offsetX := 0, offsetY := 0, stretch := none } with
    | none => none
    | some frame1 => commitFrame a frame1

/-- Source `renderExcited(timestamp)`. -/
def renderExcited (a : Animator) (sinTurns : ℚ → ℚ) (timestamp : ℚ) : Option Animator :=
  match prepareEmptyFrame a with
  | none => none
  | some frame =>
    let period : ℚ := 420
    let stretch : ℚ := 1 + 0.14 * sinTurns (jsMod timestamp period / period)
    match drawAnchoredVerticalStretch a frame stretch with
    | none => none
    | some (frame1, span) =>
      let direction := computeEyeDirection sinTurns timestamp 3200
      match drawFacingEyes a frame1 direction
          { offsetX := 0, offsetY := 0, stretch := some span } with
      | none => none
      | some frame2 => commitFrame a frame2

/-- Source `renderHappy(timestamp)`. -/
def renderHappy (a : Animator) (sinTurns : ℚ → ℚ) (timestamp : ℚ) : Option Animator :=
  match prepareEmptyFrame a with
  | none => none
  | some frame =>
    let offset : Int := jsRound ((sinTurns (timestamp / 550) + 1) / 2)
    match drawBodyWithOffset a frame offset 0 with
    | none => none
    | some frame1 =>
      let direction := computeEyeDirection sinTurns timestamp 3200
      match drawFacingEyes a frame1 direction
          { offsetX := offset, offsetY := 0, stretch := none } with
      | none => none
      | some frame2 => commitFrame a frame2

/-- Source `renderSad(delta)`. -/
def renderSad (a : Animator) (rand : Nat → ℚ) (delta : ℚ) : Option Animator :=
  match prepareFrameWithBody a with
  | none => none
  | some frame =>
    match drawSadEyesAndTears a (overlayEdgeShake a frame rand) delta with
    | none => none
    | some (frame1, a1) => commitFrame a1 frame1

/-- Source `renderWink(timestamp)`. -/
def renderWink (a : Animator) (rand : Nat → ℚ) (timestamp : ℚ) : Option Animator :=
  match prepareFrameWithBody a with
  | none => none
  | some frame =>
    let a1 := updateWinkState a timestamp (rand 0)
    match getSimpleEyeLayout a1 true with
    | none => none
    | some layout =>
      let frame1 := drawVerticalEyeLine a1 frame layout.leftX layout.baseY 2
      if a1.winkState.active then
        match restoreBodyPixel a1 frame1 layout.rightX layout.baseY with
        | none => none
        | some frame2 =>
          commitFrame a1 (setPixel a1 frame2 layout.rightX
            (clamp (layout.baseY + 1) 0 ((a1.height : Int) - 1)) BLACK)
      else commitFrame a1 (drawVerticalEyeLine a1 frame1 layout.rightX layout.baseY 2)

/-- Source `renderSleepy(delta)`. -/
def renderSleepy (a : Animator) (rand : Nat → ℚ) (delta : ℚ) : Option Animator :=
  match prepareFrameWithBody a with
  | none => none
  | some frame =>
    match getSimpleEyeLayout a true with
    | none => none
    | some layout =>
      let elapsed0 : ℚ := a.sleepElapsed + delta
      let a1 : Animator :=
        if elapsed0 ≥ a.sleepDuration then
          { a with sleepElapsed := jsMod elapsed0 a.sleepDuration,
                   sleepDuration := 3000 + rand 0 * 2000 }
        else { a with sleepElapsed := elapsed0 }
      let phase : ℚ := a1.sleepElapsed / a1.sleepDuration
      let opacity := computeSleepyOpacity phase
      match drawSleepyEye a1 frame layout.leftX layout.baseY opacity with
      | none => none
      | some frame1 =>
        match drawSleepyEye a1 frame1 layout.rightX layout.baseY opacity with
        | none => none
        | some frame2 => commitFrame a1 frame2

/-- Source `render(timestamp, delta)`. -/
def render (a : Animator) (rand : Nat → ℚ) (sinTurns : ℚ → ℚ) (timestamp delta : ℚ) :
    Option Animator :=
  match a.bodyPixels with
  | none => some (clearCanvas a)
  | some _ =>
    if a.mode = "excited" then renderExcited a sinTurns timestamp
    else if a.mode = "happy" then renderHappy a sinTurns timestamp
    else if a.mode = "sad" then renderSad a rand delta
    else if a.mode = "wink" then renderWink a rand timestamp
    else if a.mode = "sleepy" then renderSleepy a rand delta
    else renderCalm a sinTurns timestamp

/-! ## Double-precision refinement of the tear phase update -/

/-- The six mode names. -/
def modeNames : List String := ["calm", "excited", "happy", "sad", "wink", "sleepy"]

/-- A 1x1 sprite with one opaque pixel. -/
def dotImage : ImageData := { width := 1, height := 1, data := [9, 9, 9, 255] }

/-- A newly constructed animator in which a wink has just started: `updateWinkState(0)`. -/
def winkingAnimator : Animator := updateWinkState (newAnimator 1 1 [0, 0, 0, 0]) 0 0

/-- Conditional painting: item `a` writes the four values `f 0 .. f 3` at pixel number
`key a` when `v a = some f`, and nothing when `v a = none`. -/
def paintSome {α : Type} (key : α → Nat) (v : α → Option (Nat → Nat)) (buf : List Nat)
    (l : List α) : List Nat :=
  l.foldl
    (fun b a =>
      match v a with
      | none => b
      | some f => store4 b (key a * 4) (f 0) (f 1) (f 2) (f 3))
    buf

/-- A sprite is installed: `bodyPixels` holds `4 * width * height` bytes. -/
def Animator.Installed (a : Animator) (body : List Nat) : Prop :=
  a.bodyPixels = some body ∧ body.length = a.width * a.height * 4 ∧ ∀ v ∈ body, v ≤ 255

/-- Byte `c` of the pixel at column `x`, row `y` of a frame of the animator. -/
def framePixel (a : Animator) (frame : List Nat) (x y c : Nat) : Nat :=
  load frame ((y * a.width + x) * 4 + c)

/-- The frame of `copyWithOffset(0, 0)`: `drawBodyWithOffset(frame, 0, 0)` on the frame of
`prepareEmptyFrame`. -/
def copyWithZeroOffset (a : Animator) : Option (List Nat) :=
  match prepareEmptyFrame a with
  | none => none
  | some frame => drawBodyWithOffset a frame 0 0

/-- A 1x1 sprite whose pixel has alpha 0 and a red byte. -/
def ghostImage : ImageData := { width := 1, height := 1, data := [255, 0, 0, 0] }

/-- The animator after installing `ghostImage` on a new animator. -/
def ghostAnimator : Animator :=
  setSprite (newAnimator 1 1 [0, 0, 0, 0]) (some ghostImage) none (fun _ => 0) 0 0

/-- The animator after installing `sampleImage` on a new animator. -/
def sampleAnimator : Animator :=
  setSprite (newAnimator 2 2 []) (some sampleImage) none (fun _ => 0) 0 0

/-- The box lies inside a `width` by `height` buffer and is not empty. -/
def Bounds.inside (b : Bounds) (width height : Nat) : Prop :=
  b.minX ≤ b.maxX ∧ b.maxX < width ∧ b.minY ≤ b.maxY ∧ b.maxY < height

instance instDecidableBoundsInside (b : Bounds) (width height : Nat) :
    Decidable (b.inside width height) := by
  unfold Bounds.inside; infer_instance

/-- A 1x5 sprite: rows 0 to 3 opaque, row 4 transparent. -/
def tallImage : ImageData :=
  { width := 1, height := 5,
    data := [9, 9, 9, 255, 9, 9, 9, 255, 9, 9, 9, 255, 9, 9, 9, 255, 0, 0, 0, 0] }

/-- The animator after installing `tallImage` on a new animator. -/
def tallAnimator : Animator :=
  setSprite (newAnimator 1 5 []) (some tallImage) none (fun _ => 0) 0 0

/-- What `drawAnchoredVerticalStretch` at scale 1 writes for column `p.1` and step `p.2`:
the bytes of the base pixel in row `minY + step`, unless the alpha of that pixel and of the
pixel in row `min(maxY, minY + step + 1)` are both 0. -/
def unitStretchValue (body : List Nat) (width : Nat) (b : Bounds) (p : Nat × Nat) :
    Option (Nat → Nat) :=
  if load body (((b.minY + p.2) * width + p.1) * 4 + 3) = 0 ∧
      load body ((min b.maxY (b.minY + p.2 + 1) * width + p.1) * 4 + 3) = 0 then none
  else some fun c => load body (((b.minY + p.2) * width + p.1) * 4 + c)

/-- The frame of `verticalStretch(1.0)`: `drawAnchoredVerticalStretch(frame, 1)` on the frame
of `prepareEmptyFrame`. -/
def unitStretchFrame (a : Animator) : Option (List Nat × Span) :=
  match prepareEmptyFrame a with
  | none => none
  | some frame => drawAnchoredVerticalStretch a frame 1

/-- Component `c` (0 = R, 1 = G, 2 = B, 3 = A) of a colour `[r, g, b, a]`. -/
def Rgba.chan (color : Rgba) (c : Nat) : Nat :=
  if c = 0 then color.1 else if c = 1 then color.2.1 else if c = 2 then color.2.2.1
  else color.2.2.2

/-- A newly constructed animator after `setSprite({ imageData, eyes })` and
`setMode("wink")`. -/
def freshWinkAnimator (canvasWidth canvasHeight : Nat) (content : List Nat) (img : ImageData)
    (eyes : Option EyePair) (rand : Nat → ℚ) (now nowRun : ℚ) : Animator :=
  setMode (setSprite (newAnimator canvasWidth canvasHeight content) (some img) eyes rand now
    nowRun) "wink"

/-! ## The colour transform of `lightenSaturatePalette` over the rationals -/

/-- Source `rgbToHsl(r, g, b)`: the triple `(h, s, l)`. -/
def rgbToHsl (r0 g0 b0 : ℚ) : ℚ × ℚ × ℚ :=
  let r := r0 / 255
  let g := g0 / 255
  let b := b0 / 255
  let mx := max r (max g b)
  let mn := min r (min g b)
  let l := (mx + mn) / 2
  if mx = mn then (0, 0, l)
  else
    let d := mx - mn
    let s := if l > 0.5 then d / (2 - mx - mn) else d / (mx + mn)
    let h := if mx = r then (g - b) / d + (if g < b then 6 else 0)
      else if mx = g then (b - r) / d + 2
      else (r - g) / d + 4
    (h / 6, s, l)

/-- The local function `hue2rgb(p, q, t)` of `hslToRgb`. -/
def hue2rgb (p q t0 : ℚ) : ℚ :=
  let t1 := if t0 < 0 then t0 + 1 else t0
  let t := if t1 > 1 then t1 - 1 else t1
  if t < 1 / 6 then p + (q - p) * 6 * t
  else if t < 1 / 2 then q
  else if t < 2 / 3 then p + (q - p) * (2 / 3 - t) * 6
  else p

/-- Source `hslToRgb(h, s, l)`: the rounded triple `(r, g, b)`. -/
def hslToRgb (h s l : ℚ) : Int × Int × Int :=
  if s = 0 then (jsRound (l * 255), jsRound (l * 255), jsRound (l * 255))
  else
    let q := if l < 0.5 then l * (1 + s) else l + s - l * s
    let p := 2 * l - q
    (jsRound (hue2rgb p q (h + 1 / 3) * 255), jsRound (hue2rgb p q h * 255),
      jsRound (hue2rgb p q (h - 1 / 3) * 255))

/-- The map applied to each palette entry by `lightenSaturatePalette`, in exact arithmetic:
saturation times 1.15 capped at 1, lightness kept. -/
def lightenSaturateColor (c : Color) : Color :=
  let hsl := rgbToHsl (c.1 : ℚ) (c.2.1 : ℚ) (c.2.2 : ℚ)
  let ns := min 1 (hsl.2.1 * 1.15)
  let rgb := hslToRgb hsl.1 ns hsl.2.2
  (rgb.1.toNat, rgb.2.1.toNat, rgb.2.2.toNat)

/-- The buffer of the given size in which every pixel is `px`. -/
def solidImage (width height : Nat) (px : Rgba) : ImageData :=
  { width := width, height := height,
    data := (List.range (width * height * 4)).map fun i => px.chan (i % 4) }

/-- Every pixel of the image has the RGB colour `c` and an alpha above 20. -/
def uniformOpaque (img : ImageData) (c : Color) : Prop :=
  ∀ x y, x < img.width → y < img.height →
    channel img x y 0 = c.1 ∧ channel img x y 1 = c.2.1 ∧ channel img x y 2 = c.2.2 ∧
      20 < channel img x y 3

/-- A 2x1 buffer of one colour with alphas 100 and 200. -/
def twoAlphaImage : ImageData :=
  { width := 2, height := 1, data := [5, 5, 5, 100, 5, 5, 5, 200] }

/-- The sample sprite installed on a new animator, then `setMode("sad")`. -/
def sadAnimator : Animator := setMode sampleAnimator "sad"

/-- The pixel `(x, y)` of the buffer has alpha above 20 and one of its four orthogonal
neighbours lies outside the buffer or has alpha at most 20. -/
def isEdgePixel (pixels : List Nat) (width height x y : Nat) : Prop :=
  isOpaque pixels width x y ∧
    (x = 0 ∨ y = 0 ∨ x + 1 = width ∨ y + 1 = height ∨
      ¬ isOpaque pixels width (x - 1) y ∨ ¬ isOpaque pixels width (x + 1) y ∨
      ¬ isOpaque pixels width x (y - 1) ∨ ¬ isOpaque pixels width x (y + 1))

instance instDecidableIsEdgePixel (pixels : List Nat) (width height x y : Nat) :
    Decidable (isEdgePixel pixels width height x y) := by
  unfold isEdgePixel isOpaque; infer_instance

/-- The edge pixels as the specification lists them: the pixels of the row-major grid that
satisfy `isEdgePixel`, each with the RGBA bytes of the buffer at its position. -/
def edgePixelsSpec (pixels : List Nat) (width height : Nat) : List EdgePixel :=
  ((List.range height ×ˢ List.range width).filter fun p =>
    decide (isEdgePixel pixels width height p.2 p.1)).map fun p =>
    { x := p.2, y := p.1,
      color := (load pixels ((p.1 * width + p.2) * 4), load pixels ((p.1 * width + p.2) * 4 + 1),
        load pixels ((p.1 * width + p.2) * 4 + 2), load pixels ((p.1 * width + p.2) * 4 + 3)) }

/-- Row-major order on positions: `(x1, y1)` comes strictly before `(x2, y2)`. -/
def rowMajorBefore (e1 e2 : EdgePixel) : Prop :=
  e1.y < e2.y ∨ (e1.y = e2.y ∧ e1.x < e2.x)

/-- The state `setSprite` establishes and every render keeps: a sprite of
`4 * width * height` bytes is installed, the bounds are set, and an output image of the current
width holds as many bytes as the sprite. -/
def Animator.Ready (a : Animator) (body : List Nat) : Prop :=
  a.Installed body ∧ (∃ b, a.bounds = some b) ∧
    ∀ o, a.outputImageData = some o → o.width = a.width → o.data.length = body.length

/-- The state `a1` differs from `a` at most in the frame buffer, the output image, the canvas
and the timer of the mode of `a`: `tearPhase` for sad, `winkState` for wink, `sleepElapsed` and
`sleepDuration` for sleepy. -/
def Animator.tickOf (a a1 : Animator) : Prop :=
  a1 = { a with frameBuffer := a1.frameBuffer, outputImageData := a1.outputImageData,
                display := a1.display,
                tearPhase := if a.mode = "sad" then a1.tearPhase else a.tearPhase,
                winkState := if a.mode = "wink" then a1.winkState else a.winkState,
                sleepElapsed := if a.mode = "sleepy" then a1.sleepElapsed else a.sleepElapsed,
                sleepDuration :=
                  if a.mode = "sleepy" then a1.sleepDuration else a.sleepDuration }

/-- A 2x1 opaque buffer with the colours (200,10,10) and (210,0,0). -/
def twinRedImage : ImageData :=
  { width := 2, height := 1, data := [200, 10, 10, 255, 210, 0, 0, 255] }

/-- A 5x1 opaque buffer with five distinct colours. -/
def fiveColourImage : ImageData :=
  { width := 5, height := 1,
    data := [1, 0, 1, 255, 2, 1, 1, 255, 0, 0, 0, 255, 1, 1, 1, 255, 1, 2, 1, 255] }

/-- The rows that one iteration of the inner loop of `drawAnchoredVerticalStretch` computes at
step `step`: the source rows `y0`, `y1` and the destination row `destY`. -/
def stretchRows (b : Bounds) (span : Span) (step : Nat) : Int × Int × Int :=
  let bodyHeight : Int := max 1 ((b.maxY : Int) - (b.minY : Int) + 1)
  let destY : Int := span.minY + (step : Int)
  let ratio : ℚ := if span.height = 1 then 0 else (step : ℚ) / ((span.height : ℚ) - 1)
  let sourceY : ℚ := (b.minY : ℚ) + ratio * ((bodyHeight : ℚ) - 1)
  let y0 : Int := ⌊sourceY⌋
  let y1 : Int := min (b.maxY : Int) (y0 + 1)
  (y0, y1, destY)

/-- The pixels `(x, y)` that `drawAnchoredVerticalStretch(frame, scale)` addresses: for every
column `x` of `minX .. maxX` and every step, the source pixels `(x, y0)`, `(x, y1)` it reads
and the destination pixel `(x, destY)` it writes unless both source alphas are 0. -/
def stretchTouched (a : Animator) (scale : ℚ) : Option (List (Int × Int)) :=
  match a.bodyPixels, a.bounds with
  | some _, some b =>
    let span := stretchSpan b a.height scale
    some ((List.range' b.minX (b.maxX + 1 - b.minX)).flatMap fun x =>
      (List.range span.height.toNat).flatMap fun step =>
        [((x : Int), (stretchRows b span step).1), ((x : Int), (stretchRows b span step).2.1),
          ((x : Int), (stretchRows b span step).2.2)])
  | _, _ => none

/-- The computation of `getSimpleEyeLayout(shiftTowardsCenter)` for a `width` by `height`
buffer and bounds given as integers. -/
def simpleEyeLayout (bufWidth bufHeight : Nat) (minX maxX minY maxY : Int)
    (shiftTowardsCenter : Bool) : EyeLayout :=
  let width : Int := max 1 (maxX - minX)
  let leftX0 : Int := clamp (minX + ⌊(width : ℚ) * 0.25⌋) 0 ((bufWidth : Int) - 1)
  let rightX0 : Int := clamp (minX + ⌈(width : ℚ) * 0.75⌉) 0 ((bufWidth : Int) - 1)
  let rightX1 : Int := if leftX0 = rightX0 then clamp (leftX0 + 2) 0 ((bufWidth : Int) - 1)
    else rightX0
  let baseY : Int := clamp
    (jsRound ((minY : ℚ) + ((maxY : ℚ) - (minY : ℚ)) * 0.4)) 0 ((bufHeight : Int) - 2)
  if shiftTowardsCenter then
    let leftX2 := clamp (leftX0 + 1) 0 ((bufWidth : Int) - 1)
    let rightX2 := clamp (rightX1 - 1) 0 ((bufWidth : Int) - 1)
    if leftX2 ≥ rightX2 then
      { leftX := max 0 (leftX2 - 1), rightX := min ((bufWidth : Int) - 1) (rightX2 + 1),
        baseY := baseY }
    else { leftX := leftX2, rightX := rightX2, baseY := baseY }
  else { leftX := leftX0, rightX := rightX1, baseY := baseY }

/-- The tear row `tearY` of `drawSadEyesAndTears` for an eye anchor, the bound `maxY` and the
updated `tearPhase`. -/
def tearRow (a : Animator) (maxY : Nat) (eye : Point) (tearPhase : ℚ) : Int :=
  let dropProgress : ℚ := if tearPhase < 0.9 then tearPhase / 0.9 else 0
  let startY := clamp (eye.y + 1) 0 ((a.height : Int) - 1)
  let endY := clamp (maxY : Int) 0 ((a.height : Int) - 1)
  if tearPhase < 0.9 then
    jsRound ((startY : ℚ) + ((endY : ℚ) - (startY : ℚ)) * dropProgress)
  else startY

/-- The pixel `(x, y)` is the point `p`. -/
def atPoint (x y : Nat) (p : Point) : Prop := (x : Int) = p.x ∧ (y : Int) = p.y

instance instDecidableAtPoint (x y : Nat) (p : Point) : Decidable (atPoint x y p) := by
  unfold atPoint; infer_instance

/-- A 5x1 sprite with five opaque pixels. -/
def wideImage : ImageData :=
  { width := 5, height := 1,
    data := [9, 9, 9, 255, 9, 9, 9, 255, 9, 9, 9, 255, 9, 9, 9, 255, 9, 9, 9, 255] }

/-- The eye pair of `wideImage`: the left highlight and the right pupil are both `(2, 0)`. -/
def wideEyes : EyePair :=
  { left := { pupil := { x := 1, y := 0 }, highlight := { x := 2, y := 0 } },
    right := { pupil := { x := 2, y := 0 }, highlight := { x := 3, y := 0 } },
    centerY := 0,
    bounds := { minX := 0, maxX := 4, minY := 0, maxY := 0 } }

/-- The animator after installing `wideImage` with `wideEyes` on a new animator. -/
def wideAnimator : Animator :=
  setSprite (newAnimator 5 1 []) (some wideImage) (some wideEyes) (fun _ => 0) 0 0

/-- A 7x1 sprite with seven opaque pixels. -/
def longImage : ImageData :=
  { width := 7, height := 1,
    data := [9, 9, 9, 255, 9, 9, 9, 255, 9, 9, 9, 255, 9, 9, 9, 255, 9, 9, 9, 255,
      9, 9, 9, 255, 9, 9, 9, 255] }

/-- The eye pair of `longImage`. -/
def longEyes : EyePair :=
  { left := { pupil := { x := 1, y := 0 }, highlight := { x := 2, y := 0 } },
    right := { pupil := { x := 3, y := 0 }, highlight := { x := 4, y := 0 } },
    centerY := 0,
    bounds := { minX := 0, maxX := 6, minY := 0, maxY := 0 } }

/-- The animator after installing `longImage` with `longEyes` on a new animator. -/
def longAnimator : Animator :=
  setSprite (newAnimator 7 1 []) (some longImage) (some longEyes) (fun _ => 0) 0 0

end Tamagotchi

/-! # Theorems -/

namespace Tamagotchi

/-! ## Reads and writes -/

theorem load_store (buf : List Nat) (i v j : Nat) :
    load (store buf i v) j = if i = j ∧ i < buf.length then clampByte v else load buf j := by
  unfold load store
  rw [List.getD_eq_getElem?_getD, List.getD_eq_getElem?_getD, List.getElem?_set]
  by_cases h : i = j
  · subst h
    by_cases h2 : i < buf.length
    · simp [h2]
    · simp [h2, List.getElem?_eq_none (Nat.le_of_not_lt h2)]
  · simp [h]

theorem length_store (buf : List Nat) (i v : Nat) : (store buf i v).length = buf.length := by
  simp [store]

theorem length_store4 (buf : List Nat) (idx r g b a : Nat) :
    (store4 buf idx r g b a).length = buf.length := by
  simp [store4, length_store]

theorem load_store4 (buf : List Nat) (idx r g b a j : Nat) (hj : j < buf.length) :
    load (store4 buf idx r g b a) j =
      if j = idx + 3 then clampByte a else if j = idx + 2 then clampByte b
      else if j = idx + 1 then clampByte g else if j = idx then clampByte r
      else load buf j := by
  unfold store4
  simp only [load_store, length_store]
  by_cases h3 : j = idx + 3
  · simp [h3]; omega
  · by_cases h2 : j = idx + 2
    · simp [h2]; omega
    · by_cases h1 : j = idx + 1
      · simp [h1]; omega
      · by_cases h0 : j = idx
        · simp [h0]; omega
        · have e3 : ¬ (idx + 3 = j) := fun e => h3 e.symm
          have e2 : ¬ (idx + 2 = j) := fun e => h2 e.symm
          have e1 : ¬ (idx + 1 = j) := fun e => h1 e.symm
          have e0 : ¬ (idx = j) := fun e => h0 e.symm
          simp [h3, h2, h1, h0, e3, e2, e1, e0]

theorem load_store4_other (buf : List Nat) (p r g b a j : Nat) (hj : j / 4 ≠ p) :
    load (store4 buf (p * 4) r g b a) j = load buf j := by
  unfold store4
  simp only [load_store, length_store]
  have e3 : ¬ (p * 4 + 3 = j) := by omega
  have e2 : ¬ (p * 4 + 2 = j) := by omega
  have e1 : ¬ (p * 4 + 1 = j) := by omega
  have e0 : ¬ (p * 4 = j) := by omega
  simp [e3, e2, e1, e0]

theorem load_store4_chan (buf : List Nat) (p v0 v1 v2 v3 c : Nat) (v : Nat → Nat)
    (h0 : v 0 = v0) (h1 : v 1 = v1) (h2 : v 2 = v2) (h3 : v 3 = v3)
    (hc : c < 4) (hlen : p * 4 + c < buf.length) :
    load (store4 buf (p * 4) v0 v1 v2 v3) (p * 4 + c) = clampByte (v c) := by
  rw [load_store4 _ _ _ _ _ _ _ hlen]
  have : c = 0 ∨ c = 1 ∨ c = 2 ∨ c = 3 := by omega
  rcases this with rfl | rfl | rfl | rfl <;> simp [h0, h1, h2, h3]

/-! ## Painting a list of pixels -/

theorem paintAll_cons {α : Type} (key : α → Nat) (v : α → Nat → Nat) (buf : List Nat)
    (a : α) (l : List α) :
    paintAll key v buf (a :: l) =
      paintAll key v (store4 buf (key a * 4) (v a 0) (v a 1) (v a 2) (v a 3)) l := rfl

theorem paintAll_length {α : Type} (key : α → Nat) (v : α → Nat → Nat) (l : List α) :
    ∀ buf : List Nat, (paintAll key v buf l).length = buf.length := by
  induction l with
  | nil => intro buf; rfl
  | cons a l ih => intro buf; rw [paintAll_cons, ih, length_store4]

theorem paintAll_miss {α : Type} (key : α → Nat) (v : α → Nat → Nat) (l : List α) (j : Nat)
    (hmiss : ∀ a ∈ l, key a ≠ j / 4) :
    ∀ buf : List Nat, load (paintAll key v buf l) j = load buf j := by
  induction l with
  | nil => intro buf; rfl
  | cons a l ih =>
    intro buf
    rw [paintAll_cons, ih (fun a' ha' => hmiss a' (List.mem_cons_of_mem _ ha'))]
    apply load_store4_other
    exact fun e => hmiss a (List.mem_cons_self _ _) e.symm

theorem paintAll_hit {α : Type} (key : α → Nat) (v : α → Nat → Nat) (l : List α)
    (c : Nat) (hc : c < 4) :
    ∀ (a : α) (buf : List Nat), a ∈ l → (∀ a1 ∈ l, key a1 = key a → v a1 = v a) →
      key a * 4 + c < buf.length →
      load (paintAll key v buf l) (key a * 4 + c) = clampByte (v a c) := by
  induction l with
  | nil => intro a buf ha; cases ha
  | cons a0 l ih =>
    intro a buf ha hcons hlen
    rw [paintAll_cons]
    by_cases hex : ∃ a1 ∈ l, key a1 = key a
    · obtain ⟨a1, ha1, hk⟩ := hex
      have hv : v a1 = v a := hcons a1 (List.mem_cons_of_mem _ ha1) hk
      have hcons1 : ∀ a2 ∈ l, key a2 = key a1 → v a2 = v a1 := by
        intro a2 ha2 hk2
        rw [hv]
        exact hcons a2 (List.mem_cons_of_mem _ ha2) (hk2.trans hk)
      have := ih a1 (store4 buf (key a0 * 4) (v a0 0) (v a0 1) (v a0 2) (v a0 3)) ha1 hcons1
        (by rw [length_store4, hk]; exact hlen)
      rw [hk, hv] at this
      exact this
    · have hmiss : ∀ a1 ∈ l, key a1 ≠ (key a * 4 + c) / 4 := by
        intro a1 ha1 hk
        apply hex
        refine ⟨a1, ha1, ?_⟩
        omega
      rw [paintAll_miss key v l _ hmiss]
      have ha0 : a = a0 := by
        rcases List.mem_cons.1 ha with h | h
        · exact h
        · exact absurd ⟨a, h, rfl⟩ hex
      subst ha0
      exact load_store4_chan buf (key a) _ _ _ _ c (v a) rfl rfl rfl rfl hc hlen

theorem foldl_flatMap_eq {α β γ : Type} (f : α → List β) (g : γ → β → γ) (l : List α) :
    ∀ b : γ, (l.flatMap f).foldl g b = l.foldl (fun acc a => (f a).foldl g acc) b := by
  induction l with
  | nil => intro b; rfl
  | cons a l ih => intro b; simp [List.flatMap_cons, List.foldl_append, ih]

theorem foldl_product_eq {γ : Type} (g : γ → Nat × Nat → γ) (l1 l2 : List Nat) (b : γ) :
    (l1 ×ˢ l2).foldl g b = l1.foldl (fun acc y => l2.foldl (fun acc x => g acc (y, x)) acc) b := by
  have : (l1 ×ˢ l2) = l1.flatMap fun y => l2.map (Prod.mk y) := rfl
  rw [this, foldl_flatMap_eq]
  simp [List.foldl_map]

theorem pixel_index_lt {w h x y : Nat} (hx : x < w) (hy : y < h) : y * w + x < w * h := by
  have h1 : (y + 1) * w ≤ h * w := Nat.mul_le_mul_right w hy
  have h2 : (y + 1) * w = y * w + w := by ring
  have h3 : h * w = w * h := Nat.mul_comm h w
  omega

theorem pixel_index_inj {w x y x1 y1 : Nat} (hx : x < w) (hx1 : x1 < w)
    (h : y * w + x = y1 * w + x1) : y = y1 ∧ x = x1 := by
  have hy : y = y1 := by
    rcases Nat.lt_trichotomy y y1 with hlt | heq | hgt
    · exfalso
      have h1 : (y + 1) * w ≤ y1 * w := Nat.mul_le_mul_right w hlt
      have h2 : (y + 1) * w = y * w + w := by ring
      omega
    · exact heq
    · exfalso
      have h1 : (y1 + 1) * w ≤ y * w := Nat.mul_le_mul_right w hgt
      have h2 : (y1 + 1) * w = y1 * w + w := by ring
      omega
  subst hy
  exact ⟨rfl, by omega⟩

/-! ## `applyMedianFilter` -/

theorem load_le_of_bytes (buf : List Nat) (hb : ∀ v ∈ buf, v ≤ 255) (i : Nat) :
    load buf i ≤ 255 := by
  unfold load
  by_cases h : i < buf.length
  · rw [List.getD_eq_getElem _ _ h]
    exact hb _ (List.getElem_mem h)
  · rw [List.getD_eq_default _ _ (Nat.le_of_not_lt h)]
    exact Nat.zero_le _

theorem clampByte_of_le {v : Nat} (h : v ≤ 255) : clampByte v = v := by
  unfold clampByte; omega

theorem medianPixel_eq (img : ImageData) (buf : List Nat) (y x : Nat) :
    medianPixel img buf y x =
      store4 buf ((y * img.width + x) * 4) (filteredValue img x y 0) (filteredValue img x y 1)
        (filteredValue img x y 2) (filteredValue img x y 3) := by
  unfold medianPixel filteredValue channel
  by_cases h : load img.data ((y * img.width + x) * 4 + 3) ≤ alphaThreshold
  · simp [h]
  · simp [h]

theorem applyMedianFilter_data (img : ImageData) :
    (applyMedianFilter img).data =
      paintAll (fun p : Nat × Nat => p.1 * img.width + p.2)
        (fun p c => filteredValue img p.2 p.1 c)
        (List.replicate img.data.length 0) (List.range img.height ×ˢ List.range img.width) := by
  unfold applyMedianFilter paintAll
  rw [foldl_product_eq]
  simp only [medianPixel_eq]

theorem applyMedianFilter_length (img : ImageData) :
    (applyMedianFilter img).data.length = img.data.length := by
  rw [applyMedianFilter_data, paintAll_length, List.length_replicate]

theorem applyMedianFilter_channel (img : ImageData)
    (hlen : img.data.length = img.width * img.height * 4) (x y c : Nat)
    (hx : x < img.width) (hy : y < img.height) (hc : c < 4) :
    channel (applyMedianFilter img) x y c = clampByte (filteredValue img x y c) := by
  have hw : (applyMedianFilter img).width = img.width := rfl
  unfold channel
  rw [hw, applyMedianFilter_data]
  refine paintAll_hit (fun p : Nat × Nat => p.1 * img.width + p.2)
    (fun p c => filteredValue img p.2 p.1 c) _ c hc (y, x) _ ?_ ?_ ?_
  · rw [List.mem_product]
    exact ⟨List.mem_range.2 hy, List.mem_range.2 hx⟩
  · rintro ⟨y1, x1⟩ hmem hkey
    rw [List.mem_product] at hmem
    have hx1 : x1 < img.width := List.mem_range.1 hmem.2
    obtain ⟨e1, e2⟩ := pixel_index_inj hx1 hx hkey
    simp only at e1 e2
    subst e1; subst e2; rfl
  · rw [List.length_replicate, hlen]
    have := pixel_index_lt hx hy
    simp only
    omega

/-- C1. `applyMedianFilter` returns a buffer of the same width, height and length, and every
pixel whose input alpha is at most 20 keeps its four input bytes R, G, B, A. -/
theorem applyMedianFilter_keeps_transparent (img : ImageData) (hwf : img.WF) :
    (applyMedianFilter img).width = img.width ∧
    (applyMedianFilter img).height = img.height ∧
    (applyMedianFilter img).data.length = img.data.length ∧
    ∀ x y, x < img.width → y < img.height → channel img x y 3 ≤ 20 →
      ∀ c, c < 4 → channel (applyMedianFilter img) x y c = channel img x y c := by
  refine ⟨rfl, rfl, applyMedianFilter_length img, ?_⟩
  intro x y hx hy ha c hc
  rw [applyMedianFilter_channel img hwf.1 x y c hx hy hc]
  have hv : filteredValue img x y c = channel img x y c := by
    unfold filteredValue alphaThreshold
    rw [if_pos ha]
  rw [hv]
  exact clampByte_of_le (load_le_of_bytes _ hwf.2 _)

theorem applyMedianFilter_keeps_transparent_witness :
    (⟨2, 1, [1, 2, 3, 20, 9, 8, 7, 255]⟩ : ImageData).WF ∧
    (applyMedianFilter ⟨2, 1, [1, 2, 3, 20, 9, 8, 7, 255]⟩).width = 2 ∧
    channel (applyMedianFilter ⟨2, 1, [1, 2, 3, 20, 9, 8, 7, 255]⟩) 0 0 0 = 1 :=
  ⟨by decide,
   (applyMedianFilter_keeps_transparent ⟨2, 1, [1, 2, 3, 20, 9, 8, 7, 255]⟩ (by decide)).1,
   (applyMedianFilter_keeps_transparent ⟨2, 1, [1, 2, 3, 20, 9, 8, 7, 255]⟩ (by decide)).2.2.2
     0 0 (by decide) (by decide) (by decide) 0 (by decide)⟩

/-! ## The 3x3 neighbourhood -/

theorem offsets_flatMap_eq {β : Type} (n pos : Nat) (f : Int → List β) :
    (offsets.flatMap fun o =>
        if (pos : Int) + o < 0 ∨ (pos : Int) + o ≥ (n : Int) then [] else f ((pos : Int) + o)) =
      (axisList n pos).flatMap fun v => f (v : Int) := by
  unfold offsets axisList
  simp only [List.flatMap_cons, List.flatMap_nil, List.flatMap_append, List.append_nil]
  have c1 : ((pos : Int) + -1 < 0 ∨ (pos : Int) + -1 ≥ (n : Int)) ↔ ¬ (0 < pos ∧ pos ≤ n) := by
    omega
  have c2 : ((pos : Int) + 0 < 0 ∨ (pos : Int) + 0 ≥ (n : Int)) ↔ ¬ (pos < n) := by omega
  have c3 : ((pos : Int) + 1 < 0 ∨ (pos : Int) + 1 ≥ (n : Int)) ↔ ¬ (pos + 1 < n) := by omega
  simp only [c1, c2, c3]
  by_cases h1 : 0 < pos ∧ pos ≤ n
  · have e : ((pos - 1 : Nat) : Int) = (pos : Int) + -1 := by omega
    by_cases h2 : pos < n <;> by_cases h3 : pos + 1 < n <;> simp [h1, h2, h3, e]
  · by_cases h2 : pos < n <;> by_cases h3 : pos + 1 < n <;> simp [h1, h2, h3]

theorem neighbourIndices_eq (width height y x : Nat) :
    neighbourIndices width height y x =
      (axisList height y ×ˢ axisList width x).map fun p => (p.1 * width + p.2) * 4 := by
  unfold neighbourIndices
  refine (offsets_flatMap_eq height y (fun ny : Int =>
    offsets.flatMap fun ox =>
      if (x : Int) + ox < 0 ∨ (x : Int) + ox ≥ (width : Int) then []
      else [((ny * (width : Int) + ((x : Int) + ox)) * 4).toNat])).trans ?_
  have hprod : (axisList height y ×ˢ axisList width x) =
      (axisList height y).flatMap fun a => (axisList width x).map (Prod.mk a) := rfl
  rw [hprod, List.map_flatMap]
  congr 1
  funext ny
  refine (offsets_flatMap_eq width x (fun nx : Int =>
    [(((ny : Int) * (width : Int) + nx) * 4).toNat])).trans ?_
  rw [List.map_map]
  induction axisList width x with
  | nil => rfl
  | cons nx l ih =>
    rw [List.flatMap_cons, List.map_cons, ih]
    have e : (((ny : Int) * (width : Int) + (nx : Int)) * 4).toNat = (ny * width + nx) * 4 := by
      have : ((ny : Int) * (width : Int) + (nx : Int)) * 4 =
          (((ny * width + nx) * 4 : Nat) : Int) := by
        push_cast; ring
      rw [this, Int.toNat_ofNat]
    simp [e]

theorem mem_axisList (n pos v : Nat) :
    v ∈ axisList n pos ↔ v < n ∧ v ≤ pos + 1 ∧ pos ≤ v + 1 := by
  unfold axisList
  by_cases h1 : 0 < pos ∧ pos ≤ n <;> by_cases h2 : pos < n <;> by_cases h3 : pos + 1 < n <;>
    simp [h1, h2, h3] <;> omega

theorem nodup_axisList (n pos : Nat) : (axisList n pos).Nodup := by
  unfold axisList
  by_cases h1 : 0 < pos ∧ pos ≤ n <;> by_cases h2 : pos < n <;> by_cases h3 : pos + 1 < n <;>
    simp [h1, h2, h3] <;> omega

theorem length_axisList (n pos : Nat) (h : pos < n) :
    (axisList n pos).length = inRangeCount n pos := by
  unfold axisList inRangeCount
  by_cases h1 : 0 < pos <;> by_cases h3 : pos + 1 < n <;> simp [h1, h, h3, Nat.le_of_lt h]

theorem axis_perm_inBounds (width height x y : Nat) :
    (axisList height y ×ˢ axisList width x).Perm (inBoundsNeighbours width height x y) := by
  unfold inBoundsNeighbours
  rw [List.perm_ext_iff_of_nodup
    (List.Nodup.product (nodup_axisList _ _) (nodup_axisList _ _))
    (List.Nodup.filter _ (List.Nodup.product (List.nodup_range _) (List.nodup_range _)))]
  rintro ⟨ny, nx⟩
  simp only [List.mem_product, mem_axisList, List.mem_filter, List.mem_range, decide_eq_true_eq]
  omega

theorem median_perm {l1 l2 : List Nat} (h : l1.Perm l2) : median l1 = median l2 := by
  unfold median
  have e : l1.insertionSort (· ≤ ·) = l2.insertionSort (· ≤ ·) :=
    List.eq_of_perm_of_sorted
      (((List.perm_insertionSort _ l1).trans h).trans (List.perm_insertionSort _ l2).symm)
      (List.sorted_insertionSort _ l1) (List.sorted_insertionSort _ l2)
  simp only [e]

theorem median_le (l : List Nat) (hb : ∀ v ∈ l, v ≤ 255) : median l ≤ 255 := by
  unfold median
  apply load_le_of_bytes (l.insertionSort (· ≤ ·))
  intro v hv
  exact hb v ((List.mem_insertionSort _).1 hv)

theorem filteredValue_visible (img : ImageData) (x y c : Nat)
    (ha : 20 < channel img x y 3) :
    filteredValue img x y c = median (neighbourValues img x y c) := by
  unfold filteredValue alphaThreshold
  rw [if_neg (Nat.not_le.2 ha)]
  apply median_perm
  unfold neighbourValues channel
  rw [neighbourIndices_eq, List.map_map]
  exact (axis_perm_inBounds img.width img.height x y).map _

theorem length_neighbourValues (img : ImageData) (x y c : Nat)
    (hx : x < img.width) (hy : y < img.height) :
    (neighbourValues img x y c).length = inRangeCount img.height y * inRangeCount img.width x := by
  unfold neighbourValues
  rw [List.length_map, ← (axis_perm_inBounds img.width img.height x y).length_eq,
    List.length_product, length_axisList _ _ hx, length_axisList _ _ hy]

/-- C2. For a pixel whose input alpha exceeds 20, each output channel of `applyMedianFilter`
is the element at index `floor(n / 2)` of the ascending-sorted values of that channel over
the `n` in-bounds pixels of the 3x3 neighbourhood in the input buffer, where `n` is the
number of in-range rows times the number of in-range columns (9 inside, 6 on an edge and 4
in a corner of a buffer at least two pixels wide and high). -/
theorem applyMedianFilter_median (img : ImageData) (hwf : img.WF) (x y c : Nat)
    (hx : x < img.width) (hy : y < img.height) (ha : 20 < channel img x y 3) (hc : c < 4) :
    ((neighbourValues img x y c).insertionSort (· ≤ ·)).Sorted (· ≤ ·) ∧
    ((neighbourValues img x y c).insertionSort (· ≤ ·)).Perm (neighbourValues img x y c) ∧
    (neighbourValues img x y c).length = inRangeCount img.height y * inRangeCount img.width x ∧
    ((neighbourValues img x y c).insertionSort (· ≤ ·))[(neighbourValues img x y c).length / 2]? =
      some (channel (applyMedianFilter img) x y c) := by
  refine ⟨List.sorted_insertionSort _ _, List.perm_insertionSort _ _,
    length_neighbourValues img x y c hx hy, ?_⟩
  have hb : ∀ v ∈ neighbourValues img x y c, v ≤ 255 := by
    intro v hv
    unfold neighbourValues at hv
    obtain ⟨p, _, rfl⟩ := List.mem_map.1 hv
    exact load_le_of_bytes _ hwf.2 _
  rw [applyMedianFilter_channel img hwf.1 x y c hx hy hc, filteredValue_visible img x y c ha,
    clampByte_of_le (median_le _ hb)]
  have hpos : 0 < (neighbourValues img x y c).length := by
    rw [length_neighbourValues img x y c hx hy]
    unfold inRangeCount
    positivity
  have hlt : (neighbourValues img x y c).length / 2 <
      ((neighbourValues img x y c).insertionSort (· ≤ ·)).length := by
    rw [List.length_insertionSort]
    omega
  unfold median
  simp only [List.length_insertionSort]
  rw [List.getD_eq_getElem _ _ hlt, List.getElem?_eq_getElem hlt]

theorem applyMedianFilter_median_witness :
    (⟨2, 2, [1, 2, 3, 255, 5, 6, 7, 10, 9, 10, 11, 255, 13, 14, 15, 30]⟩ : ImageData).WF ∧
    ((neighbourValues ⟨2, 2, [1, 2, 3, 255, 5, 6, 7, 10, 9, 10, 11, 255, 13, 14, 15, 30]⟩
        0 0 0).insertionSort (· ≤ ·))[(neighbourValues
          ⟨2, 2, [1, 2, 3, 255, 5, 6, 7, 10, 9, 10, 11, 255, 13, 14, 15, 30]⟩ 0 0 0).length / 2]? =
      some (channel (applyMedianFilter
        ⟨2, 2, [1, 2, 3, 255, 5, 6, 7, 10, 9, 10, 11, 255, 13, 14, 15, 30]⟩) 0 0 0) :=
  ⟨by decide,
   (applyMedianFilter_median
      ⟨2, 2, [1, 2, 3, 255, 5, 6, 7, 10, 9, 10, 11, 255, 13, 14, 15, 30]⟩ (by decide) 0 0 0
      (by decide) (by decide) (by decide) (by decide)).2.2.2⟩

/-! ## Bounding box -/

theorem scanBounds_eq_scanList (pixels : List Nat) (width height : Nat) :
    scanBounds pixels width height =
      scanList pixels width { minX := width, maxX := 0, minY := height, maxY := 0 }
        (List.range height ×ˢ List.range width) := by
  unfold scanBounds scanList
  rw [foldl_product_eq]

theorem scanPixel_of_visible (pixels : List Nat) (width : Nat) (b : Bounds) (y x : Nat)
    (h : isOpaque pixels width x y) :
    scanPixel pixels width b y x =
      { minX := min b.minX x, maxX := max b.maxX x,
        minY := min b.minY y, maxY := max b.maxY y } := by
  unfold scanPixel
  unfold isOpaque at h
  simp only []
  rw [if_pos h]

theorem scanPixel_of_hidden (pixels : List Nat) (width : Nat) (b : Bounds) (y x : Nat)
    (h : ¬ isOpaque pixels width x y) : scanPixel pixels width b y x = b := by
  unfold scanPixel
  unfold isOpaque at h
  simp only []
  rw [if_neg h]

theorem scanList_cons (pixels : List Nat) (width : Nat) (b : Bounds) (p : Nat × Nat)
    (l : List (Nat × Nat)) :
    scanList pixels width b (p :: l) =
      scanList pixels width (scanPixel pixels width b p.1 p.2) l := rfl

theorem scanList_none (pixels : List Nat) (width : Nat) (l : List (Nat × Nat))
    (hno : ∀ p ∈ l, ¬ isOpaque pixels width p.2 p.1) :
    ∀ b : Bounds, scanList pixels width b l = b := by
  induction l with
  | nil => intro b; rfl
  | cons p l ih =>
    intro b
    rw [scanList_cons, scanPixel_of_hidden _ _ _ _ _ (hno p (List.mem_cons_self _ _))]
    exact ih (fun q hq => hno q (List.mem_cons_of_mem _ hq)) b

theorem scanList_mono (pixels : List Nat) (width : Nat) (l : List (Nat × Nat)) :
    ∀ b : Bounds, (scanList pixels width b l).minX ≤ b.minX ∧
      b.maxX ≤ (scanList pixels width b l).maxX ∧
      (scanList pixels width b l).minY ≤ b.minY ∧
      b.maxY ≤ (scanList pixels width b l).maxY := by
  induction l with
  | nil => intro b; exact ⟨le_refl _, le_refl _, le_refl _, le_refl _⟩
  | cons p l ih =>
    intro b
    rw [scanList_cons]
    have h := ih (scanPixel pixels width b p.1 p.2)
    by_cases hp : isOpaque pixels width p.2 p.1
    · rw [scanPixel_of_visible _ _ _ _ _ hp] at h ⊢
      simp only at h
      omega
    · rw [scanPixel_of_hidden _ _ _ _ _ hp] at h ⊢
      exact h

theorem scanList_contains (pixels : List Nat) (width : Nat) (l : List (Nat × Nat)) :
    ∀ b : Bounds, ∀ p ∈ l, isOpaque pixels width p.2 p.1 →
      (scanList pixels width b l).minX ≤ p.2 ∧ p.2 ≤ (scanList pixels width b l).maxX ∧
      (scanList pixels width b l).minY ≤ p.1 ∧ p.1 ≤ (scanList pixels width b l).maxY := by
  induction l with
  | nil => intro b p hp; cases hp
  | cons q l ih =>
    intro b p hp hop
    rw [scanList_cons]
    rcases List.mem_cons.1 hp with rfl | hin
    · have h := scanList_mono pixels width l (scanPixel pixels width b p.1 p.2)
      rw [scanPixel_of_visible _ _ _ _ _ hop] at h ⊢
      simp only at h
      omega
    · exact ih _ p hin hop

theorem scanList_attained (pixels : List Nat) (width : Nat) (l : List (Nat × Nat)) :
    ∀ b : Bounds,
      ((scanList pixels width b l).minX = b.minX ∨
        ∃ p ∈ l, isOpaque pixels width p.2 p.1 ∧ p.2 = (scanList pixels width b l).minX) ∧
      ((scanList pixels width b l).maxX = b.maxX ∨
        ∃ p ∈ l, isOpaque pixels width p.2 p.1 ∧ p.2 = (scanList pixels width b l).maxX) ∧
      ((scanList pixels width b l).minY = b.minY ∨
        ∃ p ∈ l, isOpaque pixels width p.2 p.1 ∧ p.1 = (scanList pixels width b l).minY) ∧
      ((scanList pixels width b l).maxY = b.maxY ∨
        ∃ p ∈ l, isOpaque pixels width p.2 p.1 ∧ p.1 = (scanList pixels width b l).maxY) := by
  induction l with
  | nil => intro b; exact ⟨Or.inl rfl, Or.inl rfl, Or.inl rfl, Or.inl rfl⟩
  | cons q l ih =>
    intro b
    rw [scanList_cons]
    have lift : ∀ (P : Nat × Nat → Prop), (∃ p ∈ l, P p) → ∃ p ∈ q :: l, P p := by
      rintro P ⟨p, hp, hP⟩
      exact ⟨p, List.mem_cons_of_mem _ hp, hP⟩
    obtain ⟨h1, h2, h3, h4⟩ := ih (scanPixel pixels width b q.1 q.2)
    by_cases hq : isOpaque pixels width q.2 q.1
    · rw [scanPixel_of_visible _ _ _ _ _ hq] at h1 h2 h3 h4 ⊢
      simp only at h1 h2 h3 h4
      refine ⟨?_, ?_, ?_, ?_⟩
      · rcases h1 with h | h
        · rcases Nat.le_total b.minX q.2 with hle | hle
          · left; rw [h]; exact Nat.min_eq_left hle
          · right; exact ⟨q, List.mem_cons_self _ _, hq, by rw [h]; exact (Nat.min_eq_right hle).symm⟩
        · right; exact lift _ h
      · rcases h2 with h | h
        · rcases Nat.le_total b.maxX q.2 with hle | hle
          · right; exact ⟨q, List.mem_cons_self _ _, hq, by rw [h]; exact (Nat.max_eq_right hle).symm⟩
          · left; rw [h]; exact Nat.max_eq_left hle
        · right; exact lift _ h
      · rcases h3 with h | h
        · rcases Nat.le_total b.minY q.1 with hle | hle
          · left; rw [h]; exact Nat.min_eq_left hle
          · right; exact ⟨q, List.mem_cons_self _ _, hq, by rw [h]; exact (Nat.min_eq_right hle).symm⟩
        · right; exact lift _ h
      · rcases h4 with h | h
        · rcases Nat.le_total b.maxY q.1 with hle | hle
          · right; exact ⟨q, List.mem_cons_self _ _, hq, by rw [h]; exact (Nat.max_eq_right hle).symm⟩
          · left; rw [h]; exact Nat.max_eq_left hle
        · right; exact lift _ h
    · rw [scanPixel_of_hidden _ _ _ _ _ hq] at h1 h2 h3 h4 ⊢
      exact ⟨h1.imp_right (lift _), h2.imp_right (lift _), h3.imp_right (lift _),
        h4.imp_right (lift _)⟩

theorem mem_grid {width height : Nat} {p : Nat × Nat} :
    p ∈ (List.range height ×ˢ List.range width) ↔ p.1 < height ∧ p.2 < width := by
  obtain ⟨y, x⟩ := p
  rw [List.mem_product, List.mem_range, List.mem_range]

theorem scanBounds_of_transparent (pixels : List Nat) (width height : Nat)
    (hno : ∀ x y, x < width → y < height → ¬ isOpaque pixels width x y) :
    scanBounds pixels width height = { minX := width, maxX := 0, minY := height, maxY := 0 } := by
  rw [scanBounds_eq_scanList]
  apply scanList_none
  intro p hp
  rw [mem_grid] at hp
  exact hno p.2 p.1 hp.2 hp.1

theorem computeBounds_of_transparent (pixels : List Nat) (width height : Nat) (hw : 0 < width)
    (hno : ∀ x y, x < width → y < height → ¬ isOpaque pixels width x y) :
    computeBounds pixels width height = { minX := 4, maxX := 12, minY := 4, maxY := 12 } := by
  unfold computeBounds
  rw [scanBounds_of_transparent pixels width height hno]
  unfold fallbackBounds
  simp only []
  rw [if_pos hw]

theorem computeBounds_tight (pixels : List Nat) (width height : Nat)
    (hex : ∃ x y, x < width ∧ y < height ∧ isOpaque pixels width x y) :
    computeBounds pixels width height = scanBounds pixels width height ∧
    (∀ x y, x < width → y < height → isOpaque pixels width x y →
      (computeBounds pixels width height).minX ≤ x ∧
      x ≤ (computeBounds pixels width height).maxX ∧
      (computeBounds pixels width height).minY ≤ y ∧
      y ≤ (computeBounds pixels width height).maxY) ∧
    (∃ y, y < height ∧ (computeBounds pixels width height).minX < width ∧
      isOpaque pixels width (computeBounds pixels width height).minX y) ∧
    (∃ y, y < height ∧ (computeBounds pixels width height).maxX < width ∧
      isOpaque pixels width (computeBounds pixels width height).maxX y) ∧
    (∃ x, x < width ∧ (computeBounds pixels width height).minY < height ∧
      isOpaque pixels width x (computeBounds pixels width height).minY) ∧
    (∃ x, x < width ∧ (computeBounds pixels width height).maxY < height ∧
      isOpaque pixels width x (computeBounds pixels width height).maxY) := by
  obtain ⟨x0, y0, hx0, hy0, hop0⟩ := hex
  have hin : ∀ x y, x < width → y < height → isOpaque pixels width x y →
      (scanBounds pixels width height).minX ≤ x ∧ x ≤ (scanBounds pixels width height).maxX ∧
      (scanBounds pixels width height).minY ≤ y ∧
      y ≤ (scanBounds pixels width height).maxY := by
    intro x y hx hy hop
    rw [scanBounds_eq_scanList]
    exact scanList_contains pixels width _ _ (y, x) (mem_grid.2 ⟨hy, hx⟩) hop
  have h0 := hin x0 y0 hx0 hy0 hop0
  have hcb : computeBounds pixels width height = scanBounds pixels width height := by
    unfold computeBounds fallbackBounds
    rw [if_neg (by omega)]
  have hatt := scanList_attained pixels width (List.range height ×ˢ List.range width)
    { minX := width, maxX := 0, minY := height, maxY := 0 }
  rw [← scanBounds_eq_scanList] at hatt
  simp only at hatt
  obtain ⟨a1, a2, a3, a4⟩ := hatt
  rw [hcb]
  refine ⟨rfl, hin, ?_, ?_, ?_, ?_⟩
  · rcases a1 with h | ⟨p, hp, hop, he⟩
    · omega
    · rw [mem_grid] at hp
      exact ⟨p.1, hp.1, he ▸ hp.2, he ▸ hop⟩
  · rcases a2 with h | ⟨p, hp, hop, he⟩
    · have e : x0 = (scanBounds pixels width height).maxX := by omega
      exact ⟨y0, hy0, e ▸ hx0, e ▸ hop0⟩
    · rw [mem_grid] at hp
      exact ⟨p.1, hp.1, he ▸ hp.2, he ▸ hop⟩
  · rcases a3 with h | ⟨p, hp, hop, he⟩
    · omega
    · rw [mem_grid] at hp
      exact ⟨p.2, hp.2, he ▸ hp.1, he ▸ hop⟩
  · rcases a4 with h | ⟨p, hp, hop, he⟩
    · have e : y0 = (scanBounds pixels width height).maxY := by omega
      exact ⟨x0, hx0, e ▸ hy0, e ▸ hop0⟩
    · rw [mem_grid] at hp
      exact ⟨p.2, hp.2, he ▸ hp.1, he ▸ hop⟩

theorem load_replicate_zero (n i : Nat) : load (List.replicate n 0) i = 0 := by
  unfold load
  rw [List.getD_eq_getElem?_getD, List.getElem?_replicate]
  split <;> rfl

theorem not_isOpaque_replicate_zero (n width x y : Nat) :
    ¬ isOpaque (List.replicate n 0) width x y := by
  unfold isOpaque
  rw [load_replicate_zero]
  omega

/-- C7. For every buffer with at least one pixel of alpha above 20, the box of
`addEyesToPixelArt` (equal to the one of `computeBounds`) contains every such pixel, and each
of its four sides `x = minX`, `x = maxX`, `y = minY`, `y = maxY` holds such a pixel. -/
theorem bounds_smallest_rectangle (pixels : List Nat) (width height : Nat)
    (hex : ∃ x y, x < width ∧ y < height ∧ isOpaque pixels width x y) :
    (addEyesToPixelArt pixels width height).bounds = computeBounds pixels width height ∧
    (∀ x y, x < width → y < height → isOpaque pixels width x y →
      (computeBounds pixels width height).minX ≤ x ∧
      x ≤ (computeBounds pixels width height).maxX ∧
      (computeBounds pixels width height).minY ≤ y ∧
      y ≤ (computeBounds pixels width height).maxY) ∧
    (∃ y, y < height ∧ (computeBounds pixels width height).minX < width ∧
      isOpaque pixels width (computeBounds pixels width height).minX y) ∧
    (∃ y, y < height ∧ (computeBounds pixels width height).maxX < width ∧
      isOpaque pixels width (computeBounds pixels width height).maxX y) ∧
    (∃ x, x < width ∧ (computeBounds pixels width height).minY < height ∧
      isOpaque pixels width x (computeBounds pixels width height).minY) ∧
    (∃ x, x < width ∧ (computeBounds pixels width height).maxY < height ∧
      isOpaque pixels width x (computeBounds pixels width height).maxY) :=
  ⟨rfl, (computeBounds_tight pixels width height hex).2⟩

theorem bounds_smallest_rectangle_witness :
    (∃ x y, x < 2 ∧ y < 2 ∧
      isOpaque [1, 2, 3, 255, 5, 6, 7, 10, 9, 10, 11, 255, 13, 14, 15, 30] 2 x y) ∧
    ∃ y, y < 2 ∧
      (computeBounds [1, 2, 3, 255, 5, 6, 7, 10, 9, 10, 11, 255, 13, 14, 15, 30] 2 2).maxX < 2 ∧
      isOpaque [1, 2, 3, 255, 5, 6, 7, 10, 9, 10, 11, 255, 13, 14, 15, 30] 2
        (computeBounds [1, 2, 3, 255, 5, 6, 7, 10, 9, 10, 11, 255, 13, 14, 15, 30] 2 2).maxX y :=
  ⟨⟨0, 0, by decide, by decide, by decide⟩,
   (bounds_smallest_rectangle [1, 2, 3, 255, 5, 6, 7, 10, 9, 10, 11, 255, 13, 14, 15, 30] 2 2
      ⟨0, 0, by decide, by decide, by decide⟩).2.2.2.1⟩

/-! ## Eye placement -/

theorem floor_six_tenths (a m : Nat) :
    ⌊(a : ℚ) + ((m : ℚ) - (a : ℚ)) * 0.6⌋ = (a : Int) + (3 * ((m : Int) - (a : Int))) / 5 := by
  have e : (a : ℚ) + ((m : ℚ) - (a : ℚ)) * 0.6 =
      (((a : Int) : ℚ)) + ((3 * ((m : Int) - (a : Int)) : Int) : ℚ) / ((5 : Nat) : ℚ) := by
    push_cast; ring
  rw [e, Int.floor_int_add, Rat.floor_intCast_div_natCast]
  rfl

theorem floor_quarter (a m : Nat) :
    ⌊(a : ℚ) + ((m : ℚ) - (a : ℚ)) * 0.25⌋ = (a : Int) + ((m : Int) - (a : Int)) / 4 := by
  have e : (a : ℚ) + ((m : ℚ) - (a : ℚ)) * 0.25 =
      (((a : Int) : ℚ)) + ((((m : Int) - (a : Int)) : Int) : ℚ) / ((4 : Nat) : ℚ) := by
    push_cast; ring
  rw [e, Int.floor_int_add, Rat.floor_intCast_div_natCast]
  rfl

theorem floor_three_quarters (a m : Nat) :
    ⌊(a : ℚ) + ((m : ℚ) - (a : ℚ)) * 0.75⌋ = (a : Int) + (3 * ((m : Int) - (a : Int))) / 4 := by
  have e : (a : ℚ) + ((m : ℚ) - (a : ℚ)) * 0.75 =
      (((a : Int) : ℚ)) + ((3 * ((m : Int) - (a : Int)) : Int) : ℚ) / ((4 : Nat) : ℚ) := by
    push_cast; ring
  rw [e, Int.floor_int_add, Rat.floor_intCast_div_natCast]
  rfl

theorem addEyesToPixelArt_eq (pixels : List Nat) (width height : Nat) :
    addEyesToPixelArt pixels width height = eyesOfBounds (computeBounds pixels width height) := by
  unfold addEyesToPixelArt eyesOfBounds computeBounds
  simp only [floor_six_tenths, floor_quarter, floor_three_quarters]

/-- C8. With `{minX, minY, maxX, maxY}` the box `addEyesToPixelArt` computes, the left pupil
is at `(floor(minX + 0.25 * (maxX - minX)), floor(minY + 0.6 * (maxY - minY)))`, the left
highlight is the pupil moved by +1 in x, and `centerY` is that eye row. -/
theorem left_eye_position (pixels : List Nat) (width height : Nat) :
    (addEyesToPixelArt pixels width height).bounds = computeBounds pixels width height ∧
    (addEyesToPixelArt pixels width height).left.pupil.x =
      ⌊((computeBounds pixels width height).minX : ℚ) +
        0.25 * (((computeBounds pixels width height).maxX : ℚ) -
          ((computeBounds pixels width height).minX : ℚ))⌋ ∧
    (addEyesToPixelArt pixels width height).left.pupil.y =
      ⌊((computeBounds pixels width height).minY : ℚ) +
        0.6 * (((computeBounds pixels width height).maxY : ℚ) -
          ((computeBounds pixels width height).minY : ℚ))⌋ ∧
    (addEyesToPixelArt pixels width height).left.highlight.x =
      (addEyesToPixelArt pixels width height).left.pupil.x + 1 ∧
    (addEyesToPixelArt pixels width height).left.highlight.y =
      (addEyesToPixelArt pixels width height).left.pupil.y ∧
    (addEyesToPixelArt pixels width height).centerY =
      (addEyesToPixelArt pixels width height).left.pupil.y := by
  refine ⟨rfl, ?_, ?_, rfl, rfl, rfl⟩
  · rw [mul_comm]; rfl
  · rw [mul_comm]; rfl

/-- C9 (counterexample). For the fully opaque 4x1 buffer the box is {0, 3, 0, 0} and
`floor(minX + 0.75 * (maxX - minX)) = 2`; the right eye has its pupil at x = 1 and its
highlight at x = 2, so the pupil is not at 2 and the highlight is not the pupil minus 1. -/
theorem right_eye_claim_fails :
    computeBounds [0, 0, 0, 255, 0, 0, 0, 255, 0, 0, 0, 255, 0, 0, 0, 255] 4 1 =
      { minX := 0, maxX := 3, minY := 0, maxY := 0 } ∧
    ⌊((0 : Nat) : ℚ) + 0.75 * (((3 : Nat) : ℚ) - ((0 : Nat) : ℚ))⌋ = 2 ∧
    (addEyesToPixelArt [0, 0, 0, 255, 0, 0, 0, 255, 0, 0, 0, 255, 0, 0, 0, 255] 4 1).right.pupil.x
      = 1 ∧
    (addEyesToPixelArt [0, 0, 0, 255, 0, 0, 0, 255, 0, 0, 0, 255, 0, 0, 0, 255] 4
      1).right.highlight.x = 2 := by
  refine ⟨by decide, ?_, ?_, ?_⟩
  · rw [mul_comm, floor_three_quarters]; decide
  · rw [addEyesToPixelArt_eq]; decide
  · rw [addEyesToPixelArt_eq]; decide

/-- C9 (amended). With `{minX, minY, maxX, maxY}` the box `addEyesToPixelArt` computes, the
right eye has its highlight at `x = floor(minX + 0.75 * (maxX - minX))` and its pupil at the
highlight's x minus 1 (pupil on the left of the highlight, as in the left eye), both on the
eye row `floor(minY + 0.6 * (maxY - minY))`. -/
theorem right_eye_position (pixels : List Nat) (width height : Nat) :
    (addEyesToPixelArt pixels width height).bounds = computeBounds pixels width height ∧
    (addEyesToPixelArt pixels width height).right.highlight.x =
      ⌊((computeBounds pixels width height).minX : ℚ) +
        0.75 * (((computeBounds pixels width height).maxX : ℚ) -
          ((computeBounds pixels width height).minX : ℚ))⌋ ∧
    (addEyesToPixelArt pixels width height).right.pupil.x =
      (addEyesToPixelArt pixels width height).right.highlight.x - 1 ∧
    (addEyesToPixelArt pixels width height).right.pupil.y =
      ⌊((computeBounds pixels width height).minY : ℚ) +
        0.6 * (((computeBounds pixels width height).maxY : ℚ) -
          ((computeBounds pixels width height).minY : ℚ))⌋ ∧
    (addEyesToPixelArt pixels width height).right.highlight.y =
      (addEyesToPixelArt pixels width height).right.pupil.y := by
  refine ⟨rfl, ?_, rfl, ?_, rfl⟩
  · rw [mul_comm]; rfl
  · rw [mul_comm]; rfl

/-- C10 (counterexample). For the 1x1 buffer with one opaque pixel the left highlight is at
x = 1 and the right pupil at x = -1, both outside the buffer; for the all-transparent 2x2
buffer the four points lie on row 8, outside the buffer. -/
theorem eye_points_leave_buffer :
    (addEyesToPixelArt [0, 0, 0, 255] 1 1).left.highlight = { x := 1, y := 0 } ∧
    (addEyesToPixelArt [0, 0, 0, 255] 1 1).right.pupil = { x := -1, y := 0 } ∧
    ¬ (addEyesToPixelArt [0, 0, 0, 255] 1 1).left.highlight.inBuffer 1 1 ∧
    ¬ (addEyesToPixelArt [0, 0, 0, 255] 1 1).right.pupil.inBuffer 1 1 ∧
    ¬ (addEyesToPixelArt (List.replicate 16 0) 2 2).left.pupil.inBuffer 2 2 := by
  rw [addEyesToPixelArt_eq, addEyesToPixelArt_eq]
  decide

theorem eyes_in_box (pixels : List Nat) (width height : Nat)
    (hex : ∃ x y, x < width ∧ y < height ∧ isOpaque pixels width x y) :
    (computeBounds pixels width height).minX ≤ (computeBounds pixels width height).maxX ∧
    (computeBounds pixels width height).maxX < width ∧
    (computeBounds pixels width height).minY ≤ (computeBounds pixels width height).maxY ∧
    (computeBounds pixels width height).maxY < height := by
  obtain ⟨_, hin, ⟨y1, hy1, hx1, hop1⟩, ⟨_, _, hx2, _⟩, ⟨x3, hx3, hy3, hop3⟩, ⟨_, _, hy4, _⟩⟩ :=
    computeBounds_tight pixels width height hex
  have h1 := hin _ _ hx1 hy1 hop1
  have h3 := hin _ _ hx3 hy3 hop3
  omega

/-- C10 (amended). For a buffer with at least one pixel of alpha above 20, the left pupil and
the right highlight are integer points inside the buffer, the left highlight is inside exactly
when the box is at least 2 pixels wide or `maxX + 1 < width`, and the right pupil is inside
exactly when the box is at least 3 pixels wide or `minX ≥ 1`.  For a buffer of width at least 1
with no such pixel, the four points are inside exactly when `width ≥ 11` and `height ≥ 9`. -/
theorem eye_points_in_buffer (pixels : List Nat) (width height : Nat) :
    ((∃ x y, x < width ∧ y < height ∧ isOpaque pixels width x y) →
      (addEyesToPixelArt pixels width height).left.pupil.inBuffer width height ∧
      (addEyesToPixelArt pixels width height).right.highlight.inBuffer width height ∧
      ((addEyesToPixelArt pixels width height).left.highlight.inBuffer width height ↔
        ((computeBounds pixels width height).minX < (computeBounds pixels width height).maxX ∨
          (computeBounds pixels width height).maxX + 1 < width)) ∧
      ((addEyesToPixelArt pixels width height).right.pupil.inBuffer width height ↔
        ((computeBounds pixels width height).minX + 2 ≤
            (computeBounds pixels width height).maxX ∨
          1 ≤ (computeBounds pixels width height).minX))) ∧
    ((∀ x y, x < width → y < height → ¬ isOpaque pixels width x y) → 0 < width →
      (((addEyesToPixelArt pixels width height).left.pupil.inBuffer width height ∧
        (addEyesToPixelArt pixels width height).left.highlight.inBuffer width height ∧
        (addEyesToPixelArt pixels width height).right.pupil.inBuffer width height ∧
        (addEyesToPixelArt pixels width height).right.highlight.inBuffer width height) ↔
        (11 ≤ width ∧ 9 ≤ height))) := by
  constructor
  · intro hex
    obtain ⟨h1, h2, h3, h4⟩ := eyes_in_box pixels width height hex
    rw [addEyesToPixelArt_eq]
    unfold eyesOfBounds Point.inBuffer
    simp only []
    refine ⟨?_, ?_, ?_, ?_⟩ <;> omega
  · intro hno hw
    rw [addEyesToPixelArt_eq, computeBounds_of_transparent pixels width height hw hno]
    unfold eyesOfBounds Point.inBuffer
    simp only []
    omega

theorem eye_points_in_buffer_witness :
    (∃ x y, x < 4 ∧ y < 1 ∧
      isOpaque [0, 0, 0, 255, 0, 0, 0, 255, 0, 0, 0, 255, 0, 0, 0, 255] 4 x y) ∧
    (addEyesToPixelArt [0, 0, 0, 255, 0, 0, 0, 255, 0, 0, 0, 255, 0, 0, 0, 255] 4
      1).left.pupil.inBuffer 4 1 ∧
    (∀ x y, x < 16 → y < 16 → ¬ isOpaque (List.replicate 1024 0) 16 x y) ∧
    (((addEyesToPixelArt (List.replicate 1024 0) 16 16).left.pupil.inBuffer 16 16 ∧
      (addEyesToPixelArt (List.replicate 1024 0) 16 16).left.highlight.inBuffer 16 16 ∧
      (addEyesToPixelArt (List.replicate 1024 0) 16 16).right.pupil.inBuffer 16 16 ∧
      (addEyesToPixelArt (List.replicate 1024 0) 16 16).right.highlight.inBuffer 16 16) ↔
      (11 ≤ 16 ∧ 9 ≤ 16)) :=
  ⟨⟨0, 0, by decide, by decide, by decide⟩,
   ((eye_points_in_buffer [0, 0, 0, 255, 0, 0, 0, 255, 0, 0, 0, 255, 0, 0, 0, 255] 4 1).1
      ⟨0, 0, by decide, by decide, by decide⟩).1,
   fun x y _ _ => not_isOpaque_replicate_zero 1024 16 x y,
   (eye_points_in_buffer (List.replicate 1024 0) 16 16).2
      (fun x y _ _ => not_isOpaque_replicate_zero 1024 16 x y) (by decide)⟩

/-! ## Distinct opaque colours -/

theorem uniqueColors_foldl (l : List Color) :
    ∀ m : List Color, m.Nodup →
      (l.foldl (fun unique c => if c ∈ unique then unique else unique ++ [c]) m).Nodup ∧
      ∀ c, c ∈ l.foldl (fun unique c => if c ∈ unique then unique else unique ++ [c]) m ↔
        c ∈ m ∨ c ∈ l := by
  induction l with
  | nil => intro m hm; exact ⟨hm, fun c => by simp⟩
  | cons a l ih =>
    intro m hm
    rw [List.foldl_cons]
    by_cases ha : a ∈ m
    · rw [if_pos ha]
      obtain ⟨h1, h2⟩ := ih m hm
      refine ⟨h1, fun c => ?_⟩
      rw [h2 c, List.mem_cons]
      constructor
      · rintro (h | h)
        · exact Or.inl h
        · exact Or.inr (Or.inr h)
      · rintro (h | h | h)
        · exact Or.inl h
        · exact Or.inl (h ▸ ha)
        · exact Or.inr h
    · rw [if_neg ha]
      have hm1 : (m ++ [a]).Nodup := by
        rw [List.nodup_append]
        refine ⟨hm, List.nodup_singleton a, ?_⟩
        intro c hc hc1
        rw [List.mem_singleton] at hc1
        exact ha (hc1 ▸ hc)
      obtain ⟨h1, h2⟩ := ih (m ++ [a]) hm1
      refine ⟨h1, fun c => ?_⟩
      rw [h2 c, List.mem_append, List.mem_singleton, List.mem_cons]
      constructor
      · rintro ((h | h) | h)
        · exact Or.inl h
        · exact Or.inr (Or.inl h)
        · exact Or.inr (Or.inr h)
      · rintro (h | h | h)
        · exact Or.inl (Or.inl h)
        · exact Or.inl (Or.inr h)
        · exact Or.inr h

theorem uniqueColors_nodup (l : List Color) : (uniqueColors l).Nodup :=
  (uniqueColors_foldl l [] List.nodup_nil).1

theorem mem_uniqueColors (l : List Color) (c : Color) : c ∈ uniqueColors l ↔ c ∈ l := by
  unfold uniqueColors
  rw [(uniqueColors_foldl l [] List.nodup_nil).2 c]
  simp

theorem length_uniqueColors (l : List Color) : (uniqueColors l).length = l.toFinset.card := by
  rw [← List.toFinset_card_of_nodup (uniqueColors_nodup l)]
  congr 1
  ext c
  rw [List.mem_toFinset, List.mem_toFinset, mem_uniqueColors]

theorem pixelOffsets_eq (n : Nat) : pixelOffsets (n * 4) = (List.range n).map (· * 4) := by
  unfold pixelOffsets
  have : (n * 4 + 3) / 4 = n := by omega
  rw [this]

theorem mem_opaqueColors (img : ImageData)
    (hlen : img.data.length = img.width * img.height * 4) (c : Color) :
    c ∈ opaqueColors img.data ↔
      ∃ x y, x < img.width ∧ y < img.height ∧ 20 < channel img x y 3 ∧
        c = (channel img x y 0, channel img x y 1, channel img x y 2) := by
  unfold opaqueColors alphaThreshold channel
  rw [hlen, pixelOffsets_eq, List.mem_filterMap]
  constructor
  · rintro ⟨i, hi, hc⟩
    obtain ⟨p, hp, rfl⟩ := List.mem_map.1 hi
    rw [List.mem_range] at hp
    have hw : 0 < img.width := by
      rcases Nat.eq_zero_or_pos img.width with h | h
      · rw [h] at hp; simp at hp
      · exact h
    refine ⟨p % img.width, p / img.width, Nat.mod_lt _ hw, ?_, ?_⟩
    · rw [Nat.div_lt_iff_lt_mul hw, Nat.mul_comm]; exact hp
    · have e : p / img.width * img.width + p % img.width = p := Nat.div_add_mod' p img.width
      rw [e]
      by_cases h : load img.data (p * 4 + 3) > 20
      · rw [if_pos h] at hc
        exact ⟨h, (Option.some.inj hc).symm⟩
      · rw [if_neg h] at hc; cases hc
  · rintro ⟨x, y, hx, hy, ha, rfl⟩
    refine ⟨(y * img.width + x) * 4, List.mem_map.2 ⟨y * img.width + x, ?_, rfl⟩, ?_⟩
    · rw [List.mem_range]; exact pixel_index_lt hx hy
    · rw [if_pos ha]; rfl

theorem mem_opaqueTriples (img : ImageData) (c : Color) :
    c ∈ opaqueTriples img ↔
      ∃ x y, x < img.width ∧ y < img.height ∧ 20 < channel img x y 3 ∧
        c = (channel img x y 0, channel img x y 1, channel img x y 2) := by
  unfold opaqueTriples
  rw [List.mem_toFinset, List.mem_filterMap]
  constructor
  · rintro ⟨p, hp, hc⟩
    rw [mem_grid] at hp
    by_cases h : 20 < channel img p.2 p.1 3
    · rw [if_pos h] at hc
      exact ⟨p.2, p.1, hp.2, hp.1, h, (Option.some.inj hc).symm⟩
    · rw [if_neg h] at hc; cases hc
  · rintro ⟨x, y, hx, hy, ha, rfl⟩
    refine ⟨(y, x), mem_grid.2 ⟨hy, hx⟩, ?_⟩
    simp only []
    rw [if_pos ha]

theorem length_unique_visible (img : ImageData)
    (hlen : img.data.length = img.width * img.height * 4) :
    (uniqueColors (opaqueColors img.data)).length = distinctColorCount img := by
  rw [length_uniqueColors]
  unfold distinctColorCount
  congr 1
  ext c
  rw [List.mem_toFinset, mem_opaqueColors img hlen, mem_opaqueTriples]

theorem opaqueColors_ne_nil (img : ImageData)
    (hlen : img.data.length = img.width * img.height * 4)
    (hex : ∃ x y, x < img.width ∧ y < img.height ∧ 20 < channel img x y 3) :
    (opaqueColors img.data).length ≠ 0 := by
  obtain ⟨x, y, hx, hy, ha⟩ := hex
  have : (channel img x y 0, channel img x y 1, channel img x y 2) ∈ opaqueColors img.data :=
    (mem_opaqueColors img hlen _).2 ⟨x, y, hx, hy, ha, rfl⟩
  intro h
  rw [List.length_eq_zero] at h
  rw [h] at this
  cases this

/-! ## `kMeansPalette`: number of centres -/

theorem initCenters_length (colors : List Color) (k : Nat) :
    ∀ (draws : List Nat) (centers : List Color) (used : List Nat) (r : List Color),
      centers.length ≤ k → initCenters colors k draws centers used = some r → r.length = k := by
  intro draws
  induction draws with
  | nil =>
    intro centers used r hle h
    simp only [initCenters] at h
    by_cases hlt : centers.length < k
    · rw [if_pos hlt] at h; cases h
    · rw [if_neg hlt] at h
      cases h
      omega
  | cons idx rest ih =>
    intro centers used r hle h
    simp only [initCenters] at h
    by_cases hlt : centers.length < k
    · rw [if_pos hlt] at h
      by_cases hu : idx ∈ used
      · rw [if_pos hu] at h
        exact ih centers used r hle h
      · rw [if_neg hu] at h
        cases hc : colors[idx]? with
        | none => rw [hc] at h; cases h
        | some c =>
          rw [hc] at h
          refine ih (centers ++ [c]) (idx :: used) r ?_ h
          rw [List.length_append, List.length_singleton]
          omega
    · rw [if_neg hlt] at h
      cases h
      omega

theorem initCenters_some (colors : List Color) (k : Nat) :
    ∀ (draws : List Nat) (centers : List Color) (used : List Nat),
      (∀ i ∈ draws, i < colors.length) →
      k ≤ centers.length + (draws.toFinset \ used.toFinset).card →
      ∃ r, initCenters colors k draws centers used = some r := by
  intro draws
  induction draws with
  | nil =>
    intro centers used _ hk
    simp only [initCenters]
    have : ¬ centers.length < k := by
      simp at hk
      omega
    rw [if_neg this]
    exact ⟨centers, rfl⟩
  | cons idx rest ih =>
    intro centers used hin hk
    simp only [initCenters]
    by_cases hlt : centers.length < k
    · rw [if_pos hlt]
      have hin1 : ∀ i ∈ rest, i < colors.length := fun i hi => hin i (List.mem_cons_of_mem _ hi)
      by_cases hu : idx ∈ used
      · rw [if_pos hu]
        refine ih centers used hin1 ?_
        have e : (idx :: rest).toFinset \ used.toFinset = rest.toFinset \ used.toFinset := by
          ext a
          simp only [List.toFinset_cons, Finset.mem_sdiff, Finset.mem_insert, List.mem_toFinset]
          constructor
          · rintro ⟨h1 | h1, h2⟩
            · exact absurd (h1 ▸ hu) h2
            · exact ⟨h1, h2⟩
          · rintro ⟨h1, h2⟩
            exact ⟨Or.inr h1, h2⟩
        rw [e] at hk
        exact hk
      · rw [if_neg hu]
        have hidx : idx < colors.length := hin idx (List.mem_cons_self _ _)
        rw [List.getElem?_eq_getElem hidx]
        simp only []
        refine ih (centers ++ [colors[idx]]) (idx :: used) hin1 ?_
        have hsub : (idx :: rest).toFinset \ used.toFinset ⊆
            insert idx (rest.toFinset \ (idx :: used).toFinset) := by
          intro a
          simp only [List.toFinset_cons, Finset.mem_sdiff, Finset.mem_insert, List.mem_toFinset]
          rintro ⟨h1 | h1, h2⟩
          · exact Or.inl h1
          · by_cases ha : a = idx
            · exact Or.inl ha
            · exact Or.inr ⟨h1, fun h => h.elim ha h2⟩
        have hcard := (Finset.card_le_card hsub).trans (Finset.card_insert_le _ _)
        rw [List.length_append, List.length_singleton]
        omega
    · rw [if_neg hlt]
      exact ⟨centers, rfl⟩

theorem length_foldl_set {α β : Type} (f : List α → β → Nat) (g : List α → β → α)
    (l : List β) :
    ∀ cs : List α, (l.foldl (fun cs c => cs.set (f cs c) (g cs c)) cs).length = cs.length := by
  induction l with
  | nil => intro cs; rfl
  | cons a l ih => intro cs; rw [List.foldl_cons, ih, List.length_set]

theorem length_updateCenters (centers : List Color) (k : Nat)
    (sums : List (Nat × Nat × Nat × Nat)) :
    (updateCenters centers k sums).length = centers.length := by
  unfold updateCenters
  exact length_foldl_set (fun _ c => c)
    (fun _ c => (roundDiv (sums.getD c (0, 0, 0, 0)).1 (max 1 (sums.getD c (0, 0, 0, 0)).2.2.2),
      roundDiv (sums.getD c (0, 0, 0, 0)).2.1 (max 1 (sums.getD c (0, 0, 0, 0)).2.2.2),
      roundDiv (sums.getD c (0, 0, 0, 0)).2.2.1 (max 1 (sums.getD c (0, 0, 0, 0)).2.2.2)))
    (List.range k) centers

theorem length_kMeansIterate (colors : List Color) (k : Nat) :
    ∀ (iters : Nat) (centers : List Color) (assignments : List Nat),
      (kMeansIterate colors k iters centers assignments).length = centers.length := by
  intro iters
  induction iters with
  | zero => intro centers assignments; rfl
  | succ n ih =>
    intro centers assignments
    simp only [kMeansIterate]
    split
    · exact length_updateCenters _ _ _
    · rw [ih, length_updateCenters]

theorem kMeansPalette_length (colors : List Color) (k : Nat) (draws : List Nat)
    (r : List Color) (hk : k ≤ colors.length) (h : kMeansPalette colors k draws = some r) :
    r.length = k := by
  unfold kMeansPalette at h
  simp only [] at h
  by_cases hge : k ≥ colors.length
  · rw [if_pos hge] at h
    cases h
    rw [List.length_take]
    omega
  · rw [if_neg hge] at h
    cases hc : initCenters colors k draws [] [] with
    | none => rw [hc] at h; cases h
    | some centers =>
      rw [hc] at h
      cases h
      rw [length_kMeansIterate]
      exact initCenters_length colors k draws [] [] centers (Nat.zero_le _) hc

theorem kMeansPalette_some (colors : List Color) (k : Nat) (draws : List Nat)
    (hd : k < colors.length → (∀ i ∈ draws, i < colors.length) ∧ k ≤ draws.toFinset.card) :
    ∃ r, kMeansPalette colors k draws = some r := by
  unfold kMeansPalette
  simp only []
  by_cases hge : k ≥ colors.length
  · rw [if_pos hge]
    exact ⟨_, rfl⟩
  · rw [if_neg hge]
    obtain ⟨hin, hcard⟩ := hd (by omega)
    obtain ⟨c, hc⟩ := initCenters_some colors k draws [] [] hin (by simpa using hcard)
    rw [hc]
    exact ⟨_, rfl⟩

/-! ## `nearestColor` -/

theorem nearestColor_foldl (r g b : Nat) (l : List Color) :
    ∀ (pre : List Color) (c : Color) (i : Nat),
      pre[i]? = some c →
      (∀ q ∈ pre, dist2 c r g b ≤ dist2 q r g b) →
      (∀ j, j < i → ∀ q, pre[j]? = some q → dist2 c r g b < dist2 q r g b) →
      ∃ c1, (l.foldl (nearestStep r g b) (some c, some (dist2 c r g b))).1 = some c1 ∧
        IsFirstNearest (pre ++ l) r g b c1 := by
  induction l with
  | nil =>
    intro pre c i hi hmin hfirst
    rw [List.append_nil]
    exact ⟨c, rfl, i, hi, hmin, hfirst⟩
  | cons a l ih =>
    intro pre c i hi hmin hfirst
    have hilt : i < pre.length := by
      by_contra hcon
      rw [List.getElem?_eq_none (Nat.le_of_not_lt hcon)] at hi
      cases hi
    have happ : pre ++ a :: l = (pre ++ [a]) ++ l := by simp
    rw [List.foldl_cons, happ]
    by_cases hlt : dist2 a r g b < dist2 c r g b
    · have hstep : nearestStep r g b (some c, some (dist2 c r g b)) a =
          (some a, some (dist2 a r g b)) := by
        simp [nearestStep, distLt, hlt]
      rw [hstep]
      refine ih (pre ++ [a]) a pre.length ?_ ?_ ?_
      · simp
      · intro q hq
        rcases List.mem_append.1 hq with h | h
        · exact le_of_lt (lt_of_lt_of_le hlt (hmin q h))
        · rw [List.mem_singleton] at h; rw [h]
      · intro j hj q hq
        rw [List.getElem?_append_left hj] at hq
        exact lt_of_lt_of_le hlt (hmin q (List.getElem?_mem hq))
    · have hstep : nearestStep r g b (some c, some (dist2 c r g b)) a =
          (some c, some (dist2 c r g b)) := by
        simp [nearestStep, distLt, hlt]
      rw [hstep]
      refine ih (pre ++ [a]) c i ?_ ?_ ?_
      · rw [List.getElem?_append_left hilt]; exact hi
      · intro q hq
        rcases List.mem_append.1 hq with h | h
        · exact hmin q h
        · rw [List.mem_singleton] at h; rw [h]; exact not_lt.1 hlt
      · intro j hj q hq
        rw [List.getElem?_append_left (lt_trans hj hilt)] at hq
        exact hfirst j hj q hq

theorem nearestColor_spec (palette : List Color) (r g b : Nat) (hne : palette ≠ []) :
    ∃ q, nearestColor palette r g b = some q ∧ IsFirstNearest palette r g b q := by
  cases palette with
  | nil => exact absurd rfl hne
  | cons a l =>
    unfold nearestColor
    rw [List.foldl_cons]
    have hstep : nearestStep r g b ((a :: l).head?, none) a = (some a, some (dist2 a r g b)) := by
      simp [nearestStep, distLt]
    rw [hstep]
    have := nearestColor_foldl r g b l [a] a 0 rfl
      (by intro q hq; rw [List.mem_singleton] at hq; rw [hq])
      (by intro j hj; exact absurd hj (Nat.not_lt_zero _))
    exact this

/-! ## `applyPaletteQuantization` -/

theorem foldlM_eq_some_foldl {α β : Type} (f : β → α → Option β) (g : β → α → β)
    (l : List α) (h : ∀ b a, f b a = some (g b a)) :
    ∀ b : β, l.foldlM f b = some (l.foldl g b) := by
  induction l with
  | nil => intro b; rfl
  | cons a l ih =>
    intro b
    rw [List.foldlM_cons, h b a, List.foldl_cons]
    exact ih (g b a)

theorem recolorPixel_eq (data : List Nat) (palette : List Color) (hne : palette ≠ [])
    (output : List Nat) (p : Nat) :
    recolorPixel data palette output (p * 4) =
      some (store4 output (p * 4) (recolorValue data palette p 0) (recolorValue data palette p 1)
        (recolorValue data palette p 2) (recolorValue data palette p 3)) := by
  unfold recolorPixel recolorValue
  by_cases h : load data (p * 4 + 3) ≤ alphaThreshold
  · simp [h]
  · obtain ⟨q, hq, _⟩ := nearestColor_spec palette (load data (p * 4)) (load data (p * 4 + 1))
      (load data (p * 4 + 2)) hne
    simp [h, hq]

theorem recolor_loop (img : ImageData) (hlen : img.data.length = img.width * img.height * 4)
    (palette : List Color) (hne : palette ≠ []) :
    (pixelOffsets img.data.length).foldlM (recolorPixel img.data palette)
      (List.replicate img.data.length 0) = some (quantizedData img palette) := by
  have e : pixelOffsets img.data.length = (List.range (img.width * img.height)).map (· * 4) := by
    rw [hlen, pixelOffsets_eq]
  rw [e, List.foldlM_map]
  unfold quantizedData paintAll
  exact foldlM_eq_some_foldl _ _ _ (fun b a => recolorPixel_eq img.data palette hne b a) _

theorem load_quantizedData (img : ImageData)
    (hlen : img.data.length = img.width * img.height * 4) (palette : List Color)
    (x y c : Nat) (hx : x < img.width) (hy : y < img.height) (hc : c < 4) :
    load (quantizedData img palette) ((y * img.width + x) * 4 + c) =
      clampByte (recolorValue img.data palette (y * img.width + x) c) := by
  unfold quantizedData
  refine paintAll_hit (fun p : Nat => p) (recolorValue img.data palette) _ c hc
    (y * img.width + x) _ ?_ ?_ ?_
  · rw [List.mem_range]; exact pixel_index_lt hx hy
  · intro a1 _ h1
    simp only at h1
    rw [h1]
  · rw [List.length_replicate, hlen]
    have := pixel_index_lt hx hy
    simp only
    omega

theorem unique_pos (img : ImageData) (hne : (opaqueColors img.data).length ≠ 0) :
    0 < (uniqueColors (opaqueColors img.data)).length := by
  cases hc : opaqueColors img.data with
  | nil => rw [hc] at hne; exact absurd rfl hne
  | cons a l =>
    have : a ∈ uniqueColors (a :: l) := (mem_uniqueColors _ _).2 (List.mem_cons_self _ _)
    exact List.length_pos_of_mem this

theorem apq_transparent (lighten : Color → Color) (draws : List Nat) (img : ImageData)
    (paletteSize : Nat) (h0 : (opaqueColors img.data).length = 0) :
    applyPaletteQuantization lighten draws img paletteSize = some (img, []) := by
  unfold applyPaletteQuantization
  simp only []
  rw [if_pos h0]

theorem apq_of_centers (lighten : Color → Color) (draws : List Nat) (img : ImageData)
    (paletteSize : Nat) (hlen : img.data.length = img.width * img.height * 4)
    (hK : 1 ≤ paletteSize) (hne : (opaqueColors img.data).length ≠ 0) (centers : List Color)
    (hc : kMeansPalette (uniqueColors (opaqueColors img.data))
      (min paletteSize (max 1 (uniqueColors (opaqueColors img.data)).length)) draws =
        some centers) :
    centers.length = min paletteSize (distinctColorCount img) ∧
    centers.map lighten ≠ [] ∧
    applyPaletteQuantization lighten draws img paletteSize =
      some ({ width := img.width, height := img.height,
              data := quantizedData img (centers.map lighten) }, centers.map lighten) := by
  have hpos := unique_pos img hne
  have hd := length_unique_visible img hlen
  have hcl := kMeansPalette_length _ _ draws centers (by omega) hc
  have hcne : centers.map lighten ≠ [] := by
    intro h
    have := congrArg List.length h
    rw [List.length_map, hcl] at this
    simp at this
    omega
  refine ⟨by omega, hcne, ?_⟩
  unfold applyPaletteQuantization
  simp only []
  rw [if_neg hne, hc]
  simp only [lightenSaturatePalette]
  rw [recolor_loop img hlen _ hcne]

theorem apq_none (lighten : Color → Color) (draws : List Nat) (img : ImageData)
    (paletteSize : Nat) (hne : (opaqueColors img.data).length ≠ 0)
    (hc : kMeansPalette (uniqueColors (opaqueColors img.data))
      (min paletteSize (max 1 (uniqueColors (opaqueColors img.data)).length)) draws = none) :
    applyPaletteQuantization lighten draws img paletteSize = none := by
  unfold applyPaletteQuantization
  simp only []
  rw [if_neg hne, hc]

theorem apq_cases (lighten : Color → Color) (draws : List Nat) (img : ImageData)
    (paletteSize : Nat) (hlen : img.data.length = img.width * img.height * 4)
    (hK : 1 ≤ paletteSize) (res : ImageData × List Color)
    (h : applyPaletteQuantization lighten draws img paletteSize = some res) :
    (¬ hasOpaquePixel img ∧ res = (img, [])) ∨
    (hasOpaquePixel img ∧ ∃ centers : List Color,
      centers.length = min paletteSize (distinctColorCount img) ∧
      centers.map lighten ≠ [] ∧
      res = ({ width := img.width, height := img.height,
               data := quantizedData img (centers.map lighten) }, centers.map lighten)) := by
  by_cases h0 : (opaqueColors img.data).length = 0
  · left
    rw [apq_transparent lighten draws img paletteSize h0] at h
    refine ⟨fun hex => opaqueColors_ne_nil img hlen hex h0, (Option.some.inj h).symm⟩
  · right
    have hex : hasOpaquePixel img := by
      cases hc : opaqueColors img.data with
      | nil => rw [hc] at h0; exact absurd rfl h0
      | cons a l =>
        have ha : a ∈ opaqueColors img.data := by rw [hc]; exact List.mem_cons_self _ _
        obtain ⟨x, y, hx, hy, hop, _⟩ := (mem_opaqueColors img hlen a).1 ha
        exact ⟨x, y, hx, hy, hop⟩
    refine ⟨hex, ?_⟩
    cases hc : kMeansPalette (uniqueColors (opaqueColors img.data))
      (min paletteSize (max 1 (uniqueColors (opaqueColors img.data)).length)) draws with
    | none => rw [apq_none lighten draws img paletteSize h0 hc] at h; cases h
    | some centers =>
      obtain ⟨h1, h2, h3⟩ := apq_of_centers lighten draws img paletteSize hlen hK h0 centers hc
      rw [h3] at h
      exact ⟨centers, h1, h2, (Option.some.inj h).symm⟩

theorem apq_returns (lighten : Color → Color) (draws : List Nat) (img : ImageData)
    (paletteSize : Nat) (hlen : img.data.length = img.width * img.height * 4)
    (hK : 1 ≤ paletteSize) (hd : drawsSuffice img paletteSize draws) :
    ∃ res, applyPaletteQuantization lighten draws img paletteSize = some res := by
  by_cases h0 : (opaqueColors img.data).length = 0
  · exact ⟨_, apq_transparent lighten draws img paletteSize h0⟩
  · have hpos := unique_pos img h0
    have hdc := length_unique_visible img hlen
    have hk : min paletteSize (max 1 (uniqueColors (opaqueColors img.data)).length) <
        (uniqueColors (opaqueColors img.data)).length →
        (∀ i ∈ draws, i < (uniqueColors (opaqueColors img.data)).length) ∧
        min paletteSize (max 1 (uniqueColors (opaqueColors img.data)).length) ≤
          draws.toFinset.card := by
      intro hlt
      obtain ⟨h1, h2⟩ := hd (by omega)
      rw [hdc]
      exact ⟨h1, by omega⟩
    obtain ⟨centers, hc⟩ := kMeansPalette_some _ _ draws hk
    exact ⟨_, (apq_of_centers lighten draws img paletteSize hlen hK h0 centers hc).2.2⟩

theorem recolorValue_transparent (data : List Nat) (palette : List Color) (p c : Nat)
    (h : load data (p * 4 + 3) ≤ 20) : recolorValue data palette p c = load data (p * 4 + c) := by
  unfold recolorValue alphaThreshold
  rw [if_pos h]

theorem recolorValue_visible (data : List Nat) (palette : List Color) (hne : palette ≠ [])
    (p : Nat) (h : ¬ load data (p * 4 + 3) ≤ 20) :
    ∃ q, IsFirstNearest palette (load data (p * 4)) (load data (p * 4 + 1))
        (load data (p * 4 + 2)) q ∧
      recolorValue data palette p 0 = q.1 ∧ recolorValue data palette p 1 = q.2.1 ∧
      recolorValue data palette p 2 = q.2.2 ∧
      recolorValue data palette p 3 = load data (p * 4 + 3) := by
  obtain ⟨q, hq, hfirst⟩ := nearestColor_spec palette (load data (p * 4))
    (load data (p * 4 + 1)) (load data (p * 4 + 2)) hne
  refine ⟨q, hfirst, ?_, ?_, ?_, ?_⟩ <;>
    · unfold recolorValue alphaThreshold
      rw [if_neg h, hq]
      simp

theorem recolorValue_alpha (data : List Nat) (palette : List Color) (hne : palette ≠ [])
    (p : Nat) : recolorValue data palette p 3 = load data (p * 4 + 3) := by
  by_cases h : load data (p * 4 + 3) ≤ 20
  · exact recolorValue_transparent data palette p 3 h
  · obtain ⟨_, _, _, _, _, h3⟩ := recolorValue_visible data palette hne p h
    exact h3

theorem length_quantizedData (img : ImageData) (palette : List Color) :
    (quantizedData img palette).length = img.data.length := by
  unfold quantizedData
  rw [paintAll_length, List.length_replicate]

/-- C3. For every well-formed buffer with a pixel of alpha above 20 and every `K ≥ 1`:
whenever `applyPaletteQuantization` returns, for whatever indices the random centre
initialisation drew, the palette has exactly `min K d` entries, `d` the number of distinct
RGB triples among the pixels with alpha above 20; and it returns for every draw sequence that
lets the centre initialisation finish. -/
theorem palette_size (lighten : Color → Color) (draws : List Nat) (img : ImageData)
    (paletteSize : Nat) (hwf : img.WF) (hK : 1 ≤ paletteSize) (hex : hasOpaquePixel img) :
    (∀ res, applyPaletteQuantization lighten draws img paletteSize = some res →
      res.2.length = min paletteSize (distinctColorCount img)) ∧
    (drawsSuffice img paletteSize draws →
      ∃ res, applyPaletteQuantization lighten draws img paletteSize = some res ∧
        res.2.length = min paletteSize (distinctColorCount img)) := by
  have key : ∀ res, applyPaletteQuantization lighten draws img paletteSize = some res →
      res.2.length = min paletteSize (distinctColorCount img) := by
    intro res h
    rcases apq_cases lighten draws img paletteSize hwf.1 hK res h with
      ⟨hno, _⟩ | ⟨_, centers, hc, _, rfl⟩
    · exact absurd hex hno
    · simp only [List.length_map]
      exact hc
  refine ⟨key, fun hd => ?_⟩
  obtain ⟨res, hres⟩ := apq_returns lighten draws img paletteSize hwf.1 hK hd
  exact ⟨res, hres, key res hres⟩

theorem palette_size_witness :
    sampleImage.WF ∧ hasOpaquePixel sampleImage ∧ drawsSuffice sampleImage 2 [0, 0, 2, 1] ∧
    ∃ res, applyPaletteQuantization id [0, 0, 2, 1] sampleImage 2 = some res ∧
      res.2.length = min 2 (distinctColorCount sampleImage) :=
  ⟨by decide, ⟨0, 0, by decide, by decide, by decide⟩, by decide,
   (palette_size id [0, 0, 2, 1] sampleImage 2 (by decide) (by decide)
      ⟨0, 0, by decide, by decide, by decide⟩).2 (by decide)⟩

/-- C4. For every well-formed buffer and `K ≥ 1`, with a colour transform that yields bytes:
whenever `applyPaletteQuantization` returns, every output pixel whose alpha exceeds 20 has an
RGB that is an entry of the returned palette at minimal squared RGB distance from the pixel's
input RGB, and the first such entry in palette order; the distance has no alpha term.  It
returns for every draw sequence that lets the centre initialisation finish. -/
theorem recolor_first_nearest (lighten : Color → Color) (draws : List Nat) (img : ImageData)
    (paletteSize : Nat) (hwf : img.WF) (hK : 1 ≤ paletteSize)
    (hl : ∀ c, Color.isBytes (lighten c)) :
    (∀ res, applyPaletteQuantization lighten draws img paletteSize = some res →
      ∀ x y, x < img.width → y < img.height → 20 < channel res.1 x y 3 →
        IsFirstNearest res.2 (channel img x y 0) (channel img x y 1) (channel img x y 2)
          (channel res.1 x y 0, channel res.1 x y 1, channel res.1 x y 2)) ∧
    (drawsSuffice img paletteSize draws →
      ∃ res, applyPaletteQuantization lighten draws img paletteSize = some res) := by
  refine ⟨?_, apq_returns lighten draws img paletteSize hwf.1 hK⟩
  intro res h x y hx hy ha
  rcases apq_cases lighten draws img paletteSize hwf.1 hK res h with
    ⟨hno, rfl⟩ | ⟨_, centers, _, hne, rfl⟩
  · exact absurd ⟨x, y, hx, hy, ha⟩ hno
  · have hch : ∀ c, c < 4 →
        channel { width := img.width, height := img.height,
                  data := quantizedData img (centers.map lighten) } x y c =
          clampByte (recolorValue img.data (centers.map lighten) (y * img.width + x) c) :=
      fun c hc => load_quantizedData img hwf.1 (centers.map lighten) x y c hx hy hc
    simp only [] at ha ⊢
    have hin : load img.data ((y * img.width + x) * 4 + 3) ≤ 255 := load_le_of_bytes _ hwf.2 _
    rw [hch 3 (by omega), recolorValue_alpha _ _ hne, clampByte_of_le hin] at ha
    obtain ⟨q, hfirst, h0, h1, h2, _⟩ :=
      recolorValue_visible img.data (centers.map lighten) hne (y * img.width + x) (by omega)
    have hq : Color.isBytes q := by
      obtain ⟨i, hi, _⟩ := hfirst
      obtain ⟨c0, _, rfl⟩ := List.mem_map.1 (List.getElem?_mem hi)
      exact hl c0
    rw [hch 0 (by omega), hch 1 (by omega), hch 2 (by omega), h0, h1, h2,
      clampByte_of_le hq.1, clampByte_of_le hq.2.1, clampByte_of_le hq.2.2]
    exact hfirst

theorem recolor_first_nearest_witness :
    sampleImage.WF ∧ (∀ c : Color, Color.isBytes (sampleLighten c)) ∧
    drawsSuffice sampleImage 2 [0, 0, 2, 1] ∧
    ∃ res, applyPaletteQuantization sampleLighten [0, 0, 2, 1] sampleImage 2 = some res :=
  ⟨by decide,
   fun c => ⟨Nat.min_le_right _ _, Nat.min_le_right _ _, Nat.min_le_right _ _⟩,
   by decide,
   (recolor_first_nearest sampleLighten [0, 0, 2, 1] sampleImage 2 (by decide) (by decide)
      (fun c => ⟨Nat.min_le_right _ _, Nat.min_le_right _ _, Nat.min_le_right _ _⟩)).2
      (by decide)⟩

/-- C5. For every well-formed buffer and `K ≥ 1`: whenever `applyPaletteQuantization`
returns, the buffer it returns has the same width, height and length, every pixel keeps its
input alpha, and every pixel with alpha at most 20 keeps all four bytes.  It returns for
every draw sequence that lets the centre initialisation finish. -/
theorem quantization_keeps_alpha (lighten : Color → Color) (draws : List Nat) (img : ImageData)
    (paletteSize : Nat) (hwf : img.WF) (hK : 1 ≤ paletteSize) :
    (∀ res, applyPaletteQuantization lighten draws img paletteSize = some res →
      res.1.width = img.width ∧ res.1.height = img.height ∧
      res.1.data.length = img.data.length ∧
      ∀ x y, x < img.width → y < img.height →
        channel res.1 x y 3 = channel img x y 3 ∧
        (channel img x y 3 ≤ 20 → ∀ c, c < 4 → channel res.1 x y c = channel img x y c)) ∧
    (drawsSuffice img paletteSize draws →
      ∃ res, applyPaletteQuantization lighten draws img paletteSize = some res) := by
  refine ⟨?_, apq_returns lighten draws img paletteSize hwf.1 hK⟩
  intro res h
  rcases apq_cases lighten draws img paletteSize hwf.1 hK res h with
    ⟨_, rfl⟩ | ⟨_, centers, _, hne, rfl⟩
  · exact ⟨rfl, rfl, rfl, fun x y _ _ => ⟨rfl, fun _ c _ => rfl⟩⟩
  · refine ⟨rfl, rfl, length_quantizedData img _, ?_⟩
    intro x y hx hy
    have hch : ∀ c, c < 4 →
        channel { width := img.width, height := img.height,
                  data := quantizedData img (centers.map lighten) } x y c =
          clampByte (recolorValue img.data (centers.map lighten) (y * img.width + x) c) :=
      fun c hc => load_quantizedData img hwf.1 (centers.map lighten) x y c hx hy hc
    simp only []
    constructor
    · rw [hch 3 (by omega), recolorValue_alpha _ _ hne]
      exact clampByte_of_le (load_le_of_bytes _ hwf.2 _)
    · intro ha c hc
      rw [hch c hc, recolorValue_transparent _ _ _ _ ha]
      exact clampByte_of_le (load_le_of_bytes _ hwf.2 _)

theorem quantization_keeps_alpha_witness :
    sampleImage.WF ∧ drawsSuffice sampleImage 2 [0, 0, 2, 1] ∧
    ∃ res, applyPaletteQuantization id [0, 0, 2, 1] sampleImage 2 = some res :=
  ⟨by decide, by decide,
   (quantization_keeps_alpha id [0, 0, 2, 1] sampleImage 2 (by decide) (by decide)).2
     (by decide)⟩

/-! ## The animator: `setMode`, `render` without a sprite, `setSprite` -/

theorem setMode_of_ne_empty (a : Animator) (m : String) (hm : m ≠ "") :
    setMode a m = { a with mode := m } := by
  unfold setMode
  rw [if_neg hm]

theorem modeNames_ne_empty (m : String) (hm : m ∈ modeNames) : m ≠ "" := by
  unfold modeNames at hm
  simp only [List.mem_cons, List.mem_singleton, List.not_mem_nil, or_false] at hm
  rcases hm with rfl | rfl | rfl | rfl | rfl | rfl <;> decide

/-- C19. For every animator state and every mode name `m`, `setMode(m)` sets the mode to `m`
and changes no other field: timers, wink state, sprite, bounds, eyes and edge pixels are the
same; calling it twice gives the state of calling it once. -/
theorem setMode_changes_only_mode (a : Animator) (m : String) (hm : m ∈ modeNames) :
    setMode a m = { a with mode := m } ∧
    (setMode a m).mode = m ∧
    (setMode a m).tearPhase = a.tearPhase ∧
    (setMode a m).winkState = a.winkState ∧
    (setMode a m).sleepElapsed = a.sleepElapsed ∧
    (setMode a m).sleepDuration = a.sleepDuration ∧
    (setMode a m).basePixels = a.basePixels ∧
    (setMode a m).bodyPixels = a.bodyPixels ∧
    (setMode a m).bounds = a.bounds ∧
    (setMode a m).eyes = a.eyes ∧
    (setMode a m).edgePixels = a.edgePixels ∧
    setMode (setMode a m) m = setMode a m := by
  have h := setMode_of_ne_empty a m (modeNames_ne_empty m hm)
  have h2 := setMode_of_ne_empty (setMode a m) m (modeNames_ne_empty m hm)
  refine ⟨h, ?_, ?_, ?_, ?_, ?_, ?_, ?_, ?_, ?_, ?_, ?_⟩
  · rw [h]
  · rw [h]
  · rw [h]
  · rw [h]
  · rw [h]
  · rw [h]
  · rw [h]
  · rw [h]
  · rw [h]
  · rw [h]
  · rw [h2, h]

theorem setMode_changes_only_mode_witness :
    "sad" ∈ modeNames ∧
    (setMode (newAnimator 1 1 []) "sad").mode = "sad" ∧
    setMode (setMode (newAnimator 1 1 []) "sad") "sad" = setMode (newAnimator 1 1 []) "sad" :=
  ⟨by decide,
   (setMode_changes_only_mode (newAnimator 1 1 []) "sad" (by decide)).2.1,
   (setMode_changes_only_mode (newAnimator 1 1 []) "sad" (by decide)).2.2.2.2.2.2.2.2.2.2.2⟩

/-- C17. On an animator with no base sprite, `render` returns normally for every mode,
timestamp and delta, with the canvas cleared (all bytes 0), and it leaves the mode,
`tearPhase`, `winkState`, `sleepElapsed` and `sleepDuration` as they were. -/
theorem render_without_sprite (a : Animator) (rand : Nat → ℚ) (sinTurns : ℚ → ℚ)
    (timestamp delta : ℚ) (hnull : a.bodyPixels = none) :
    ∃ a1, render a rand sinTurns timestamp delta = some a1 ∧
      a1 = { a with display := List.replicate (a.width * a.height * 4) 0 } ∧
      (∀ v ∈ a1.display, v = 0) ∧ a1.display.length = a.width * a.height * 4 ∧
      a1.mode = a.mode ∧ a1.tearPhase = a.tearPhase ∧ a1.winkState = a.winkState ∧
      a1.sleepElapsed = a.sleepElapsed ∧ a1.sleepDuration = a.sleepDuration := by
  refine ⟨clearCanvas a, ?_, rfl, ?_, ?_, rfl, rfl, rfl, rfl, rfl⟩
  · unfold render
    rw [hnull]
  · intro v hv
    exact List.eq_of_mem_replicate hv
  · exact List.length_replicate _ _

theorem render_without_sprite_witness :
    (setMode (newAnimator 2 2 [1, 2, 3, 4]) "wink").bodyPixels = none ∧
    ∃ a1, render (setMode (newAnimator 2 2 [1, 2, 3, 4]) "wink") (fun _ => 0) (fun _ => 0) 0 16
        = some a1 ∧
      a1 = { setMode (newAnimator 2 2 [1, 2, 3, 4]) "wink" with
             display := List.replicate (2 * 2 * 4) 0 } :=
  ⟨rfl,
   (render_without_sprite (setMode (newAnimator 2 2 [1, 2, 3, 4]) "wink") (fun _ => 0)
      (fun _ => 0) 0 16 rfl).imp fun _ h => ⟨h.1, h.2.1⟩⟩

theorem setSprite_timers (a : Animator) (img : ImageData) (eyes : Option EyePair)
    (rand : Nat → ℚ) (now nowRun : ℚ) :
    (setSprite a (some img) eyes rand now nowRun).tearPhase = 0 ∧
    (setSprite a (some img) eyes rand now nowRun).sleepElapsed = 0 ∧
    (setSprite a (some img) eyes rand now nowRun).sleepDuration = 3000 + rand 0 * 2000 ∧
    (setSprite a (some img) eyes rand now nowRun).winkState.next = now + (1000 + rand 1 * 1000) ∧
    (setSprite a (some img) eyes rand now nowRun).winkState.active = a.winkState.active ∧
    (setSprite a (some img) eyes rand now nowRun).winkState.endsAt = a.winkState.endsAt := by
  unfold setSprite ensureRunning scheduleNextWink
  simp only []
  split <;> exact ⟨rfl, rfl, rfl, rfl, rfl, rfl⟩

theorem setSprite_fields (a : Animator) (img : ImageData) (eyes : Option EyePair)
    (rand : Nat → ℚ) (now nowRun : ℚ) :
    (setSprite a (some img) eyes rand now nowRun).width = img.width ∧
    (setSprite a (some img) eyes rand now nowRun).height = img.height ∧
    (setSprite a (some img) eyes rand now nowRun).bodyPixels = some img.data ∧
    (setSprite a (some img) eyes rand now nowRun).basePixels = some img.data ∧
    (setSprite a (some img) eyes rand now nowRun).eyes = eyes ∧
    (setSprite a (some img) eyes rand now nowRun).bounds =
      some (match eyes with
        | some e => e.bounds
        | none => computeBounds img.data img.width img.height) ∧
    (setSprite a (some img) eyes rand now nowRun).frameBuffer =
      some (List.replicate (img.width * img.height * 4) 0) ∧
    (setSprite a (some img) eyes rand now nowRun).outputImageData =
      some { width := img.width, height := img.height,
             data := List.replicate (img.width * img.height * 4) 0 } ∧
    (setSprite a (some img) eyes rand now nowRun).mode = a.mode := by
  unfold setSprite ensureRunning scheduleNextWink
  simp only []
  split <;> exact ⟨rfl, rfl, rfl, rfl, rfl, rfl, rfl, rfl, rfl⟩

/-- C18 (failing input). `setSprite` resets `tearPhase`, `sleepElapsed`, `sleepDuration` and
`winkState.next`, but it does not touch `winkState.active`: installed on an animator in which
a wink is active, it leaves the wink active. -/
theorem setSprite_keeps_active_wink :
    winkingAnimator.winkState.active = true ∧
    (setSprite winkingAnimator (some dotImage) none (fun _ => 0) 50 50).winkState.active = true ∧
    (setSprite winkingAnimator (some dotImage) none (fun _ => 0) 50 50).tearPhase = 0 ∧
    (setSprite winkingAnimator (some dotImage) none (fun _ => 0) 50 50).sleepElapsed = 0 := by
  have hact : winkingAnimator.winkState.active = true := by
    unfold winkingAnimator updateWinkState scheduleNextWink newAnimator
    norm_num
  obtain ⟨h1, h2, _, _, h5, _⟩ :=
    setSprite_timers winkingAnimator dotImage none (fun _ => 0) 50 50
  exact ⟨hact, h5.trans hact, h1, h2⟩

/-- C20 (counterexample). Installing the 1x1 opaque sprite without an eyePair leaves the
stored eyes `null`, while `addEyesToPixelArt` computes an EyePair for that buffer. -/
theorem setSprite_without_eyes_stores_null :
    (setSprite (newAnimator 1 1 [0, 0, 0, 0]) (some dotImage) none (fun _ => 0) 0 0).eyes = none ∧
    (setSprite (newAnimator 1 1 [0, 0, 0, 0]) (some dotImage) none (fun _ => 0) 0 0).eyes ≠
      some (addEyesToPixelArt dotImage.data dotImage.width dotImage.height) := by
  have h := (setSprite_fields (newAnimator 1 1 [0, 0, 0, 0]) dotImage none (fun _ => 0) 0 0).2.2.2.2.1
  refine ⟨h, ?_⟩
  rw [h]
  exact fun e => Option.noConfusion e

/-- C20 (amended). For every sprite installed by `setSprite` without an eyePair, the stored
eyes are `null`, and the stored bounds equal the bounding box of the EyePair that
`addEyesToPixelArt` computes for that buffer (the box of `computeBounds`). -/
theorem setSprite_without_eyes (a : Animator) (img : ImageData) (rand : Nat → ℚ)
    (now nowRun : ℚ) :
    (setSprite a (some img) none rand now nowRun).eyes = none ∧
    (setSprite a (some img) none rand now nowRun).bounds =
      some (addEyesToPixelArt img.data img.width img.height).bounds ∧
    (setSprite a (some img) none rand now nowRun).bounds =
      some (computeBounds img.data img.width img.height) := by
  obtain ⟨_, _, _, _, h5, h6, _⟩ := setSprite_fields a img none rand now nowRun
  exact ⟨h5, h6, h6⟩

/-! ## Conditional painting -/

theorem paintSome_cons {α : Type} (key : α → Nat) (v : α → Option (Nat → Nat))
    (buf : List Nat) (a : α) (l : List α) :
    paintSome key v buf (a :: l) =
      paintSome key v
        (match v a with
          | none => buf
          | some f => store4 buf (key a * 4) (f 0) (f 1) (f 2) (f 3)) l := rfl

theorem paintSome_eq_paintAll {α : Type} (key : α → Nat) (v : α → Option (Nat → Nat))
    (l : List α) :
    ∀ buf : List Nat, paintSome key v buf l =
      paintAll key (fun a c => ((v a).getD fun _ => 0) c) buf
        (l.filter fun a => (v a).isSome) := by
  induction l with
  | nil => intro buf; rfl
  | cons a l ih =>
    intro buf
    rw [paintSome_cons]
    cases h : v a with
    | none =>
      rw [List.filter_cons_of_neg (by simp [h])]
      exact ih buf
    | some f =>
      rw [List.filter_cons_of_pos (by simp [h]), paintAll_cons, ih]
      simp [h]

theorem paintSome_length {α : Type} (key : α → Nat) (v : α → Option (Nat → Nat))
    (l : List α) (buf : List Nat) : (paintSome key v buf l).length = buf.length := by
  rw [paintSome_eq_paintAll, paintAll_length]

theorem paintSome_miss {α : Type} (key : α → Nat) (v : α → Option (Nat → Nat)) (l : List α)
    (j : Nat) (buf : List Nat) (hmiss : ∀ a ∈ l, (v a).isSome → key a ≠ j / 4) :
    load (paintSome key v buf l) j = load buf j := by
  rw [paintSome_eq_paintAll]
  apply paintAll_miss
  intro a ha
  rw [List.mem_filter] at ha
  exact hmiss a ha.1 ha.2

theorem paintSome_hit {α : Type} (key : α → Nat) (v : α → Option (Nat → Nat)) (l : List α)
    (c : Nat) (hc : c < 4) (a : α) (f : Nat → Nat) (buf : List Nat) (ha : a ∈ l)
    (hv : v a = some f) (hinj : ∀ a1 ∈ l, key a1 = key a → a1 = a)
    (hlen : key a * 4 + c < buf.length) :
    load (paintSome key v buf l) (key a * 4 + c) = clampByte (f c) := by
  rw [paintSome_eq_paintAll]
  have h := paintAll_hit key (fun a c => ((v a).getD fun _ => 0) c)
    (l.filter fun a => (v a).isSome) c hc a buf
    (List.mem_filter.2 ⟨ha, by simp [hv]⟩)
    (fun a1 ha1 hk => by rw [hinj a1 (List.mem_filter.1 ha1).1 hk]) hlen
  rw [h]
  simp [hv]

theorem foldl_congr_mem {α β : Type} (f g : β → α → β) (l : List α) :
    ∀ b : β, (∀ b1, ∀ a ∈ l, f b1 a = g b1 a) → l.foldl f b = l.foldl g b := by
  induction l with
  | nil => intro b _; rfl
  | cons a l ih =>
    intro b h
    rw [List.foldl_cons, List.foldl_cons, h b a (List.mem_cons_self _ _)]
    exact ih _ (fun b1 a1 ha1 => h b1 a1 (List.mem_cons_of_mem _ ha1))

theorem index_decompose {w h i : Nat} (hi : i < w * h * 4) :
    ∃ x y c, x < w ∧ y < h ∧ c < 4 ∧ i = (y * w + x) * 4 + c := by
  have hw : 0 < w := by
    rcases Nat.eq_zero_or_pos w with h0 | h0
    · rw [h0] at hi; simp at hi
    · exact h0
  have hp : i / 4 < w * h := by omega
  refine ⟨i / 4 % w, i / 4 / w, i % 4, Nat.mod_lt _ hw, ?_, Nat.mod_lt _ (by decide), ?_⟩
  · rw [Nat.div_lt_iff_lt_mul hw, Nat.mul_comm]; exact hp
  · rw [Nat.div_add_mod' (i / 4) w]
    omega

theorem list_eq_of_load {l1 l2 : List Nat} (hlen : l1.length = l2.length)
    (h : ∀ i, i < l1.length → load l1 i = load l2 i) : l1 = l2 := by
  apply List.ext_getElem hlen
  intro i h1 h2
  have := h i h1
  unfold load at this
  rwa [List.getD_eq_getElem _ _ h1, List.getD_eq_getElem _ _ h2] at this

/-! ## `copyWithOffset(0, 0)` against `frameFromBase` -/

theorem ensureFrameBuffer_installed (a : Animator) (body : List Nat)
    (hbody : a.bodyPixels = some body) :
    ∃ fb, ensureFrameBuffer a = some fb ∧ fb.length = body.length := by
  unfold ensureFrameBuffer
  rw [hbody]
  cases hfb : a.frameBuffer with
  | none => exact ⟨_, rfl, List.length_replicate _ _⟩
  | some fb =>
    by_cases hl : fb.length ≠ body.length
    · simp only [hl, ne_eq, not_false_eq_true, ↓reduceIte]
      exact ⟨_, rfl, List.length_replicate _ _⟩
    · simp only [hl, ↓reduceIte]
      exact ⟨fb, rfl, not_not.1 hl⟩

theorem prepareEmptyFrame_installed (a : Animator) (body : List Nat)
    (hbody : a.bodyPixels = some body) :
    prepareEmptyFrame a = some (List.replicate body.length 0) := by
  obtain ⟨fb, h1, h2⟩ := ensureFrameBuffer_installed a body hbody
  unfold prepareEmptyFrame
  rw [h1]
  simp only [h2]

theorem prepareFrameWithBody_installed (a : Animator) (body : List Nat)
    (hbody : a.bodyPixels = some body) : prepareFrameWithBody a = some body := by
  obtain ⟨fb, h1, h2⟩ := ensureFrameBuffer_installed a body hbody
  unfold prepareFrameWithBody typedSet
  rw [h1, hbody]
  simp only []
  rw [if_pos (Nat.le_of_eq h2.symm), List.drop_of_length_le (Nat.le_of_eq h2), List.append_nil]

theorem drawBodyWithOffset_zero (a : Animator) (body frame : List Nat)
    (hbody : a.bodyPixels = some body) :
    drawBodyWithOffset a frame 0 0 =
      some (paintSome (fun p : Nat × Nat => p.1 * a.width + p.2)
        (fun p => if load body ((p.1 * a.width + p.2) * 4 + 3) = 0 then none
          else some fun c => load body ((p.1 * a.width + p.2) * 4 + c))
        frame (List.range a.height ×ˢ List.range a.width)) := by
  unfold drawBodyWithOffset paintSome
  rw [hbody, foldl_product_eq]
  simp only []
  congr 1
  apply foldl_congr_mem
  intro b1 y hy
  rw [List.mem_range] at hy
  have hrow : ¬ ((y : Int) + 0 < 0 ∨ (y : Int) + 0 ≥ (a.height : Int)) := by omega
  rw [if_neg hrow]
  apply foldl_congr_mem
  intro b2 x hx
  rw [List.mem_range] at hx
  unfold drawBodyPixel
  have hcol : ¬ ((x : Int) + 0 < 0 ∨ (x : Int) + 0 ≥ (a.width : Int)) := by omega
  have hidx : ((((y : Int) + 0) * (a.width : Int) + ((x : Int) + 0)) * 4).toNat =
      (y * a.width + x) * 4 := by
    have : (((y : Int) + 0) * (a.width : Int) + ((x : Int) + 0)) * 4 =
        (((y * a.width + x) * 4 : Nat) : Int) := by
      push_cast; ring
    rw [this, Int.toNat_ofNat]
  simp only []
  rw [if_neg hcol, hidx]
  by_cases h0 : load body ((y * a.width + x) * 4 + 3) = 0
  · simp [h0]
  · simp [h0]

theorem copyWithZeroOffset_spec (a : Animator) (body : List Nat) (hin : a.Installed body) :
    ∃ f1, copyWithZeroOffset a = some f1 ∧ f1.length = body.length ∧
      ∀ x y c, x < a.width → y < a.height → c < 4 →
        framePixel a f1 x y c =
          if load body ((y * a.width + x) * 4 + 3) = 0 then 0
          else load body ((y * a.width + x) * 4 + c) := by
  obtain ⟨hbody, hlen, hbytes⟩ := hin
  have hcopy : copyWithZeroOffset a =
      some (paintSome (fun p : Nat × Nat => p.1 * a.width + p.2)
        (fun p => if load body ((p.1 * a.width + p.2) * 4 + 3) = 0 then none
          else some fun c => load body ((p.1 * a.width + p.2) * 4 + c))
        (List.replicate body.length 0) (List.range a.height ×ˢ List.range a.width)) := by
    unfold copyWithZeroOffset
    rw [prepareEmptyFrame_installed a body hbody]
    simp only []
    exact drawBodyWithOffset_zero a body _ hbody
  refine ⟨_, hcopy, ?_, ?_⟩
  · rw [paintSome_length, List.length_replicate]
  · intro x y c hx hy hc
    unfold framePixel
    have hidx : (y * a.width + x) * 4 + c < (List.replicate body.length 0).length := by
      rw [List.length_replicate, hlen]
      have := pixel_index_lt hx hy
      omega
    by_cases h0 : load body ((y * a.width + x) * 4 + 3) = 0
    · rw [if_pos h0, paintSome_miss, load_replicate_zero]
      rintro ⟨y1, x1⟩ hmem hsome hkey
      rw [mem_grid] at hmem
      simp only at hkey hsome
      have hk : y1 * a.width + x1 = y * a.width + x := by omega
      rw [hk, if_pos h0] at hsome
      cases hsome
    · rw [if_neg h0]
      have h := paintSome_hit (fun p : Nat × Nat => p.1 * a.width + p.2)
        (fun p => if load body ((p.1 * a.width + p.2) * 4 + 3) = 0 then none
          else some fun c => load body ((p.1 * a.width + p.2) * 4 + c))
        (List.range a.height ×ˢ List.range a.width) c hc (y, x)
        (fun c => load body ((y * a.width + x) * 4 + c)) (List.replicate body.length 0)
        (mem_grid.2 ⟨hy, hx⟩) (by simp only []; rw [if_neg h0])
        (by
          rintro ⟨y1, x1⟩ hmem hkey
          rw [mem_grid] at hmem
          obtain ⟨e1, e2⟩ := pixel_index_inj hmem.2 hx hkey
          simp only at e1 e2
          rw [e1, e2])
        hidx
      simp only [] at h
      rw [h]
      exact clampByte_of_le (load_le_of_bytes _ hbytes _)

theorem setSprite_installed (a : Animator) (img : ImageData) (eyes : Option EyePair)
    (rand : Nat → ℚ) (now nowRun : ℚ) (hwf : img.WF) :
    (setSprite a (some img) eyes rand now nowRun).Installed img.data := by
  obtain ⟨h1, h2, h3, _⟩ := setSprite_fields a img eyes rand now nowRun
  refine ⟨h3, ?_, hwf.2⟩
  rw [h1, h2]
  exact hwf.1

/-- C11 (counterexample). For the installed 1x1 sprite `[255, 0, 0, 0]`, `copyWithOffset(0,0)`
on the blank frame leaves `[0, 0, 0, 0]`: the pixel has alpha 0 and is skipped, while
`frameFromBase` gives `[255, 0, 0, 0]`. -/
theorem copy_zero_offset_differs :
    ghostAnimator.bodyPixels = some [255, 0, 0, 0] ∧
    copyWithZeroOffset ghostAnimator = some [0, 0, 0, 0] ∧
    prepareFrameWithBody ghostAnimator = some [255, 0, 0, 0] := by
  refine ⟨rfl, ?_, ?_⟩
  · decide
  · decide

/-- C11 (amended). For every installed base sprite, the frame of `copyWithOffset(0,0)` on the
blank frame has the bytes of the frame of `frameFromBase` at every pixel whose alpha is not 0
and is `(0, 0, 0, 0)` at every pixel whose alpha is 0; the two frames are equal byte for byte
exactly when every pixel of the sprite with alpha 0 has R = G = B = 0. -/
theorem copy_zero_offset_vs_base (a : Animator) (body : List Nat) (hin : a.Installed body) :
    ∃ f1 f2, copyWithZeroOffset a = some f1 ∧ prepareFrameWithBody a = some f2 ∧
      f2 = body ∧ f1.length = f2.length ∧
      (∀ x y, x < a.width → y < a.height → framePixel a f2 x y 3 ≠ 0 →
        ∀ c, c < 4 → framePixel a f1 x y c = framePixel a f2 x y c) ∧
      (∀ x y, x < a.width → y < a.height → framePixel a f2 x y 3 = 0 →
        ∀ c, c < 4 → framePixel a f1 x y c = 0) ∧
      (f1 = f2 ↔ ∀ x y, x < a.width → y < a.height → framePixel a f2 x y 3 = 0 →
        ∀ c, c < 4 → framePixel a f2 x y c = 0) := by
  obtain ⟨f1, h1, hlen1, hpix⟩ := copyWithZeroOffset_spec a body hin
  refine ⟨f1, body, h1, prepareFrameWithBody_installed a body hin.1, rfl, hlen1, ?_, ?_, ?_⟩
  · intro x y hx hy ha c hc
    rw [hpix x y c hx hy hc]
    unfold framePixel at ha ⊢
    rw [if_neg ha]
  · intro x y hx hy ha c hc
    rw [hpix x y c hx hy hc]
    unfold framePixel at ha
    rw [if_pos ha]
  · constructor
    · intro heq x y hx hy ha c hc
      have := hpix x y c hx hy hc
      unfold framePixel at ha
      rw [if_pos ha, heq] at this
      exact this
    · intro hz
      apply list_eq_of_load hlen1
      intro i hi
      rw [hlen1, hin.2.1] at hi
      obtain ⟨x, y, c, hx, hy, hc, rfl⟩ := index_decompose hi
      have := hpix x y c hx hy hc
      unfold framePixel at this
      rw [this]
      by_cases h0 : load body ((y * a.width + x) * 4 + 3) = 0
      · rw [if_pos h0]
        exact (hz x y hx hy h0 c hc).symm
      · rw [if_neg h0]

theorem copy_zero_offset_vs_base_witness :
    sampleAnimator.Installed sampleImage.data ∧
    ∃ f1 f2, copyWithZeroOffset sampleAnimator = some f1 ∧
      prepareFrameWithBody sampleAnimator = some f2 ∧ f2 = sampleImage.data :=
  ⟨setSprite_installed _ sampleImage none _ 0 0 (by decide),
   (copy_zero_offset_vs_base sampleAnimator sampleImage.data
      (setSprite_installed _ sampleImage none _ 0 0 (by decide))).imp
     fun _ h => h.imp fun _ h2 => ⟨h2.1, h2.2.1, h2.2.2.1⟩⟩

/-! ## `drawAnchoredVerticalStretch`: the span -/

theorem jsRound_intCast (n : Int) : jsRound (n : ℚ) = n := by
  unfold jsRound
  rw [Int.floor_eq_iff]
  constructor <;> linarith

theorem getElem?_eq_some_load (buf : List Nat) (i : Nat) (h : i < buf.length) :
    buf[i]? = some (load buf i) := by
  unfold load
  rw [List.getElem?_eq_getElem h, List.getD_eq_getElem _ _ h]

theorem jsRound_natCast (n : Nat) : jsRound (n : ℚ) = (n : Int) := by
  have := jsRound_intCast (n : Int)
  simpa using this

theorem mixBytes_zero (x y : Nat) : mixBytes (some x) (some y) 0 = x := by
  unfold mixBytes
  simp only []
  have : (x : ℚ) * (1 - 0) + (y : ℚ) * 0 = (x : ℚ) := by ring
  rw [this, jsRound_natCast, Int.toNat_ofNat]

theorem stretchSpan_one (b : Bounds) (height : Nat) (hy : b.minY ≤ b.maxY)
    (hh : b.maxY < height) :
    stretchSpan b height 1 =
      { minY := (b.minY : Int), height := ((b.maxY + 1 - b.minY : Nat) : Int) } := by
  unfold stretchSpan clamp
  simp only []
  have hbh : max (1 : Int) ((b.maxY : Int) - (b.minY : Int) + 1) =
      ((b.maxY + 1 - b.minY : Nat) : Int) := by omega
  rw [hbh, mul_one, jsRound_intCast]
  congr 1 <;> omega

theorem stretchPixel_one (body : List Nat) (width height : Nat) (b : Bounds)
    (hlen : body.length = width * height * 4) (hin : b.inside width height)
    (frame : List Nat) (x step : Nat) (hx : b.minX ≤ x ∧ x ≤ b.maxX)
    (hs : step < b.maxY + 1 - b.minY) :
    stretchPixel body width b
        { minY := (b.minY : Int), height := ((b.maxY + 1 - b.minY : Nat) : Int) } frame x step =
      match unitStretchValue body width b (x, step) with
      | none => frame
      | some f => store4 frame (((b.minY + step) * width + x) * 4) (f 0) (f 1) (f 2) (f 3) := by
  obtain ⟨hx1, hx2, hy1, hy2⟩ := hin
  have hxw : x < width := by omega
  unfold stretchPixel unitStretchValue
  simp only []
  have hsrc : (b.minY : ℚ) +
      (if ((b.maxY + 1 - b.minY : Nat) : Int) = 1 then 0
        else (step : ℚ) / ((((b.maxY + 1 - b.minY : Nat) : Int) : ℚ) - 1)) *
        (((max 1 ((b.maxY : Int) - (b.minY : Int) + 1) : Int) : ℚ) - 1) =
      (((b.minY + step : Nat) : Int) : ℚ) := by
    have hbh : max (1 : Int) ((b.maxY : Int) - (b.minY : Int) + 1) =
        ((b.maxY + 1 - b.minY : Nat) : Int) := by omega
    rw [hbh]
    by_cases h1 : ((b.maxY + 1 - b.minY : Nat) : Int) = 1
    · rw [if_pos h1]
      have : step = 0 := by omega
      subst this
      simp
    · rw [if_neg h1]
      have hne : ((((b.maxY + 1 - b.minY : Nat) : Int) : ℚ) - 1) ≠ 0 := by
        intro h0
        apply h1
        have : ((((b.maxY + 1 - b.minY : Nat) : Int) : ℚ)) = 1 := by linarith
        exact_mod_cast this
      rw [div_mul_cancel₀ _ hne]
      push_cast
      ring
  rw [hsrc, Int.floor_intCast, sub_self]
  have hy0 : (((b.minY + step : Nat) : Int) * (width : Int) + (x : Int)) * 4 =
      ((((b.minY + step) * width + x) * 4 : Nat) : Int) := by
    push_cast; ring
  have hmin : min (b.maxY : Int) (((b.minY + step : Nat) : Int) + 1) =
      ((min b.maxY (b.minY + step + 1) : Nat) : Int) := by
    omega
  have hy1' : (((min b.maxY (b.minY + step + 1) : Nat) : Int) * (width : Int) + (x : Int)) * 4 =
      (((min b.maxY (b.minY + step + 1) * width + x) * 4 : Nat) : Int) := by
    push_cast; ring
  have hdest : (((b.minY : Int) + (step : Int)) * (width : Int) + (x : Int)) * 4 =
      ((((b.minY + step) * width + x) * 4 : Nat) : Int) := by
    push_cast; ring
  rw [hmin, hy0, hy1', hdest, Int.toNat_ofNat, Int.toNat_ofNat]
  have hr0 : b.minY + step < height := by omega
  have hr1 : min b.maxY (b.minY + step + 1) < height := by omega
  have hi0 : ∀ c, c < 4 → ((b.minY + step) * width + x) * 4 + c < body.length := by
    intro c hc
    rw [hlen]
    have := pixel_index_lt hxw hr0
    omega
  have hi1 : ∀ c, c < 4 →
      (min b.maxY (b.minY + step + 1) * width + x) * 4 + c < body.length := by
    intro c hc
    rw [hlen]
    have := pixel_index_lt hxw hr1
    omega
  rw [getElem?_eq_some_load body _ (hi0 3 (by omega)),
    getElem?_eq_some_load body _ (hi1 3 (by omega)),
    getElem?_eq_some_load body (((b.minY + step) * width + x) * 4) (hi0 0 (by omega)),
    getElem?_eq_some_load body ((min b.maxY (b.minY + step + 1) * width + x) * 4)
      (hi1 0 (by omega)),
    getElem?_eq_some_load body _ (hi0 1 (by omega)),
    getElem?_eq_some_load body _ (hi1 1 (by omega)),
    getElem?_eq_some_load body _ (hi0 2 (by omega)),
    getElem?_eq_some_load body _ (hi1 2 (by omega))]
  simp only [Option.getD_some, mixBytes_zero]
  by_cases hskip : load body (((b.minY + step) * width + x) * 4 + 3) = 0 ∧
      load body ((min b.maxY (b.minY + step + 1) * width + x) * 4 + 3) = 0
  · rw [if_pos hskip, if_pos hskip]
  · rw [if_neg hskip, if_neg hskip]
    rfl

theorem unitStretch_spec (a : Animator) (body : List Nat) (b : Bounds)
    (hin : a.Installed body) (hb : a.bounds = some b) (hinside : b.inside a.width a.height) :
    ∃ f, unitStretchFrame a =
        some (f, { minY := (b.minY : Int), height := ((b.maxY + 1 - b.minY : Nat) : Int) }) ∧
      f.length = body.length ∧
      ∀ x y c, x < a.width → y < a.height → c < 4 →
        framePixel a f x y c =
          if (b.minX ≤ x ∧ x ≤ b.maxX) ∧ (b.minY ≤ y ∧ y ≤ b.maxY) ∧
              ¬ (framePixel a body x y 3 = 0 ∧ framePixel a body x (min b.maxY (y + 1)) 3 = 0)
          then framePixel a body x y c else 0 := by
  obtain ⟨hbody, hlen, hbytes⟩ := hin
  have hdraw : unitStretchFrame a =
      some (paintSome (fun p : Nat × Nat => (b.minY + p.2) * a.width + p.1)
        (unitStretchValue body a.width b) (List.replicate body.length 0)
        (List.range' b.minX (b.maxX + 1 - b.minX) ×ˢ List.range (b.maxY + 1 - b.minY)),
        { minY := (b.minY : Int), height := ((b.maxY + 1 - b.minY : Nat) : Int) }) := by
    unfold unitStretchFrame
    rw [prepareEmptyFrame_installed a body hbody]
    simp only []
    unfold drawAnchoredVerticalStretch
    rw [hbody, hb]
    simp only []
    rw [stretchSpan_one b a.height hinside.2.2.1 hinside.2.2.2]
    simp only [Int.toNat_ofNat]
    congr 2
    unfold paintSome
    rw [foldl_product_eq]
    apply foldl_congr_mem
    intro b1 x hx
    rw [List.mem_range'_1] at hx
    apply foldl_congr_mem
    intro b2 step hstep
    rw [List.mem_range] at hstep
    exact stretchPixel_one body a.width a.height b hlen hinside b2 x step
      ⟨hx.1, by omega⟩ hstep
  refine ⟨_, hdraw, ?_, ?_⟩
  · rw [paintSome_length, List.length_replicate]
  · intro x y c hx hy hc
    obtain ⟨hx1, hx2, hy1, hy2⟩ := hinside
    have hidx : (y * a.width + x) * 4 + c < (List.replicate body.length 0).length := by
      rw [List.length_replicate, hlen]
      have := pixel_index_lt hx hy
      omega
    unfold framePixel
    by_cases hcond : (b.minX ≤ x ∧ x ≤ b.maxX) ∧ (b.minY ≤ y ∧ y ≤ b.maxY) ∧
        ¬ (load body ((y * a.width + x) * 4 + 3) = 0 ∧
          load body ((min b.maxY (y + 1) * a.width + x) * 4 + 3) = 0)
    · rw [if_pos hcond]
      obtain ⟨hcx, hcy, hns⟩ := hcond
      have hy' : b.minY + (y - b.minY) = y := by omega
      have hv : unitStretchValue body a.width b (x, y - b.minY) =
          some fun c => load body ((y * a.width + x) * 4 + c) := by
        unfold unitStretchValue
        simp only [hy']
        rw [if_neg hns]
      have h := paintSome_hit (fun p : Nat × Nat => (b.minY + p.2) * a.width + p.1)
        (unitStretchValue body a.width b)
        (List.range' b.minX (b.maxX + 1 - b.minX) ×ˢ List.range (b.maxY + 1 - b.minY))
        c hc (x, y - b.minY) _ (List.replicate body.length 0)
        (by
          rw [List.mem_product, List.mem_range'_1, List.mem_range]
          omega)
        hv
        (by
          rintro ⟨x1, s1⟩ hmem hkey
          rw [List.mem_product, List.mem_range'_1, List.mem_range] at hmem
          simp only at hkey
          obtain ⟨e1, e2⟩ := pixel_index_inj (by omega) hx hkey
          have : s1 = y - b.minY := by omega
          rw [this, e2])
        (by simp only [hy']; exact hidx)
      simp only [hy'] at h
      rw [h]
      exact clampByte_of_le (load_le_of_bytes _ hbytes _)
    · rw [if_neg hcond, paintSome_miss, load_replicate_zero]
      rintro ⟨x1, s1⟩ hmem hsome hkey
      rw [List.mem_product, List.mem_range'_1, List.mem_range] at hmem
      simp only at hkey
      have hk : (b.minY + s1) * a.width + x1 = y * a.width + x := by omega
      obtain ⟨e1, e2⟩ := pixel_index_inj (by omega) hx hk
      apply hcond
      refine ⟨by omega, by omega, ?_⟩
      intro hskip
      unfold unitStretchValue at hsome
      simp only [e1, e2] at hsome
      rw [if_pos hskip] at hsome
      cases hsome

theorem computeBounds_inside (pixels : List Nat) (width height : Nat)
    (hex : ∃ x y, x < width ∧ y < height ∧ isOpaque pixels width x y) :
    (computeBounds pixels width height).inside width height :=
  eyes_in_box pixels width height hex

theorem framePixel_setPixel (a : Animator) (buf : List Nat) (x y : Nat) (color : Rgba)
    (hx : x < a.width) (hy : y < a.height) (hlen : buf.length = a.width * a.height * 4)
    (x1 y1 c : Nat) (hx1 : x1 < a.width) (hc : c < 4) :
    framePixel a (setPixel a buf (x : Int) (y : Int) color) x1 y1 c =
      if x1 = x ∧ y1 = y then clampByte (color.chan c) else framePixel a buf x1 y1 c := by
  unfold setPixel framePixel
  have hin : ¬ ((x : Int) < 0 ∨ (y : Int) < 0 ∨ (x : Int) ≥ (a.width : Int) ∨
      (y : Int) ≥ (a.height : Int)) := by omega
  have hidx : (((y : Int) * (a.width : Int) + (x : Int)) * 4).toNat = (y * a.width + x) * 4 := by
    have : ((y : Int) * (a.width : Int) + (x : Int)) * 4 = (((y * a.width + x) * 4 : Nat) : Int) := by
      push_cast; ring
    rw [this, Int.toNat_ofNat]
  rw [if_neg hin]
  simp only []
  rw [hidx]
  by_cases hsame : x1 = x ∧ y1 = y
  · obtain ⟨rfl, rfl⟩ := hsame
    rw [if_pos ⟨rfl, rfl⟩]
    exact load_store4_chan buf (y1 * a.width + x1) _ _ _ _ c color.chan
      (by simp [Rgba.chan]) (by simp [Rgba.chan]) (by simp [Rgba.chan]) (by simp [Rgba.chan])
      hc (by rw [hlen]; have := pixel_index_lt hx hy; omega)
  · rw [if_neg hsame]
    apply load_store4_other
    intro h
    have hk : y1 * a.width + x1 = y * a.width + x := by omega
    obtain ⟨e1, e2⟩ := pixel_index_inj hx1 hx hk
    exact hsame ⟨e2, e1⟩

theorem length_setPixel (a : Animator) (buf : List Nat) (x y : Int) (color : Rgba) :
    (setPixel a buf x y color).length = buf.length := by
  unfold setPixel
  split
  · rfl
  · exact length_store4 _ _ _ _ _ _

theorem drawVerticalEyeLine_two (a : Animator) (frame : List Nat) (column baseY : Int) :
    drawVerticalEyeLine a frame column baseY 2 =
      setPixel a (setPixel a frame column (clamp (baseY + 0) 0 ((a.height : Int) - 1)) BLACK)
        column (clamp (baseY + 1) 0 ((a.height : Int) - 1)) BLACK := by
  unfold drawVerticalEyeLine
  have : List.range 2 = [0, 1] := rfl
  rw [this]
  simp

theorem getSimpleEyeLayout_inside (a : Animator) (b : Bounds) (hb : a.bounds = some b)
    (hw : 1 ≤ a.width) (hh : 2 ≤ a.height) :
    ∃ layout, getSimpleEyeLayout a true = some layout ∧
      0 ≤ layout.leftX ∧ layout.leftX < (a.width : Int) ∧
      0 ≤ layout.rightX ∧ layout.rightX < (a.width : Int) ∧
      0 ≤ layout.baseY ∧ layout.baseY + 1 < (a.height : Int) := by
  unfold getSimpleEyeLayout clamp
  rw [hb]
  simp only [↓reduceIte]
  generalize ⌊((max 1 ((b.maxX : Int) - (b.minX : Int)) : Int) : ℚ) * 0.25⌋ = fl
  generalize ⌈((max 1 ((b.maxX : Int) - (b.minX : Int)) : Int) : ℚ) * 0.75⌉ = ce
  generalize jsRound ((b.minY : ℚ) + ((b.maxY : ℚ) - (b.minY : ℚ)) * 0.4) = ro
  split_ifs <;> exact ⟨_, rfl, by simp only []; omega⟩

theorem getSimpleEyeLayout_flat (a : Animator) (b : Bounds) (hb : a.bounds = some b)
    (hh : a.height = 1) :
    ∃ layout, getSimpleEyeLayout a true = some layout ∧ layout.baseY = -1 := by
  unfold getSimpleEyeLayout clamp
  rw [hb, hh]
  simp only [↓reduceIte]
  generalize jsRound ((b.minY : ℚ) + ((b.maxY : ℚ) - (b.minY : ℚ)) * 0.4) = ro
  split_ifs <;> exact ⟨_, rfl, by simp only []; omega⟩

theorem updateWinkState_idle (a : Animator) (timestamp r : ℚ)
    (ht : timestamp < a.winkState.next) (hact : a.winkState.active = false) :
    updateWinkState a timestamp r = a := by
  unfold updateWinkState
  simp only []
  rw [if_neg (not_le.2 ht)]
  simp [hact]

theorem clampByte_black (c : Nat) : clampByte (BLACK.chan c) = BLACK.chan c := by
  apply clampByte_of_le
  unfold Rgba.chan BLACK
  split_ifs <;> simp

theorem typedSet_same_length (dst src : List Nat) (h : dst.length = src.length) :
    typedSet dst src = some src := by
  unfold typedSet
  rw [if_pos (Nat.le_of_eq h.symm), List.drop_of_length_le (Nat.le_of_eq h), List.append_nil]

theorem renderWink_idle (a : Animator) (body : List Nat) (b : Bounds) (o : ImageData)
    (hin : a.Installed body) (hb : a.bounds = some b) (hw : 1 ≤ a.width) (hh : 2 ≤ a.height)
    (hact : a.winkState.active = false) (hout : a.outputImageData = some o)
    (how : o.width = a.width) (hol : o.data.length = body.length)
    (rand : Nat → ℚ) (t : ℚ) (ht : t < a.winkState.next) :
    ∃ layout frame, getSimpleEyeLayout a true = some layout ∧
      (0 ≤ layout.leftX ∧ layout.leftX < (a.width : Int) ∧
        0 ≤ layout.rightX ∧ layout.rightX < (a.width : Int) ∧
        0 ≤ layout.baseY ∧ layout.baseY + 1 < (a.height : Int)) ∧
      renderWink a rand t =
        some { a with frameBuffer := some frame,
                      outputImageData := some { o with data := frame },
                      display := frame } ∧
      frame.length = body.length ∧
      ∀ x y c, x < a.width → y < a.height → c < 4 →
        framePixel a frame x y c =
          if ((x : Int) = layout.leftX ∨ (x : Int) = layout.rightX) ∧
              ((y : Int) = layout.baseY ∨ (y : Int) = layout.baseY + 1)
          then BLACK.chan c else framePixel a body x y c := by
  obtain ⟨hbody, hlen, hbytes⟩ := hin
  obtain ⟨layout, hlay, h1, h2, h3, h4, h5, h6⟩ := getSimpleEyeLayout_inside a b hb hw hh
  obtain ⟨lx, hlx⟩ : ∃ n : Nat, layout.leftX = (n : Int) := ⟨_, (Int.toNat_of_nonneg h1).symm⟩
  obtain ⟨rx, hrx⟩ : ∃ n : Nat, layout.rightX = (n : Int) := ⟨_, (Int.toNat_of_nonneg h3).symm⟩
  obtain ⟨bY, hbY⟩ : ∃ n : Nat, layout.baseY = (n : Int) := ⟨_, (Int.toNat_of_nonneg h5).symm⟩
  have hc0 : clamp (layout.baseY + 0) 0 ((a.height : Int) - 1) = (bY : Int) := by
    unfold clamp; omega
  have hc1 : clamp (layout.baseY + 1) 0 ((a.height : Int) - 1) = ((bY + 1 : Nat) : Int) := by
    unfold clamp; omega
  have hlxw : lx < a.width := by omega
  have hrxw : rx < a.width := by omega
  have hby0 : bY < a.height := by omega
  have hby1 : bY + 1 < a.height := by omega
  refine ⟨layout,
    setPixel a (setPixel a (setPixel a (setPixel a body (lx : Int) (bY : Int) BLACK)
      (lx : Int) ((bY + 1 : Nat) : Int) BLACK) (rx : Int) (bY : Int) BLACK)
      (rx : Int) ((bY + 1 : Nat) : Int) BLACK,
    hlay, ⟨h1, h2, h3, h4, h5, h6⟩, ?_, ?_, ?_⟩
  · unfold renderWink
    rw [prepareFrameWithBody_installed a body hbody]
    simp only []
    rw [updateWinkState_idle a t (rand 0) ht hact, hlay]
    simp only [hact, Bool.false_eq_true, ↓reduceIte]
    rw [drawVerticalEyeLine_two, drawVerticalEyeLine_two, hc0, hc1, hlx, hrx]
    unfold commitFrame
    rw [hout]
    simp only [how, ne_eq, not_true_eq_false, ↓reduceIte]
    rw [typedSet_same_length]
    rw [hol]
    simp only [length_setPixel]
  · simp only [length_setPixel]
  · intro x y c hx hy hc
    have hl1 : (setPixel a body (lx : Int) (bY : Int) BLACK).length = a.width * a.height * 4 := by
      rw [length_setPixel]; exact hlen
    have hl2 : (setPixel a (setPixel a body (lx : Int) (bY : Int) BLACK)
        (lx : Int) ((bY + 1 : Nat) : Int) BLACK).length = a.width * a.height * 4 := by
      rw [length_setPixel]; exact hl1
    have hl3 : (setPixel a (setPixel a (setPixel a body (lx : Int) (bY : Int) BLACK)
        (lx : Int) ((bY + 1 : Nat) : Int) BLACK) (rx : Int) (bY : Int) BLACK).length =
        a.width * a.height * 4 := by
      rw [length_setPixel]; exact hl2
    rw [framePixel_setPixel a _ rx (bY + 1) BLACK hrxw hby1 hl3 x y c hx hc,
      framePixel_setPixel a _ rx bY BLACK hrxw hby0 hl2 x y c hx hc,
      framePixel_setPixel a _ lx (bY + 1) BLACK hlxw hby1 hl1 x y c hx hc,
      framePixel_setPixel a _ lx bY BLACK hlxw hby0 hlen x y c hx hc, clampByte_black]
    split_ifs <;> first | rfl | (exfalso; omega)

theorem freshWinkAnimator_fields (cw ch : Nat) (content : List Nat) (img : ImageData)
    (eyes : Option EyePair) (rand : Nat → ℚ) (now nowRun : ℚ) :
    (freshWinkAnimator cw ch content img eyes rand now nowRun).mode = "wink" ∧
    (freshWinkAnimator cw ch content img eyes rand now nowRun).width = img.width ∧
    (freshWinkAnimator cw ch content img eyes rand now nowRun).height = img.height ∧
    (freshWinkAnimator cw ch content img eyes rand now nowRun).bodyPixels = some img.data ∧
    (freshWinkAnimator cw ch content img eyes rand now nowRun).bounds =
      some (match eyes with
        | some e => e.bounds
        | none => computeBounds img.data img.width img.height) ∧
    (freshWinkAnimator cw ch content img eyes rand now nowRun).outputImageData =
      some { width := img.width, height := img.height,
             data := List.replicate (img.width * img.height * 4) 0 } ∧
    (freshWinkAnimator cw ch content img eyes rand now nowRun).winkState.active = false ∧
    (freshWinkAnimator cw ch content img eyes rand now nowRun).winkState.next =
      now + (1000 + rand 1 * 1000) := by
  obtain ⟨f1, f2, f3, _, _, f6, _, f8, _⟩ :=
    setSprite_fields (newAnimator cw ch content) img eyes rand now nowRun
  obtain ⟨_, _, _, t4, t5, _⟩ :=
    setSprite_timers (newAnimator cw ch content) img eyes rand now nowRun
  unfold freshWinkAnimator
  rw [setMode_of_ne_empty _ "wink" (by decide)]
  exact ⟨rfl, f1, f2, f3, f6, f8, t5, t4⟩

theorem render_wink_mode (a : Animator) (body : List Nat) (hbody : a.bodyPixels = some body)
    (hmode : a.mode = "wink") (rand : Nat → ℚ) (sinTurns : ℚ → ℚ) (t delta : ℚ) :
    render a rand sinTurns t delta = renderWink a rand t := by
  unfold render
  rw [hbody, hmode]
  simp only []
  rw [if_neg (by decide), if_neg (by decide), if_neg (by decide)]
  exact if_pos trivial

/-- C15 (counterexample). For a sprite of height 1 installed on a new animator, the layout of
`getSimpleEyeLayout(true)` has `baseY = -1` (the clamp to `height - 2`), so `(leftX, baseY)`
is not a pixel of the frame; a render at `t = 0` is before the scheduled wink. -/
theorem wink_layout_row_outside_frame :
    (0 : ℚ) < (freshWinkAnimator 1 1 [] dotImage none (fun _ => 0) 0 0).winkState.next ∧
    ∃ layout, getSimpleEyeLayout (freshWinkAnimator 1 1 [] dotImage none (fun _ => 0) 0 0) true =
        some layout ∧ layout.baseY = -1 ∧ ¬ (0 ≤ layout.baseY) := by
  obtain ⟨_, _, f3, _, f5, _, _, f8⟩ :=
    freshWinkAnimator_fields 1 1 [] dotImage none (fun _ => 0) 0 0
  refine ⟨by rw [f8]; norm_num, ?_⟩
  obtain ⟨layout, h1, h2⟩ := getSimpleEyeLayout_flat _ _ f5 f3
  exact ⟨layout, h1, h2, by rw [h2]; decide⟩

/-- C15 (amended). After `setSprite` of a sprite at least 1 pixel wide and 2 pixels high on a
newly constructed animator, a wink-mode render at any timestamp `t` earlier than the scheduled
`winkState.next` (in particular `t = 0` when `now ≥ 0`) returns normally, leaves no wink
active, and with `{leftX, rightX, baseY} = getSimpleEyeLayout(true)` the four pixels
`(leftX, baseY)`, `(leftX, baseY+1)`, `(rightX, baseY)`, `(rightX, baseY+1)` lie inside the
frame and are opaque black, while every other frame pixel equals the base sprite. -/
theorem wink_render_before_first_wink (cw ch : Nat) (content : List Nat) (img : ImageData)
    (eyes : Option EyePair) (rand : Nat → ℚ) (now nowRun : ℚ) (rand2 : Nat → ℚ)
    (sinTurns : ℚ → ℚ) (t delta : ℚ) (hwf : img.WF) (hw : 1 ≤ img.width) (hh : 2 ≤ img.height)
    (ht : t < (freshWinkAnimator cw ch content img eyes rand now nowRun).winkState.next) :
    (0 ≤ now → 0 ≤ rand 1 →
      (0 : ℚ) < (freshWinkAnimator cw ch content img eyes rand now nowRun).winkState.next) ∧
    ∃ a1 layout,
      render (freshWinkAnimator cw ch content img eyes rand now nowRun) rand2 sinTurns t delta =
        some a1 ∧
      getSimpleEyeLayout (freshWinkAnimator cw ch content img eyes rand now nowRun) true =
        some layout ∧
      a1.winkState.active = false ∧
      (0 ≤ layout.leftX ∧ layout.leftX < (img.width : Int) ∧
        0 ≤ layout.rightX ∧ layout.rightX < (img.width : Int) ∧
        0 ≤ layout.baseY ∧ layout.baseY + 1 < (img.height : Int)) ∧
      a1.frameBuffer = some a1.display ∧ a1.display.length = img.data.length ∧
      ∀ x y c, x < img.width → y < img.height → c < 4 →
        load a1.display ((y * img.width + x) * 4 + c) =
          if ((x : Int) = layout.leftX ∨ (x : Int) = layout.rightX) ∧
              ((y : Int) = layout.baseY ∨ (y : Int) = layout.baseY + 1)
          then BLACK.chan c else channel img x y c := by
  obtain ⟨f1, f2, f3, f4, f5, f6, f7, f8⟩ :=
    freshWinkAnimator_fields cw ch content img eyes rand now nowRun
  constructor
  · intro h1 h2
    rw [f8]
    nlinarith
  · have hin : (freshWinkAnimator cw ch content img eyes rand now nowRun).Installed img.data :=
      ⟨f4, by rw [f2, f3]; exact hwf.1, hwf.2⟩
    obtain ⟨layout, frame, hlay, hins, hrender, hlen, hpix⟩ :=
      renderWink_idle _ img.data _ _ hin f5 (by rw [f2]; exact hw) (by rw [f3]; exact hh) f7 f6
        (by rw [f2]) (by simp only [List.length_replicate]; exact hwf.1.symm) rand2 t ht
    have hr := (render_wink_mode _ img.data f4 f1 rand2 sinTurns t delta).trans hrender
    refine ⟨_, layout, hr, hlay, f7, ?_, rfl, hlen, ?_⟩
    · rw [f2, f3] at hins
      exact hins
    · intro x y c hx hy hc
      have := hpix x y c (by rw [f2]; exact hx) (by rw [f3]; exact hy) hc
      unfold framePixel at this
      rw [f2] at this
      exact this

theorem wink_render_before_first_wink_witness :
    sampleImage.WF ∧ 1 ≤ sampleImage.width ∧ 2 ≤ sampleImage.height ∧
    (0 : ℚ) < (freshWinkAnimator 2 2 [] sampleImage none (fun _ => 0) 0 0).winkState.next ∧
    ∃ a1 layout,
      render (freshWinkAnimator 2 2 [] sampleImage none (fun _ => 0) 0 0) (fun _ => 0)
        (fun _ => 0) 0 16 = some a1 ∧
      getSimpleEyeLayout (freshWinkAnimator 2 2 [] sampleImage none (fun _ => 0) 0 0) true =
        some layout ∧
      a1.winkState.active = false :=
  ⟨by decide, by decide, by decide,
   by rw [(freshWinkAnimator_fields 2 2 [] sampleImage none (fun _ => 0) 0 0).2.2.2.2.2.2.2]
      norm_num,
   (wink_render_before_first_wink 2 2 [] sampleImage none (fun _ => 0) 0 0 (fun _ => 0)
      (fun _ => 0) 0 16 (by decide) (by decide) (by decide)
      (by rw [(freshWinkAnimator_fields 2 2 [] sampleImage none (fun _ => 0) 0 0).2.2.2.2.2.2.2]
          norm_num)).2.imp
     fun _ h => h.imp fun _ h2 => ⟨h2.1, h2.2.1, h2.2.2.1⟩⟩

/-! ## Median filter and quantization of a one-colour buffer -/

theorem store_bytes (buf : List Nat) (i v : Nat) (hb : ∀ u ∈ buf, u ≤ 255) :
    ∀ u ∈ store buf i v, u ≤ 255 := by
  intro u hu
  unfold store at hu
  rcases List.mem_or_eq_of_mem_set hu with h | h
  · exact hb u h
  · rw [h]; unfold clampByte; omega

theorem store4_bytes (buf : List Nat) (idx r g b a : Nat) (hb : ∀ u ∈ buf, u ≤ 255) :
    ∀ u ∈ store4 buf idx r g b a, u ≤ 255 := by
  unfold store4
  exact store_bytes _ _ _ (store_bytes _ _ _ (store_bytes _ _ _ (store_bytes _ _ _ hb)))

theorem paintAll_bytes {α : Type} (key : α → Nat) (v : α → Nat → Nat) (l : List α) :
    ∀ buf : List Nat, (∀ u ∈ buf, u ≤ 255) → ∀ u ∈ paintAll key v buf l, u ≤ 255 := by
  induction l with
  | nil => intro buf hb; exact hb
  | cons a l ih =>
    intro buf hb
    rw [paintAll_cons]
    exact ih _ (store4_bytes _ _ _ _ _ _ hb)

theorem applyMedianFilter_WF (img : ImageData) (hwf : img.WF) : (applyMedianFilter img).WF := by
  refine ⟨?_, ?_⟩
  · rw [applyMedianFilter_length]
    exact hwf.1
  · rw [applyMedianFilter_data]
    apply paintAll_bytes
    intro u hu
    rw [List.eq_of_mem_replicate hu]
    omega

theorem median_mem (l : List Nat) (hne : l ≠ []) : median l ∈ l := by
  unfold median
  simp only []
  have hpos : 0 < l.length := List.length_pos.2 hne
  have hlt : (l.insertionSort (· ≤ ·)).length / 2 < (l.insertionSort (· ≤ ·)).length := by
    rw [List.length_insertionSort]
    omega
  rw [List.getD_eq_getElem _ _ hlt]
  exact (List.mem_insertionSort _).1 (List.getElem_mem hlt)

theorem mem_neighbourValues (img : ImageData) (x y c v : Nat)
    (hv : v ∈ neighbourValues img x y c) :
    ∃ nx ny, nx < img.width ∧ ny < img.height ∧ v = channel img nx ny c := by
  unfold neighbourValues inBoundsNeighbours at hv
  obtain ⟨p, hp, rfl⟩ := List.mem_map.1 hv
  rw [List.mem_filter, mem_grid] at hp
  exact ⟨p.2, p.1, hp.1.2, hp.1.1, rfl⟩

theorem neighbourValues_ne_nil (img : ImageData) (x y c : Nat)
    (hx : x < img.width) (hy : y < img.height) : neighbourValues img x y c ≠ [] := by
  intro h
  have hl := length_neighbourValues img x y c hx hy
  rw [h] at hl
  unfold inRangeCount at hl
  simp at hl

theorem filtered_channel_mem (img : ImageData) (hwf : img.WF) (x y c : Nat)
    (hx : x < img.width) (hy : y < img.height) (hc : c < 4) (ha : 20 < channel img x y 3) :
    channel (applyMedianFilter img) x y c ∈ neighbourValues img x y c := by
  have hb : ∀ v ∈ neighbourValues img x y c, v ≤ 255 := by
    intro v hv
    obtain ⟨nx, ny, _, _, rfl⟩ := mem_neighbourValues img x y c v hv
    exact load_le_of_bytes _ hwf.2 _
  rw [applyMedianFilter_channel img hwf.1 x y c hx hy hc, filteredValue_visible img x y c ha,
    clampByte_of_le (median_le _ hb)]
  exact median_mem _ (neighbourValues_ne_nil img x y c hx hy)

theorem filtered_uniform (img : ImageData) (c : Color) (hwf : img.WF)
    (hu : uniformOpaque img c) : uniformOpaque (applyMedianFilter img) c := by
  intro x y hx hy
  have hx' : x < img.width := hx
  have hy' : y < img.height := hy
  have ha := (hu x y hx' hy').2.2.2
  have h0 := filtered_channel_mem img hwf x y 0 hx' hy' (by omega) ha
  have h1 := filtered_channel_mem img hwf x y 1 hx' hy' (by omega) ha
  have h2 := filtered_channel_mem img hwf x y 2 hx' hy' (by omega) ha
  have h3 := filtered_channel_mem img hwf x y 3 hx' hy' (by omega) ha
  obtain ⟨nx0, ny0, a0, b0, e0⟩ := mem_neighbourValues _ _ _ _ _ h0
  obtain ⟨nx1, ny1, a1, b1, e1⟩ := mem_neighbourValues _ _ _ _ _ h1
  obtain ⟨nx2, ny2, a2, b2, e2⟩ := mem_neighbourValues _ _ _ _ _ h2
  obtain ⟨nx3, ny3, a3, b3, e3⟩ := mem_neighbourValues _ _ _ _ _ h3
  refine ⟨?_, ?_, ?_, ?_⟩
  · rw [e0]; exact (hu nx0 ny0 a0 b0).1
  · rw [e1]; exact (hu nx1 ny1 a1 b1).2.1
  · rw [e2]; exact (hu nx2 ny2 a2 b2).2.2.1
  · rw [e3]; exact (hu nx3 ny3 a3 b3).2.2.2

theorem eq_singleton_of_nodup {α : Type} (l : List α) (c : α) (hnd : l.Nodup)
    (hall : ∀ a ∈ l, a = c) (hne : l ≠ []) : l = [c] := by
  cases l with
  | nil => exact absurd rfl hne
  | cons a t =>
    have ha : a = c := hall a (List.mem_cons_self _ _)
    cases t with
    | nil => rw [ha]
    | cons b t2 =>
      exfalso
      have hb : b = c := hall b (List.mem_cons_of_mem _ (List.mem_cons_self _ _))
      rw [List.nodup_cons] at hnd
      exact hnd.1 (by rw [ha, hb]; exact List.mem_cons_self _ _)

theorem uniqueColors_uniform (img : ImageData) (c : Color)
    (hlen : img.data.length = img.width * img.height * 4)
    (hw : 1 ≤ img.width) (hh : 1 ≤ img.height) (hu : uniformOpaque img c) :
    (opaqueColors img.data).length ≠ 0 ∧ uniqueColors (opaqueColors img.data) = [c] := by
  have hne : (opaqueColors img.data).length ≠ 0 :=
    opaqueColors_ne_nil img hlen ⟨0, 0, hw, hh, (hu 0 0 hw hh).2.2.2⟩
  refine ⟨hne, ?_⟩
  apply eq_singleton_of_nodup _ _ (uniqueColors_nodup _)
  · intro a ha
    rw [mem_uniqueColors, mem_opaqueColors img hlen] at ha
    obtain ⟨x, y, hx, hy, _, rfl⟩ := ha
    obtain ⟨e0, e1, e2, _⟩ := hu x y hx hy
    rw [e0, e1, e2]
  · intro h
    have := unique_pos img hne
    rw [h] at this
    exact absurd this (by decide)

theorem quantize_uniform (lighten : Color → Color) (draws : List Nat) (img : ImageData)
    (c : Color) (hwf : img.WF) (hw : 1 ≤ img.width) (hh : 1 ≤ img.height)
    (hu : uniformOpaque img c) (hl : Color.isBytes (lighten c)) :
    ∃ out, applyPaletteQuantization lighten draws img 1 = some (out, [lighten c]) ∧
      out.width = img.width ∧ out.height = img.height ∧
      ∀ x y, x < img.width → y < img.height →
        channel out x y 0 = (lighten c).1 ∧ channel out x y 1 = (lighten c).2.1 ∧
        channel out x y 2 = (lighten c).2.2 ∧ channel out x y 3 = channel img x y 3 := by
  obtain ⟨hne, huniq⟩ := uniqueColors_uniform img c hwf.1 hw hh hu
  have hk : kMeansPalette (uniqueColors (opaqueColors img.data))
      (min 1 (max 1 (uniqueColors (opaqueColors img.data)).length)) draws = some [c] := by
    rw [huniq]
    rfl
  obtain ⟨_, hpne, hres⟩ := apq_of_centers lighten draws img 1 hwf.1 (by omega) hne [c] hk
  refine ⟨_, hres, rfl, rfl, ?_⟩
  intro x y hx hy
  have hch : ∀ k, k < 4 →
      channel { width := img.width, height := img.height,
                data := quantizedData img ([c].map lighten) } x y k =
        clampByte (recolorValue img.data ([c].map lighten) (y * img.width + x) k) :=
    fun k hk => load_quantizedData img hwf.1 ([c].map lighten) x y k hx hy hk
  have ha : ¬ load img.data ((y * img.width + x) * 4 + 3) ≤ 20 := by
    have := (hu x y hx hy).2.2.2
    unfold channel at this
    omega
  obtain ⟨q, hfirst, h0, h1, h2, h3⟩ :=
    recolorValue_visible img.data ([c].map lighten) hpne (y * img.width + x) ha
  have hq : q = lighten c := by
    obtain ⟨i, hi, _⟩ := hfirst
    have := List.getElem?_mem hi
    simpa using this
  rw [hch 0 (by omega), hch 1 (by omega), hch 2 (by omega), hch 3 (by omega), h0, h1, h2, h3, hq,
    clampByte_of_le hl.1, clampByte_of_le hl.2.1, clampByte_of_le hl.2.2,
    clampByte_of_le (load_le_of_bytes _ hwf.2 _)]
  exact ⟨rfl, rfl, rfl, rfl⟩

theorem filtered_alpha (img : ImageData) (c : Color) (hwf : img.WF)
    (hu : uniformOpaque img c) (x y : Nat) (hx : x < img.width) (hy : y < img.height) :
    channel (applyMedianFilter img) x y 3 = median (neighbourValues img x y 3) ∧
      ∀ a, (∀ u v, u < img.width → v < img.height → channel img u v 3 = a) →
        channel (applyMedianFilter img) x y 3 = a := by
  have ha := (hu x y hx hy).2.2.2
  have hb : ∀ v ∈ neighbourValues img x y 3, v ≤ 255 := by
    intro v hv
    obtain ⟨nx, ny, _, _, rfl⟩ := mem_neighbourValues img x y 3 v hv
    exact load_le_of_bytes _ hwf.2 _
  refine ⟨?_, ?_⟩
  · rw [applyMedianFilter_channel img hwf.1 x y 3 hx hy (by omega),
      filteredValue_visible img x y 3 ha, clampByte_of_le (median_le _ hb)]
  · intro a hall
    obtain ⟨nx, ny, h1, h2, e⟩ :=
      mem_neighbourValues _ _ _ _ _ (filtered_channel_mem img hwf x y 3 hx hy (by omega) ha)
    rw [e]
    exact hall nx ny h1 h2

theorem channel_solidImage (w h : Nat) (px : Rgba) (x y c : Nat) (hx : x < w) (hy : y < h)
    (hc : c < 4) : channel (solidImage w h px) x y c = px.chan c := by
  unfold channel solidImage load
  simp only []
  have hlt : (y * w + x) * 4 + c < w * h * 4 := by
    have := pixel_index_lt hx hy
    omega
  rw [List.getD_eq_getElem _ _ (by simpa using hlt)]
  simp only [List.getElem_map, List.getElem_range]
  congr 1
  omega

theorem solidImage_WF (w h : Nat) (px : Rgba) (h0 : px.1 ≤ 255) (h1 : px.2.1 ≤ 255)
    (h2 : px.2.2.1 ≤ 255) (h3 : px.2.2.2 ≤ 255) : (solidImage w h px).WF := by
  refine ⟨by simp [solidImage], ?_⟩
  intro v hv
  unfold solidImage at hv
  obtain ⟨i, _, rfl⟩ := List.mem_map.1 hv
  unfold Rgba.chan
  split_ifs <;> assumption

theorem uniformOpaque_solid (w h r g b a : Nat) (ha : 20 < a) :
    uniformOpaque (solidImage w h (r, g, b, a)) (r, g, b) := by
  intro x y hx hy
  have hx' : x < w := hx
  have hy' : y < h := hy
  rw [channel_solidImage w h _ x y 0 hx' hy' (by omega),
    channel_solidImage w h _ x y 1 hx' hy' (by omega),
    channel_solidImage w h _ x y 2 hx' hy' (by omega),
    channel_solidImage w h _ x y 3 hx' hy' (by omega)]
  exact ⟨rfl, rfl, rfl, ha⟩

theorem uniformOpaque_twoAlpha : uniformOpaque twoAlphaImage (5, 5, 5) := by
  intro x y hx hy
  have hx' : x < 2 := hx
  have hy' : y < 1 := hy
  interval_cases x <;> interval_cases y <;> decide

theorem lightenSaturateColor_red : lightenSaturateColor (255, 0, 0) = (255, 0, 0) := by
  have h := jsRound_intCast 255
  have h0 := jsRound_intCast 0
  unfold lightenSaturateColor rgbToHsl hslToRgb hue2rgb
  norm_num at h h0 ⊢
  simp [h, h0]

theorem lightenSaturateColor_grey5 : lightenSaturateColor (5, 5, 5) = (5, 5, 5) := by
  have h := jsRound_intCast 5
  unfold lightenSaturateColor rgbToHsl hslToRgb
  norm_num at h ⊢
  simp [h]

/-- C16 (counterexample): in the 2x1 buffer of colour (5,5,5) with alphas 100 and 200 every pixel
has the same colour and an alpha above 20, yet after the median filter and the quantization with
palette size 1 the first pixel has alpha 200, not 100; and for the empty 0x0 buffer, which
satisfies the condition vacuously, the returned palette is empty. -/
theorem quantize_one_colour_changes_alpha :
    uniformOpaque twoAlphaImage (5, 5, 5) ∧ channel twoAlphaImage 0 0 3 = 100 ∧
    (∃ out, applyPaletteQuantization lightenSaturateColor [] (applyMedianFilter twoAlphaImage) 1 =
        some (out, [(5, 5, 5)]) ∧ channel out 0 0 3 = 200) ∧
    uniformOpaque (solidImage 0 0 (255, 0, 0, 255)) (255, 0, 0) ∧
    applyPaletteQuantization lightenSaturateColor []
        (applyMedianFilter (solidImage 0 0 (255, 0, 0, 255))) 1 =
      some (applyMedianFilter (solidImage 0 0 (255, 0, 0, 255)), []) := by
  refine ⟨uniformOpaque_twoAlpha, by decide, ?_, uniformOpaque_solid 0 0 255 0 0 255 (by omega),
    apq_transparent _ _ _ _ (by decide)⟩
  have hwf : twoAlphaImage.WF := by decide
  obtain ⟨out, hres, _, _, hpix⟩ :=
    quantize_uniform lightenSaturateColor [] (applyMedianFilter twoAlphaImage) (5, 5, 5)
      (applyMedianFilter_WF _ hwf) (by decide) (by decide)
      (filtered_uniform _ _ hwf uniformOpaque_twoAlpha)
      (by rw [lightenSaturateColor_grey5]; unfold Color.isBytes; decide)
  rw [lightenSaturateColor_grey5] at hres
  refine ⟨out, hres, ?_⟩
  rw [(hpix 0 0 (by decide) (by decide)).2.2.2,
    (filtered_alpha twoAlphaImage (5, 5, 5) hwf uniformOpaque_twoAlpha 0 0 (by decide)
      (by decide)).1]
  decide

/-- C16 (amended): for every well-formed buffer at least one pixel wide and high in which every
pixel has the same RGB colour `c` and an alpha above 20, `applyMedianFilter` followed by
`applyPaletteQuantization` with palette size 1 returns the one-colour palette `[lighten c]`, and
every output pixel has that colour; its alpha is the median of the alphas of its in-bounds 3x3
neighbourhood, which exceeds 20 and is the original alpha when all pixels share one alpha. For the
fully opaque 16x16 solid red buffer the palette is `[(255,0,0)]` and every pixel is
`(255,0,0,255)`. -/
theorem quantize_one_colour (lighten : Color → Color) (draws : List Nat) (img : ImageData)
    (c : Color) (hwf : img.WF) (hw : 1 ≤ img.width) (hh : 1 ≤ img.height)
    (hu : uniformOpaque img c) (hl : Color.isBytes (lighten c)) :
    (∃ out, applyPaletteQuantization lighten draws (applyMedianFilter img) 1 =
        some (out, [lighten c]) ∧
      ∀ x y, x < img.width → y < img.height →
        channel out x y 0 = (lighten c).1 ∧ channel out x y 1 = (lighten c).2.1 ∧
        channel out x y 2 = (lighten c).2.2 ∧
        channel out x y 3 = median (neighbourValues img x y 3) ∧ 20 < channel out x y 3 ∧
        ∀ a, (∀ u v, u < img.width → v < img.height → channel img u v 3 = a) →
          channel out x y 3 = a) ∧
    ∃ out, applyPaletteQuantization lightenSaturateColor draws
        (applyMedianFilter (solidImage 16 16 (255, 0, 0, 255))) 1 = some (out, [(255, 0, 0)]) ∧
      ∀ x y, x < 16 → y < 16 →
        channel out x y 0 = 255 ∧ channel out x y 1 = 0 ∧ channel out x y 2 = 0 ∧
        channel out x y 3 = 255 := by
  constructor
  · obtain ⟨out, hres, _, _, hpix⟩ :=
      quantize_uniform lighten draws (applyMedianFilter img) c (applyMedianFilter_WF _ hwf) hw hh
        (filtered_uniform _ _ hwf hu) hl
    refine ⟨out, hres, ?_⟩
    intro x y hx hy
    obtain ⟨p0, p1, p2, p3⟩ := hpix x y hx hy
    obtain ⟨f1, f2⟩ := filtered_alpha img c hwf hu x y hx hy
    refine ⟨p0, p1, p2, p3.trans f1, ?_, fun a hall => p3.trans (f2 a hall)⟩
    rw [p3]
    exact (filtered_uniform _ _ hwf hu x y hx hy).2.2.2
  · have hwf2 : (solidImage 16 16 (255, 0, 0, 255)).WF :=
      solidImage_WF 16 16 _ (by decide) (by decide) (by decide) (by decide)
    have hu2 := uniformOpaque_solid 16 16 255 0 0 255 (by omega)
    obtain ⟨out, hres, _, _, hpix⟩ :=
      quantize_uniform lightenSaturateColor draws
        (applyMedianFilter (solidImage 16 16 (255, 0, 0, 255))) (255, 0, 0)
        (applyMedianFilter_WF _ hwf2) (by decide) (by decide)
        (filtered_uniform _ _ hwf2 hu2) (by rw [lightenSaturateColor_red]; unfold Color.isBytes; decide)
    rw [lightenSaturateColor_red] at hres hpix
    refine ⟨out, hres, ?_⟩
    intro x y hx hy
    obtain ⟨p0, p1, p2, p3⟩ := hpix x y hx hy
    refine ⟨p0, p1, p2, p3.trans ?_⟩
    apply (filtered_alpha _ _ hwf2 hu2 x y hx hy).2 255
    intro u v hu3 hv3
    exact channel_solidImage 16 16 _ u v 3 hu3 hv3 (by omega)

theorem quantize_one_colour_witness :
    twoAlphaImage.WF ∧ 1 ≤ twoAlphaImage.width ∧ 1 ≤ twoAlphaImage.height ∧
    uniformOpaque twoAlphaImage (5, 5, 5) ∧ Color.isBytes (lightenSaturateColor (5, 5, 5)) ∧
    ∃ out, applyPaletteQuantization lightenSaturateColor [] (applyMedianFilter twoAlphaImage) 1 =
        some (out, [lightenSaturateColor (5, 5, 5)]) ∧
      channel out 1 0 0 = (lightenSaturateColor (5, 5, 5)).1 ∧ 20 < channel out 1 0 3 :=
  ⟨by decide, by decide, by decide, uniformOpaque_twoAlpha,
   by rw [lightenSaturateColor_grey5]; unfold Color.isBytes; decide,
   (quantize_one_colour lightenSaturateColor [] twoAlphaImage (5, 5, 5) (by decide) (by decide)
      (by decide) uniformOpaque_twoAlpha (by rw [lightenSaturateColor_grey5]; unfold Color.isBytes; decide)).1.imp
     fun _ h => ⟨h.1, (h.2 1 0 (by decide) (by decide)).1,
       (h.2 1 0 (by decide) (by decide)).2.2.2.2.1⟩⟩

/-! ## The tear phase of a sad tick -/

theorem length_overlayEdgeShake (a : Animator) (frame : List Nat) (rand : Nat → ℚ) :
    (overlayEdgeShake a frame rand).length = frame.length := by
  unfold overlayEdgeShake
  generalize (0 : Nat) = k
  induction a.edgePixels generalizing frame k with
  | nil => rfl
  | cons e l ih =>
    rw [List.foldl_cons, ih]
    exact length_setPixel _ _ _ _ _

theorem drawSadEyesAndTears_some (a : Animator) (b : Bounds) (hb : a.bounds = some b)
    (frame : List Nat) (delta : ℚ) :
    ∃ f, drawSadEyesAndTears a frame delta =
        some (f, { a with tearPhase := jsMod (a.tearPhase + delta / a.tearPeriod) 1 }) ∧
      f.length = frame.length := by
  have hlay : ∃ layout, getSimpleEyeLayout a false = some layout := by
    unfold getSimpleEyeLayout
    rw [hb]
    exact ⟨_, rfl⟩
  obtain ⟨layout, hlay⟩ := hlay
  unfold drawSadEyesAndTears
  rw [hlay, hb]
  exact ⟨_, rfl, by simp only [length_setPixel]⟩

theorem setPixel_in_range (a : Animator) (buf : List Nat) (px py : Nat) (color : Rgba)
    (hx : px < a.width) (hy : py < a.height) :
    setPixel a buf (px : Int) (py : Int) color =
      store4 buf ((py * a.width + px) * 4) color.1 color.2.1 color.2.2.1 color.2.2.2 := by
  unfold setPixel
  have hin : ¬ ((px : Int) < 0 ∨ (py : Int) < 0 ∨ (px : Int) ≥ (a.width : Int) ∨
      (py : Int) ≥ (a.height : Int)) := by omega
  have hidx : (((py : Int) * (a.width : Int) + (px : Int)) * 4).toNat =
      (py * a.width + px) * 4 := by
    have : ((py : Int) * (a.width : Int) + (px : Int)) * 4 =
        (((py * a.width + px) * 4 : Nat) : Int) := by
      push_cast; ring
    rw [this, Int.toNat_ofNat]
  rw [if_neg hin]
  simp only []
  rw [hidx]

/-- C25. For every frame buffer of the animator (`4 * width * height` bytes), byte-valued
colour and integer coordinates `(x, y)`: outside `0 ≤ x < width`, `0 ≤ y < height` the call
`setPixel` leaves the buffer unchanged; otherwise the buffer keeps its length, the four bytes
of pixel `(x, y)` become the colour, and every byte of another pixel is unchanged. -/
theorem setPixel_writes_one_pixel (a : Animator) (buf : List Nat) (x y : Int) (color : Rgba)
    (hlen : buf.length = a.width * a.height * 4) (hcol : ∀ c, c < 4 → color.chan c ≤ 255) :
    ((x < 0 ∨ y < 0 ∨ x ≥ (a.width : Int) ∨ y ≥ (a.height : Int)) →
      setPixel a buf x y color = buf) ∧
    (¬ (x < 0 ∨ y < 0 ∨ x ≥ (a.width : Int) ∨ y ≥ (a.height : Int)) →
      ∃ px py : Nat, (px : Int) = x ∧ (py : Int) = y ∧ px < a.width ∧ py < a.height ∧
        (setPixel a buf x y color).length = buf.length ∧
        (∀ c, c < 4 →
          load (setPixel a buf x y color) ((py * a.width + px) * 4 + c) = color.chan c) ∧
        ∀ i, i / 4 ≠ py * a.width + px → load (setPixel a buf x y color) i = load buf i) := by
  constructor
  · intro hout
    unfold setPixel
    rw [if_pos hout]
  · intro hin
    have hx0 : 0 ≤ x := by omega
    have hy0 : 0 ≤ y := by omega
    obtain ⟨px, rfl⟩ := Int.eq_ofNat_of_zero_le hx0
    obtain ⟨py, rfl⟩ := Int.eq_ofNat_of_zero_le hy0
    have hx : px < a.width := by omega
    have hy : py < a.height := by omega
    refine ⟨px, py, rfl, rfl, hx, hy, length_setPixel _ _ _ _ _, ?_, ?_⟩
    · intro c hc
      rw [setPixel_in_range a buf px py color hx hy,
        load_store4_chan buf (py * a.width + px) _ _ _ _ c color.chan
          (by simp [Rgba.chan]) (by simp [Rgba.chan]) (by simp [Rgba.chan])
          (by simp [Rgba.chan]) hc (by rw [hlen]; have := pixel_index_lt hx hy; omega)]
      exact clampByte_of_le (hcol c hc)
    · intro i hi
      rw [setPixel_in_range a buf px py color hx hy]
      exact load_store4_other _ _ _ _ _ _ _ hi

theorem setPixel_writes_one_pixel_witness :
    ([1, 2, 3, 4, 5, 6, 7, 8] : List Nat).length =
      (newAnimator 2 1 []).width * (newAnimator 2 1 []).height * 4 ∧
    (∀ c, c < 4 → BLACK.chan c ≤ 255) ∧
    setPixel (newAnimator 2 1 []) [1, 2, 3, 4, 5, 6, 7, 8] 2 0 BLACK = [1, 2, 3, 4, 5, 6, 7, 8] ∧
    setPixel (newAnimator 2 1 []) [1, 2, 3, 4, 5, 6, 7, 8] 1 0 BLACK =
      [1, 2, 3, 4, 0, 0, 0, 255] :=
  ⟨by decide, by decide,
   (setPixel_writes_one_pixel (newAnimator 2 1 []) [1, 2, 3, 4, 5, 6, 7, 8] 2 0 BLACK
      (by decide) (by decide)).1 (by decide),
   by decide⟩

/-! ## Palettes of buffers with few colours -/

theorem kMeansPalette_few (colors : List Color) (k : Nat) (draws : List Nat)
    (hk : colors.length ≤ k) : kMeansPalette colors k draws = some colors := by
  unfold kMeansPalette
  simp only []
  rw [if_pos hk, List.take_of_length_le hk]

theorem apq_few_colours (lighten : Color → Color) (draws : List Nat) (img : ImageData)
    (paletteSize : Nat) (hwf : img.WF) (hK : 1 ≤ paletteSize)
    (hd : distinctColorCount img ≤ paletteSize) :
    ∃ out, applyPaletteQuantization lighten draws img paletteSize =
        some (out, (uniqueColors (opaqueColors img.data)).map lighten) ∧
      out.width = img.width ∧ out.height = img.height := by
  by_cases h0 : (opaqueColors img.data).length = 0
  · refine ⟨img, ?_, rfl, rfl⟩
    rw [apq_transparent lighten draws img paletteSize h0]
    have : opaqueColors img.data = [] := List.length_eq_zero.1 h0
    rw [this]
    rfl
  · have hpos := unique_pos img h0
    have hlen := length_unique_visible img hwf.1
    have hc : kMeansPalette (uniqueColors (opaqueColors img.data))
        (min paletteSize (max 1 (uniqueColors (opaqueColors img.data)).length)) draws =
          some (uniqueColors (opaqueColors img.data)) :=
      kMeansPalette_few _ _ draws (by omega)
    obtain ⟨_, _, h⟩ := apq_of_centers lighten draws img paletteSize hwf.1 hK h0 _ hc
    exact ⟨_, h, rfl, rfl⟩

/-- C22. For every list of colours and every `k` at least its length, `kMeansPalette` returns
the list itself, in the given order, whatever the random draws (so also for a list of `n`
distinct colours and `k ≥ n`); and for every well-formed buffer whose number of distinct opaque
colours is at most `K ≥ 1`, `applyPaletteQuantization` returns, the centres it passes to the
saturation postprocess are the distinct opaque colours in the order of their first insertion:
a list without repetition whose members are exactly the RGB triples of the pixels with alpha
above 20. -/
theorem few_colours_palette_is_input (lighten : Color → Color) (draws : List Nat)
    (img : ImageData) (paletteSize : Nat) (hwf : img.WF) (hK : 1 ≤ paletteSize)
    (hd : distinctColorCount img ≤ paletteSize) :
    (∀ (colors : List Color) (k : Nat) (draws1 : List Nat), colors.length ≤ k →
      kMeansPalette colors k draws1 = some colors) ∧
    (∃ out, applyPaletteQuantization lighten draws img paletteSize =
      some (out, lightenSaturatePalette lighten (uniqueColors (opaqueColors img.data)))) ∧
    (uniqueColors (opaqueColors img.data)).Nodup ∧
    (uniqueColors (opaqueColors img.data)).length = distinctColorCount img ∧
    ∀ c : Color, c ∈ uniqueColors (opaqueColors img.data) ↔
      ∃ x y, x < img.width ∧ y < img.height ∧ 20 < channel img x y 3 ∧
        c = (channel img x y 0, channel img x y 1, channel img x y 2) := by
  refine ⟨fun colors k draws1 h => kMeansPalette_few colors k draws1 h, ?_,
    uniqueColors_nodup _, length_unique_visible img hwf.1, ?_⟩
  · obtain ⟨out, h, _⟩ := apq_few_colours lighten draws img paletteSize hwf hK hd
    exact ⟨out, h⟩
  · intro c
    rw [mem_uniqueColors, mem_opaqueColors img hwf.1]

theorem few_colours_palette_is_input_witness :
    sampleImage.WF ∧ 1 ≤ 16 ∧ distinctColorCount sampleImage ≤ 16 ∧
    kMeansPalette [(1, 2, 3), (9, 10, 11)] 5 [7] = some [(1, 2, 3), (9, 10, 11)] ∧
    ∃ out, applyPaletteQuantization sampleLighten [] sampleImage 16 =
      some (out, lightenSaturatePalette sampleLighten
        (uniqueColors (opaqueColors sampleImage.data))) :=
  ⟨by decide, by decide, by decide,
   (few_colours_palette_is_input sampleLighten [] sampleImage 16 (by decide) (by decide)
      (by decide)).1 _ 5 [7] (by decide),
   (few_colours_palette_is_input sampleLighten [] sampleImage 16 (by decide) (by decide)
      (by decide)).2.1⟩

/-! ## The eye pair depends on the silhouette alone -/

theorem scanList_congr (p1 p2 : List Nat) (width : Nat) (l : List (Nat × Nat))
    (h : ∀ p ∈ l, (isOpaque p1 width p.2 p.1 ↔ isOpaque p2 width p.2 p.1)) (b : Bounds) :
    scanList p1 width b l = scanList p2 width b l := by
  unfold scanList
  apply foldl_congr_mem
  intro b1 p hp
  by_cases hv : isOpaque p1 width p.2 p.1
  · rw [scanPixel_of_visible _ _ _ _ _ hv, scanPixel_of_visible _ _ _ _ _ ((h p hp).1 hv)]
  · rw [scanPixel_of_hidden _ _ _ _ _ hv,
      scanPixel_of_hidden _ _ _ _ _ (fun h2 => hv ((h p hp).2 h2))]

theorem addEyesToPixelArt_congr (p1 p2 : List Nat) (width height : Nat)
    (h : ∀ x y, x < width → y < height → (isOpaque p1 width x y ↔ isOpaque p2 width x y)) :
    addEyesToPixelArt p1 width height = addEyesToPixelArt p2 width height := by
  have hs : scanBounds p1 width height = scanBounds p2 width height := by
    rw [scanBounds_eq_scanList, scanBounds_eq_scanList]
    apply scanList_congr
    intro p hp
    rw [mem_grid] at hp
    exact h p.2 p.1 hp.2 hp.1
  unfold addEyesToPixelArt
  rw [hs]

theorem apq_same_silhouette (lighten : Color → Color) (draws : List Nat) (img : ImageData)
    (paletteSize : Nat) (hwf : img.WF) (hK : 1 ≤ paletteSize) (res : ImageData × List Color)
    (h : applyPaletteQuantization lighten draws img paletteSize = some res) :
    addEyesToPixelArt res.1.data res.1.width res.1.height =
      addEyesToPixelArt img.data img.width img.height := by
  rcases apq_cases lighten draws img paletteSize hwf.1 hK res h with
    ⟨_, rfl⟩ | ⟨_, centers, _, hne, rfl⟩
  · rfl
  · apply addEyesToPixelArt_congr
    intro x y hx hy
    have hx1 : x < img.width := hx
    have hy1 : y < img.height := hy
    have e : load (quantizedData img (centers.map lighten)) ((y * img.width + x) * 4 + 3) =
        load img.data ((y * img.width + x) * 4 + 3) := by
      rw [load_quantizedData img hwf.1 (centers.map lighten) x y 3 hx1 hy1 (by omega),
        recolorValue_alpha _ _ hne]
      exact clampByte_of_le (load_le_of_bytes _ hwf.2 _)
    unfold isOpaque
    simp only []
    rw [e]

/-- C24. The eye pair depends on the silhouette alone: for any two buffers read with the same
width and height in which the same pixels have alpha above 20, `addEyesToPixelArt` returns the
same `EyePair`; and for every well-formed buffer and `K ≥ 1`, whenever
`applyPaletteQuantization` returns, `addEyesToPixelArt` of its output buffer equals
`addEyesToPixelArt` of its input, and it returns for every draw sequence that lets the centre
initialisation finish. -/
theorem eyes_depend_on_silhouette (lighten : Color → Color) (draws : List Nat)
    (img : ImageData) (paletteSize : Nat) (hwf : img.WF) (hK : 1 ≤ paletteSize) :
    (∀ (p1 p2 : List Nat) (width height : Nat),
      (∀ x y, x < width → y < height → (isOpaque p1 width x y ↔ isOpaque p2 width x y)) →
      addEyesToPixelArt p1 width height = addEyesToPixelArt p2 width height) ∧
    (∀ res, applyPaletteQuantization lighten draws img paletteSize = some res →
      addEyesToPixelArt res.1.data res.1.width res.1.height =
        addEyesToPixelArt img.data img.width img.height) ∧
    (drawsSuffice img paletteSize draws →
      ∃ res, applyPaletteQuantization lighten draws img paletteSize = some res ∧
        addEyesToPixelArt res.1.data res.1.width res.1.height =
          addEyesToPixelArt img.data img.width img.height) := by
  refine ⟨addEyesToPixelArt_congr, apq_same_silhouette lighten draws img paletteSize hwf hK,
    fun hd => ?_⟩
  obtain ⟨res, hres⟩ := apq_returns lighten draws img paletteSize hwf.1 hK hd
  exact ⟨res, hres, apq_same_silhouette lighten draws img paletteSize hwf hK res hres⟩

theorem eyes_depend_on_silhouette_witness :
    sampleImage.WF ∧ 1 ≤ 2 ∧ drawsSuffice sampleImage 2 [0, 1] ∧
    ∃ res, applyPaletteQuantization sampleLighten [0, 1] sampleImage 2 = some res ∧
      addEyesToPixelArt res.1.data res.1.width res.1.height =
        addEyesToPixelArt sampleImage.data sampleImage.width sampleImage.height :=
  ⟨by decide, by decide, by decide,
   (eyes_depend_on_silhouette sampleLighten [0, 1] sampleImage 2 (by decide) (by decide)).2.2
     (by decide)⟩

/-! ## The wink timer -/

theorem foldl_append_if {α β : Type} (cond : α → Bool) (entry : α → β) (l : List α) :
    ∀ init : List β,
      l.foldl (fun acc a => if cond a then acc ++ [entry a] else acc) init =
        init ++ (l.filter cond).map entry := by
  induction l with
  | nil => intro init; simp
  | cons a l ih =>
    intro init
    rw [List.foldl_cons, ih]
    by_cases h : cond a = true
    · simp [h]
    · simp [h]

theorem neighbour_index (w x y : Nat) (ox oy : Int) (nx ny : Nat)
    (hx : (x : Int) + ox = (nx : Int)) (hy : (y : Int) + oy = (ny : Int)) :
    ((((y : Int) + oy) * (w : Int) + ((x : Int) + ox)) * 4).toNat = (ny * w + nx) * 4 := by
  rw [hx, hy]
  have : ((ny : Int) * (w : Int) + (nx : Int)) * 4 = (((ny * w + nx) * 4 : Nat) : Int) := by
    push_cast; ring
  rw [this, Int.toNat_ofNat]

theorem isEdge_iff (pixels : List Nat) (width height x y : Nat) (hx : x < width)
    (hy : y < height) :
    isEdge pixels width height x y = true ↔
      (x = 0 ∨ y = 0 ∨ x + 1 = width ∨ y + 1 = height ∨
        ¬ isOpaque pixels width (x - 1) y ∨ ¬ isOpaque pixels width (x + 1) y ∨
        ¬ isOpaque pixels width x (y - 1) ∨ ¬ isOpaque pixels width x (y + 1)) := by
  unfold isEdge neighborOffsets isOpaque
  simp only [List.any_cons, List.any_nil, Bool.or_false, Bool.or_eq_true]
  have up : y ≠ 0 →
      ((((y : Int) + (-1)) * (width : Int) + ((x : Int) + 0)) * 4).toNat =
        ((y - 1) * width + x) * 4 := fun h =>
    neighbour_index width x y 0 (-1) x (y - 1) (by omega) (by omega)
  have right : ((((y : Int) + 0) * (width : Int) + ((x : Int) + 1)) * 4).toNat =
      (y * width + (x + 1)) * 4 :=
    neighbour_index width x y 1 0 (x + 1) y (by omega) (by omega)
  have down : ((((y : Int) + 1) * (width : Int) + ((x : Int) + 0)) * 4).toNat =
      ((y + 1) * width + x) * 4 :=
    neighbour_index width x y 0 1 x (y + 1) (by omega) (by omega)
  have left : x ≠ 0 →
      ((((y : Int) + 0) * (width : Int) + ((x : Int) + (-1))) * 4).toNat =
        (y * width + (x - 1)) * 4 := fun h =>
    neighbour_index width x y (-1) 0 (x - 1) y (by omega) (by omega)
  by_cases hx0 : x = 0
  · simp [hx0]
  · by_cases hy0 : y = 0
    · simp [hy0]
    · by_cases hx1 : x + 1 = width
      · have : ¬ ((x : Int) + 1 < 0) := by omega
        have h2 : (x : Int) + 1 ≥ (width : Int) := by omega
        simp [hx1, h2]
      · by_cases hy1 : y + 1 = height
        · have h2 : (y : Int) + 1 ≥ (height : Int) := by omega
          simp [hy1, h2]
        · have c1 : ¬ ((x : Int) + 0 < 0 ∨ (y : Int) + (-1) < 0 ∨
              (x : Int) + 0 ≥ (width : Int) ∨ (y : Int) + (-1) ≥ (height : Int)) := by omega
          have c2 : ¬ ((x : Int) + 1 < 0 ∨ (y : Int) + 0 < 0 ∨
              (x : Int) + 1 ≥ (width : Int) ∨ (y : Int) + 0 ≥ (height : Int)) := by omega
          have c3 : ¬ ((x : Int) + 0 < 0 ∨ (y : Int) + 1 < 0 ∨
              (x : Int) + 0 ≥ (width : Int) ∨ (y : Int) + 1 ≥ (height : Int)) := by omega
          have c4 : ¬ ((x : Int) + (-1) < 0 ∨ (y : Int) + 0 < 0 ∨
              (x : Int) + (-1) ≥ (width : Int) ∨ (y : Int) + 0 ≥ (height : Int)) := by omega
          simp only [if_neg c1, if_neg c2, if_neg c3, if_neg c4, up hy0, right, down,
            left hx0, decide_eq_true_eq, hx0, hy0, hx1, hy1, false_or, not_lt]
          tauto

theorem computeEdgePixels_eq (a : Animator) (pixels : List Nat)
    (hbody : a.bodyPixels = some pixels) :
    computeEdgePixels a = edgePixelsSpec pixels a.width a.height := by
  unfold computeEdgePixels edgePixelsSpec
  rw [hbody]
  simp only []
  have h1 := foldl_product_eq
    (fun (edges : List EdgePixel) (p : Nat × Nat) =>
      edgeStep pixels a.width a.height edges p.1 p.2)
    (List.range a.height) (List.range a.width) []
  simp only [] at h1
  rw [← h1]
  have h2 : ∀ (b1 : List EdgePixel), ∀ p ∈ (List.range a.height ×ˢ List.range a.width),
      edgeStep pixels a.width a.height b1 p.1 p.2 =
        if decide (isEdgePixel pixels a.width a.height p.2 p.1) then
          b1 ++ [EdgePixel.mk p.2 p.1
            (load pixels ((p.1 * a.width + p.2) * 4),
              load pixels ((p.1 * a.width + p.2) * 4 + 1),
              load pixels ((p.1 * a.width + p.2) * 4 + 2),
              load pixels ((p.1 * a.width + p.2) * 4 + 3))]
        else b1 := by
    intro b1 p hp
    rw [mem_grid] at hp
    have hiff := isEdge_iff pixels a.width a.height p.2 p.1 hp.2 hp.1
    unfold edgeStep isEdgePixel
    simp only []
    by_cases hv : load pixels ((p.1 * a.width + p.2) * 4 + 3) ≤ 20
    · have hno : ¬ isOpaque pixels a.width p.2 p.1 := by
        unfold isOpaque; omega
      rw [if_pos hv, if_neg (by simpa using fun h => absurd h hno)]
    · have hyes : isOpaque pixels a.width p.2 p.1 := by
        unfold isOpaque; omega
      rw [if_neg hv]
      by_cases he : isEdge pixels a.width a.height p.2 p.1 = true
      · rw [if_pos he, if_pos (by rw [decide_eq_true_eq]; exact ⟨hyes, hiff.1 he⟩)]
      · rw [if_neg he, if_neg (by rw [decide_eq_true_eq]; exact fun h => he (hiff.2 h.2))]
  rw [foldl_congr_mem _ _ _ [] h2, foldl_append_if]
  rfl

theorem grid_pairwise (height width : Nat) :
    (List.range height ×ˢ List.range width).Pairwise
      fun p q => p.1 < q.1 ∨ (p.1 = q.1 ∧ p.2 < q.2) := by
  have : (List.range height ×ˢ List.range width) =
      (List.range height).flatMap fun y => (List.range width).map (Prod.mk y) := rfl
  rw [this, List.pairwise_flatMap]
  constructor
  · intro y _
    rw [List.pairwise_map]
    exact (List.pairwise_lt_range width).imp fun h => Or.inr ⟨rfl, h⟩
  · refine (List.pairwise_lt_range height).imp ?_
    intro y1 y2 hlt p hp q hq
    obtain ⟨_, _, rfl⟩ := List.mem_map.1 hp
    obtain ⟨_, _, rfl⟩ := List.mem_map.1 hq
    exact Or.inl hlt

theorem mem_edgePixelsSpec (pixels : List Nat) (width height : Nat) (e : EdgePixel) :
    e ∈ edgePixelsSpec pixels width height ↔
      e.x < width ∧ e.y < height ∧ isEdgePixel pixels width height e.x e.y ∧
        e.color = (load pixels ((e.y * width + e.x) * 4),
          load pixels ((e.y * width + e.x) * 4 + 1), load pixels ((e.y * width + e.x) * 4 + 2),
          load pixels ((e.y * width + e.x) * 4 + 3)) := by
  unfold edgePixelsSpec
  rw [List.mem_map]
  constructor
  · rintro ⟨p, hp, rfl⟩
    rw [List.mem_filter, mem_grid, decide_eq_true_eq] at hp
    exact ⟨hp.1.2, hp.1.1, hp.2, rfl⟩
  · rintro ⟨hx, hy, hedge, hcol⟩
    refine ⟨(e.y, e.x), ?_, ?_⟩
    · rw [List.mem_filter, mem_grid, decide_eq_true_eq]
      exact ⟨⟨hy, hx⟩, hedge⟩
    · obtain ⟨x, y, color⟩ := e
      simp only at hcol
      simp only [hcol]

theorem edgePixelsSpec_pairwise (pixels : List Nat) (width height : Nat) :
    (edgePixelsSpec pixels width height).Pairwise rowMajorBefore := by
  unfold edgePixelsSpec
  rw [List.pairwise_map]
  exact ((grid_pairwise height width).filter _).imp fun h => h

/-- C29. For every animator with base sprite `pixels`, `computeEdgePixels` returns the list the
specification describes: the pixels `(x, y)` of the row-major grid with alpha above 20 that
have an orthogonal neighbour outside the buffer or with alpha at most 20, each with the RGBA
bytes of the sprite at `(x, y)`. The entries are in strictly increasing row-major order, so
each position occurs once; every entry is such a pixel and every such pixel has an entry. -/
theorem edge_pixels_row_major (a : Animator) (pixels : List Nat)
    (hbody : a.bodyPixels = some pixels) :
    computeEdgePixels a = edgePixelsSpec pixels a.width a.height ∧
    (computeEdgePixels a).Pairwise rowMajorBefore ∧
    (∀ e ∈ computeEdgePixels a,
      e.x < a.width ∧ e.y < a.height ∧ isEdgePixel pixels a.width a.height e.x e.y ∧
        e.color = (load pixels ((e.y * a.width + e.x) * 4),
          load pixels ((e.y * a.width + e.x) * 4 + 1),
          load pixels ((e.y * a.width + e.x) * 4 + 2),
          load pixels ((e.y * a.width + e.x) * 4 + 3))) ∧
    ∀ x y, x < a.width → y < a.height → isEdgePixel pixels a.width a.height x y →
      ∃ e ∈ computeEdgePixels a, e.x = x ∧ e.y = y := by
  have heq := computeEdgePixels_eq a pixels hbody
  rw [heq]
  refine ⟨rfl, edgePixelsSpec_pairwise _ _ _, ?_, ?_⟩
  · intro e he
    exact (mem_edgePixelsSpec _ _ _ e).1 he
  · intro x y hx hy hedge
    exact ⟨EdgePixel.mk x y (load pixels ((y * a.width + x) * 4),
      load pixels ((y * a.width + x) * 4 + 1), load pixels ((y * a.width + x) * 4 + 2),
      load pixels ((y * a.width + x) * 4 + 3)),
      (mem_edgePixelsSpec _ _ _ _).2 ⟨hx, hy, hedge, rfl⟩, rfl, rfl⟩

theorem edge_pixels_row_major_witness :
    sampleAnimator.bodyPixels = some sampleImage.data ∧
    computeEdgePixels sampleAnimator =
      [EdgePixel.mk 0 0 (1, 2, 3, 255), EdgePixel.mk 0 1 (9, 10, 11, 255),
        EdgePixel.mk 1 1 (13, 14, 15, 30)] :=
  ⟨rfl, (edge_pixels_row_major sampleAnimator sampleImage.data rfl).1.trans (by decide)⟩

/-! ## What a render tick leaves unchanged -/

theorem commitFrame_keeps (a a1 : Animator) (frame : List Nat)
    (h : commitFrame a frame = some a1) :
    a1 = { a with frameBuffer := a1.frameBuffer, outputImageData := a1.outputImageData,
                  display := a1.display } := by
  unfold commitFrame at h
  simp only [] at h
  split at h
  · cases h
  · cases h
    rfl

theorem renderCalm_keeps (a a1 : Animator) (sinTurns : ℚ → ℚ) (t : ℚ)
    (h : renderCalm a sinTurns t = some a1) :
    a1 = { a with frameBuffer := a1.frameBuffer, outputImageData := a1.outputImageData,
                  display := a1.display } := by
  unfold renderCalm at h
  split at h
  · cases h
  · simp only [] at h
    split at h
    · cases h
    · exact commitFrame_keeps _ _ _ h

theorem renderExcited_keeps (a a1 : Animator) (sinTurns : ℚ → ℚ) (t : ℚ)
    (h : renderExcited a sinTurns t = some a1) :
    a1 = { a with frameBuffer := a1.frameBuffer, outputImageData := a1.outputImageData,
                  display := a1.display } := by
  unfold renderExcited at h
  split at h
  · cases h
  · simp only [] at h
    split at h
    · cases h
    · split at h
      · cases h
      · exact commitFrame_keeps _ _ _ h

theorem renderHappy_keeps (a a1 : Animator) (sinTurns : ℚ → ℚ) (t : ℚ)
    (h : renderHappy a sinTurns t = some a1) :
    a1 = { a with frameBuffer := a1.frameBuffer, outputImageData := a1.outputImageData,
                  display := a1.display } := by
  unfold renderHappy at h
  split at h
  · cases h
  · simp only [] at h
    split at h
    · cases h
    · split at h
      · cases h
      · exact commitFrame_keeps _ _ _ h

theorem drawSadEyesAndTears_keeps (a a1 : Animator) (frame f : List Nat) (delta : ℚ)
    (h : drawSadEyesAndTears a frame delta = some (f, a1)) :
    a1 = { a with tearPhase := a1.tearPhase } := by
  unfold drawSadEyesAndTears at h
  split at h
  · simp only [Option.some.injEq, Prod.mk.injEq] at h
    rw [← h.2]
  · cases h

theorem renderSad_keeps (a a1 : Animator) (rand : Nat → ℚ) (delta : ℚ)
    (h : renderSad a rand delta = some a1) :
    a1 = { a with frameBuffer := a1.frameBuffer, outputImageData := a1.outputImageData,
                  display := a1.display, tearPhase := a1.tearPhase } := by
  unfold renderSad at h
  split at h
  · cases h
  · split at h
    · cases h
    · rename_i frame1 a2 hdraw
      have h1 := drawSadEyesAndTears_keeps _ _ _ _ _ hdraw
      have h2 := commitFrame_keeps _ _ _ h
      rw [h2, h1]

theorem updateWinkState_keeps (a : Animator) (t r : ℚ) :
    updateWinkState a t r = { a with winkState := (updateWinkState a t r).winkState } := by
  unfold updateWinkState scheduleNextWink
  simp only []
  split_ifs <;> rfl

theorem renderWink_keeps (a a1 : Animator) (rand : Nat → ℚ) (t : ℚ)
    (h : renderWink a rand t = some a1) :
    a1 = { a with frameBuffer := a1.frameBuffer, outputImageData := a1.outputImageData,
                  display := a1.display, winkState := a1.winkState } := by
  have hu := updateWinkState_keeps a t (rand 0)
  unfold renderWink at h
  split at h
  · cases h
  · simp only [] at h
    split at h
    · cases h
    · split at h
      · split at h
        · cases h
        · have h2 := commitFrame_keeps _ _ _ h
          rw [h2, hu]
      · have h2 := commitFrame_keeps _ _ _ h
        rw [h2, hu]

theorem renderSleepy_keeps (a a1 : Animator) (rand : Nat → ℚ) (delta : ℚ)
    (h : renderSleepy a rand delta = some a1) :
    a1 = { a with frameBuffer := a1.frameBuffer, outputImageData := a1.outputImageData,
                  display := a1.display, sleepElapsed := a1.sleepElapsed,
                  sleepDuration := a1.sleepDuration } := by
  unfold renderSleepy at h
  split at h
  · cases h
  · split at h
    · cases h
    · simp only [] at h
      split at h
      · cases h
      · split at h
        · cases h
        · have h2 := commitFrame_keeps _ _ _ h
          rw [h2]
          split_ifs <;> rfl

/-! ## A render tick returns for an installed sprite -/

theorem length_foldl_step {α : Type} (f : List Nat → α → List Nat)
    (hf : ∀ b a, (f b a).length = b.length) (l : List α) :
    ∀ b : List Nat, (l.foldl f b).length = b.length := by
  induction l with
  | nil => intro b; rfl
  | cons a l ih => intro b; rw [List.foldl_cons, ih, hf]

theorem commitFrame_some (a : Animator) (frame : List Nat)
    (hlen : frame.length = a.width * a.height * 4)
    (hout : ∀ o, a.outputImageData = some o → o.width = a.width →
      o.data.length = frame.length) :
    ∃ out : ImageData, out.width = a.width ∧
      commitFrame a frame =
        some { a with frameBuffer := some frame,
                      outputImageData := some { out with data := frame },
                      display := frame } := by
  unfold commitFrame
  cases ho : a.outputImageData with
  | none =>
    simp only []
    rw [typedSet_same_length _ _ (by rw [List.length_replicate, hlen])]
    exact ⟨{ width := a.width, height := a.height,
             data := List.replicate (a.width * a.height * 4) 0 }, rfl, rfl⟩
  | some o =>
    by_cases hw : o.width = a.width
    · simp only [hw, ne_eq, not_true_eq_false, ↓reduceIte]
      rw [typedSet_same_length _ _ (hout o ho hw)]
      exact ⟨{ o with width := a.width }, rfl, rfl⟩
    · simp only [hw, ne_eq, not_false_eq_true, ↓reduceIte]
      rw [typedSet_same_length _ _ (by rw [List.length_replicate, hlen])]
      exact ⟨{ width := a.width, height := a.height,
               data := List.replicate (a.width * a.height * 4) 0 }, rfl, rfl⟩

theorem commitFrame_ready (a : Animator) (body frame : List Nat) (hr : a.Ready body)
    (hlen : frame.length = body.length) :
    ∃ a1, commitFrame a frame = some a1 ∧ a1.Ready body ∧ a1.display = frame ∧
      a1.frameBuffer = some frame := by
  obtain ⟨⟨hbody, hbl, hbytes⟩, hb, hout⟩ := hr
  obtain ⟨out, how, hc⟩ := commitFrame_some a frame (by rw [hlen, hbl])
    (fun o ho hw => by rw [hout o ho hw, hlen])
  refine ⟨_, hc, ⟨⟨hbody, hbl, hbytes⟩, hb, ?_⟩, rfl, rfl⟩
  intro o ho _
  simp only [Option.some.injEq] at ho
  rw [← ho]
  exact hlen

theorem length_paintEye (a : Animator) (frame : List Nat) (eye : EyePoint) (d : Direction) :
    (paintEye a frame eye d).length = frame.length := by
  unfold paintEye
  cases d <;> simp only [length_setPixel]

theorem mapYWithTransform_some (a : Animator) (b : Bounds) (hb : a.bounds = some b) (y : Int)
    (tr : Transform) : ∃ v, mapYWithTransform a y tr = some v := by
  unfold mapYWithTransform
  cases tr.stretch with
  | none => exact ⟨_, rfl⟩
  | some st =>
    simp only [hb]
    exact ⟨_, rfl⟩

theorem transformEye_some (a : Animator) (b : Bounds) (hb : a.bounds = some b) (eye : EyePoint)
    (tr : Transform) : ∃ e, transformEye a eye tr = some e := by
  obtain ⟨v1, h1⟩ := mapYWithTransform_some a b hb eye.pupil.y tr
  obtain ⟨v2, h2⟩ := mapYWithTransform_some a b hb eye.highlight.y tr
  unfold transformEye
  rw [h1, h2]
  exact ⟨_, rfl⟩

theorem drawFacingEyes_some (a : Animator) (b : Bounds) (hb : a.bounds = some b)
    (frame : List Nat) (d : Direction) (tr : Transform) :
    ∃ f, drawFacingEyes a frame d tr = some f ∧ f.length = frame.length := by
  unfold drawFacingEyes
  cases he : a.eyes with
  | none => exact ⟨frame, rfl, rfl⟩
  | some e =>
    obtain ⟨l, hl⟩ := transformEye_some a b hb e.left tr
    obtain ⟨r, hr⟩ := transformEye_some a b hb e.right tr
    simp only [hl, hr]
    exact ⟨_, rfl, by simp only [length_paintEye]⟩

theorem length_stretchPixel (base : List Nat) (width : Nat) (b : Bounds) (span : Span)
    (frame : List Nat) (x step : Nat) :
    (stretchPixel base width b span frame x step).length = frame.length := by
  unfold stretchPixel
  simp only []
  split_ifs <;> first | rfl | exact length_store4 _ _ _ _ _ _

theorem drawAnchoredVerticalStretch_some (a : Animator) (frame body : List Nat) (b : Bounds)
    (scale : ℚ) (hbody : a.bodyPixels = some body) (hb : a.bounds = some b) :
    ∃ f, drawAnchoredVerticalStretch a frame scale = some (f, stretchSpan b a.height scale) ∧
      f.length = frame.length := by
  unfold drawAnchoredVerticalStretch
  rw [hbody, hb]
  refine ⟨_, rfl, ?_⟩
  apply length_foldl_step
  intro fr x
  apply length_foldl_step
  intro fr2 step
  exact length_stretchPixel _ _ _ _ _ _ _

theorem length_drawBodyPixel (source : List Nat) (width : Nat) (offsetX ny : Int)
    (frame : List Nat) (y x : Nat) :
    (drawBodyPixel source width offsetX ny frame y x).length = frame.length := by
  unfold drawBodyPixel
  simp only []
  split_ifs
  · rfl
  · rfl
  · exact length_store4 _ _ _ _ _ _

theorem drawBodyWithOffset_some (a : Animator) (frame body : List Nat) (offsetX offsetY : Int)
    (hbody : a.bodyPixels = some body) :
    ∃ f, drawBodyWithOffset a frame offsetX offsetY = some f ∧ f.length = frame.length := by
  unfold drawBodyWithOffset
  rw [hbody]
  refine ⟨_, rfl, ?_⟩
  apply length_foldl_step
  intro fr y
  simp only []
  split_ifs
  · rfl
  · apply length_foldl_step
    intro fr2 x
    exact length_drawBodyPixel _ _ _ _ _ _ _

theorem length_drawVerticalEyeLine (a : Animator) (frame : List Nat) (column baseY : Int)
    (n : Nat) : (drawVerticalEyeLine a frame column baseY n).length = frame.length := by
  unfold drawVerticalEyeLine
  apply length_foldl_step
  intro fr i
  exact length_setPixel _ _ _ _ _

theorem getBodyPixel_some (a : Animator) (body : List Nat) (hbody : a.bodyPixels = some body)
    (x y : Int) : ∃ c, getBodyPixel a x y = some c := by
  unfold getBodyPixel
  rw [hbody]
  split_ifs
  · exact ⟨_, rfl⟩
  · exact ⟨_, rfl⟩

theorem restoreBodyPixel_some (a : Animator) (body : List Nat)
    (hbody : a.bodyPixels = some body) (frame : List Nat) (x y : Int) :
    ∃ f, restoreBodyPixel a frame x y = some f ∧ f.length = frame.length := by
  obtain ⟨c, hc⟩ := getBodyPixel_some a body hbody x y
  unfold restoreBodyPixel
  rw [hc]
  exact ⟨_, rfl, length_setPixel _ _ _ _ _⟩

theorem drawSleepyEye_some (a : Animator) (body : List Nat) (hbody : a.bodyPixels = some body)
    (frame : List Nat) (x baseY : Int) (opacity : ℚ) :
    ∃ f, drawSleepyEye a frame x baseY opacity = some f ∧ f.length = frame.length := by
  unfold drawSleepyEye
  simp only []
  split_ifs
  · obtain ⟨f, h1, h2⟩ := restoreBodyPixel_some a body hbody
      (setPixel a frame x (clamp (baseY + 1) 0 ((a.height : Int) - 1)) BLACK) x
      (clamp baseY 0 ((a.height : Int) - 1))
    exact ⟨f, h1, by rw [h2, length_setPixel]⟩
  · exact ⟨_, rfl, by simp only [length_setPixel]⟩
  · obtain ⟨c, hc⟩ := getBodyPixel_some a body hbody x (clamp baseY 0 ((a.height : Int) - 1))
    rw [hc]
    exact ⟨_, rfl, by simp only [length_setPixel]⟩

theorem renderCalm_ready (a : Animator) (body : List Nat) (hr : a.Ready body)
    (sinTurns : ℚ → ℚ) (t : ℚ) :
    ∃ a1, renderCalm a sinTurns t = some a1 ∧ a1.Ready body := by
  obtain ⟨b, hb⟩ := hr.2.1
  obtain ⟨f, hf, hfl⟩ := drawFacingEyes_some a b hb body (computeEyeDirection sinTurns t 3200)
    { offsetX := 0, offsetY := 0, stretch := none }
  obtain ⟨a1, h1, h2, _⟩ := commitFrame_ready a body f hr hfl
  refine ⟨a1, ?_, h2⟩
  unfold renderCalm
  rw [prepareFrameWithBody_installed a body hr.1.1]
  simp only []
  rw [hf]
  exact h1

theorem renderExcited_ready (a : Animator) (body : List Nat) (hr : a.Ready body)
    (sinTurns : ℚ → ℚ) (t : ℚ) :
    ∃ a1, renderExcited a sinTurns t = some a1 ∧ a1.Ready body := by
  obtain ⟨b, hb⟩ := hr.2.1
  obtain ⟨f1, hf1, hfl1⟩ := drawAnchoredVerticalStretch_some a (List.replicate body.length 0)
    body b (1 + 0.14 * sinTurns (jsMod t 420 / 420)) hr.1.1 hb
  obtain ⟨f, hf, hfl⟩ := drawFacingEyes_some a b hb f1 (computeEyeDirection sinTurns t 3200)
    { offsetX := 0, offsetY := 0,
      stretch := some (stretchSpan b a.height (1 + 0.14 * sinTurns (jsMod t 420 / 420))) }
  obtain ⟨a1, h1, h2, _⟩ := commitFrame_ready a body f hr
    (by rw [hfl, hfl1, List.length_replicate])
  refine ⟨a1, ?_, h2⟩
  unfold renderExcited
  rw [prepareEmptyFrame_installed a body hr.1.1]
  simp only []
  rw [hf1]
  simp only []
  rw [hf]
  exact h1

theorem renderHappy_ready (a : Animator) (body : List Nat) (hr : a.Ready body)
    (sinTurns : ℚ → ℚ) (t : ℚ) :
    ∃ a1, renderHappy a sinTurns t = some a1 ∧ a1.Ready body := by
  obtain ⟨b, hb⟩ := hr.2.1
  obtain ⟨f1, hf1, hfl1⟩ := drawBodyWithOffset_some a (List.replicate body.length 0) body
    (jsRound ((sinTurns (t / 550) + 1) / 2)) 0 hr.1.1
  obtain ⟨f, hf, hfl⟩ := drawFacingEyes_some a b hb f1 (computeEyeDirection sinTurns t 3200)
    { offsetX := jsRound ((sinTurns (t / 550) + 1) / 2), offsetY := 0, stretch := none }
  obtain ⟨a1, h1, h2, _⟩ := commitFrame_ready a body f hr
    (by rw [hfl, hfl1, List.length_replicate])
  refine ⟨a1, ?_, h2⟩
  unfold renderHappy
  rw [prepareEmptyFrame_installed a body hr.1.1]
  simp only []
  rw [hf1]
  simp only []
  rw [hf]
  exact h1

theorem renderSad_ready (a : Animator) (body : List Nat) (hr : a.Ready body)
    (rand : Nat → ℚ) (delta : ℚ) :
    ∃ a1, renderSad a rand delta = some a1 ∧ a1.Ready body ∧
      a1.tearPhase = jsMod (a.tearPhase + delta / a.tearPeriod) 1 := by
  obtain ⟨b, hb⟩ := hr.2.1
  obtain ⟨f, hf, hfl⟩ := drawSadEyesAndTears_some a b hb (overlayEdgeShake a body rand) delta
  have hr2 : Animator.Ready
      { a with tearPhase := jsMod (a.tearPhase + delta / a.tearPeriod) 1 } body := hr
  obtain ⟨a1, h1, h2, _⟩ := commitFrame_ready _ body f hr2
    (by rw [hfl, length_overlayEdgeShake])
  refine ⟨a1, ?_, h2, (congrArg Animator.tearPhase (commitFrame_keeps _ _ _ h1))⟩
  unfold renderSad
  rw [prepareFrameWithBody_installed a body hr.1.1]
  simp only []
  rw [hf]
  exact h1

theorem getSimpleEyeLayout_some (a : Animator) (b : Bounds) (hb : a.bounds = some b)
    (shift : Bool) : ∃ layout, getSimpleEyeLayout a shift = some layout := by
  unfold getSimpleEyeLayout
  rw [hb]
  simp only []
  split_ifs <;> exact ⟨_, rfl⟩

theorem renderWink_ready (a : Animator) (body : List Nat) (hr : a.Ready body)
    (rand : Nat → ℚ) (t : ℚ) :
    ∃ a1, renderWink a rand t = some a1 ∧ a1.Ready body := by
  have hr2 : (updateWinkState a t (rand 0)).Ready body := by
    rw [updateWinkState_keeps]
    exact hr
  obtain ⟨b, hb⟩ := hr2.2.1
  obtain ⟨layout, hlay⟩ := getSimpleEyeLayout_some _ b hb true
  unfold renderWink
  rw [prepareFrameWithBody_installed a body hr.1.1]
  simp only []
  rw [hlay]
  simp only []
  split_ifs
  · obtain ⟨f2, h2, hl2⟩ := restoreBodyPixel_some _ body hr2.1.1
      (drawVerticalEyeLine (updateWinkState a t (rand 0)) body layout.leftX layout.baseY 2)
      layout.rightX layout.baseY
    rw [h2]
    simp only []
    obtain ⟨a1, h1, h3, _⟩ := commitFrame_ready _ body
      (setPixel (updateWinkState a t (rand 0)) f2 layout.rightX
        (clamp (layout.baseY + 1) 0 (((updateWinkState a t (rand 0)).height : Int) - 1)) BLACK)
      hr2 (by rw [length_setPixel, hl2, length_drawVerticalEyeLine])
    exact ⟨a1, h1, h3⟩
  · obtain ⟨a1, h1, h3, _⟩ := commitFrame_ready _ body
      (drawVerticalEyeLine (updateWinkState a t (rand 0))
        (drawVerticalEyeLine (updateWinkState a t (rand 0)) body layout.leftX layout.baseY 2)
        layout.rightX layout.baseY 2)
      hr2 (by rw [length_drawVerticalEyeLine, length_drawVerticalEyeLine])
    exact ⟨a1, h1, h3⟩

theorem renderSleepy_ready (a : Animator) (body : List Nat) (hr : a.Ready body)
    (rand : Nat → ℚ) (delta : ℚ) :
    ∃ a1, renderSleepy a rand delta = some a1 ∧ a1.Ready body := by
  obtain ⟨b, hb⟩ := hr.2.1
  obtain ⟨layout, hlay⟩ := getSimpleEyeLayout_some a b hb true
  unfold renderSleepy
  rw [prepareFrameWithBody_installed a body hr.1.1]
  simp only []
  rw [hlay]
  simp only []
  generalize hst : (if a.sleepElapsed + delta ≥ a.sleepDuration then
      ({ a with sleepElapsed := jsMod (a.sleepElapsed + delta) a.sleepDuration,
                sleepDuration := 3000 + rand 0 * 2000 } : Animator)
    else { a with sleepElapsed := a.sleepElapsed + delta }) = a2
  have hr2 : a2.Ready body := by
    rw [← hst]
    split_ifs <;> exact hr
  obtain ⟨f1, h1, hl1⟩ := drawSleepyEye_some a2 body hr2.1.1 body layout.leftX layout.baseY
    (computeSleepyOpacity (a2.sleepElapsed / a2.sleepDuration))
  obtain ⟨f2, h2, hl2⟩ := drawSleepyEye_some a2 body hr2.1.1 f1 layout.rightX layout.baseY
    (computeSleepyOpacity (a2.sleepElapsed / a2.sleepDuration))
  rw [h1]
  simp only []
  rw [h2]
  simp only []
  obtain ⟨a1, h3, h4, _⟩ := commitFrame_ready a2 body f2 hr2 (by rw [hl2, hl1])
  exact ⟨a1, h3, h4⟩

theorem render_ready (a : Animator) (body : List Nat) (hr : a.Ready body) (rand : Nat → ℚ)
    (sinTurns : ℚ → ℚ) (t delta : ℚ) :
    ∃ a1, render a rand sinTurns t delta = some a1 ∧ a1.Ready body := by
  unfold render
  rw [hr.1.1]
  simp only []
  split_ifs
  · exact renderExcited_ready a body hr sinTurns t
  · exact renderHappy_ready a body hr sinTurns t
  · obtain ⟨a1, h1, h2, _⟩ := renderSad_ready a body hr rand delta
    exact ⟨a1, h1, h2⟩
  · exact renderWink_ready a body hr rand t
  · exact renderSleepy_ready a body hr rand delta
  · exact renderCalm_ready a body hr sinTurns t

theorem setSprite_ready (a : Animator) (img : ImageData) (eyes : Option EyePair)
    (rand : Nat → ℚ) (now nowRun : ℚ) (hwf : img.WF) :
    (setSprite a (some img) eyes rand now nowRun).Ready img.data := by
  obtain ⟨_, _, _, _, _, f6, _, f8, _⟩ := setSprite_fields a img eyes rand now nowRun
  refine ⟨setSprite_installed a img eyes rand now nowRun hwf, ⟨_, f6⟩, ?_⟩
  intro o ho _
  rw [f8] at ho
  simp only [Option.some.injEq] at ho
  rw [← ho]
  simp only [List.length_replicate]
  exact hwf.1.symm

theorem render_tickOf (a a1 : Animator) (body : List Nat) (hbody : a.bodyPixels = some body)
    (rand : Nat → ℚ) (sinTurns : ℚ → ℚ) (t delta : ℚ)
    (h : render a rand sinTurns t delta = some a1) : a.tickOf a1 := by
  unfold render at h
  rw [hbody] at h
  simp only [] at h
  unfold Animator.tickOf
  split_ifs at h with h1 h2 h3 h4 h5
  · have hk := renderExcited_keeps a a1 sinTurns t h
    rw [h1, if_neg (by decide), if_neg (by decide), if_neg (by decide), if_neg (by decide)]
    rw [h1] at hk
    exact hk
  · have hk := renderHappy_keeps a a1 sinTurns t h
    rw [h2, if_neg (by decide), if_neg (by decide), if_neg (by decide), if_neg (by decide)]
    rw [h2] at hk
    exact hk
  · have hk := renderSad_keeps a a1 rand delta h
    rw [h3, if_pos rfl, if_neg (by decide), if_neg (by decide), if_neg (by decide)]
    rw [h3] at hk
    exact hk
  · have hk := renderWink_keeps a a1 rand t h
    rw [h4, if_neg (by decide), if_pos rfl, if_neg (by decide), if_neg (by decide)]
    rw [h4] at hk
    exact hk
  · have hk := renderSleepy_keeps a a1 rand delta h
    rw [h5, if_neg (by decide), if_neg (by decide), if_pos rfl, if_pos rfl]
    rw [h5] at hk
    exact hk
  · have hk := renderCalm_keeps a a1 sinTurns t h
    rw [if_neg h3, if_neg h4, if_neg h5, if_neg h5]
    exact hk

/-- C26. For every animator state with a sprite installed and every timestamp and delta, a
render tick that returns leaves the base sprite (`bodyPixels`, `basePixels`), the size, the
bounds, the stored eyes, the edge-pixel list and the mode unchanged, and changes at most the
timer of the selected mode: `tearPhase` only in sad mode, `winkState` only in wink mode,
`sleepElapsed` and `sleepDuration` only in sleepy mode, so calm, excited and happy ticks change
no timer. From the state `setSprite` establishes (bounds set, output image of the sprite size)
the tick returns, and that state is established again. -/
theorem render_frame_condition (a : Animator) (body : List Nat)
    (hbody : a.bodyPixels = some body) (rand : Nat → ℚ) (sinTurns : ℚ → ℚ) (t delta : ℚ) :
    (∀ a1, render a rand sinTurns t delta = some a1 →
      a1.bodyPixels = a.bodyPixels ∧ a1.basePixels = a.basePixels ∧
      a1.width = a.width ∧ a1.height = a.height ∧ a1.bounds = a.bounds ∧
      a1.eyes = a.eyes ∧ a1.edgePixels = a.edgePixels ∧ a1.mode = a.mode ∧
      a1.tearPeriod = a.tearPeriod ∧ a1.lastTimestamp = a.lastTimestamp ∧
      (a.mode ≠ "sad" → a1.tearPhase = a.tearPhase) ∧
      (a.mode ≠ "wink" → a1.winkState = a.winkState) ∧
      (a.mode ≠ "sleepy" →
        a1.sleepElapsed = a.sleepElapsed ∧ a1.sleepDuration = a.sleepDuration)) ∧
    (a.Ready body →
      ∃ a1, render a rand sinTurns t delta = some a1 ∧ a1.Ready body) := by
  refine ⟨?_, fun hr => render_ready a body hr rand sinTurns t delta⟩
  intro a1 h
  have hk := render_tickOf a a1 body hbody rand sinTurns t delta h
  unfold Animator.tickOf at hk
  have e1 : a1.bodyPixels = _ := congrArg Animator.bodyPixels hk
  have e2 : a1.basePixels = _ := congrArg Animator.basePixels hk
  have e3 : a1.width = _ := congrArg Animator.width hk
  have e4 : a1.height = _ := congrArg Animator.height hk
  have e5 : a1.bounds = _ := congrArg Animator.bounds hk
  have e6 : a1.eyes = _ := congrArg Animator.eyes hk
  have e7 : a1.edgePixels = _ := congrArg Animator.edgePixels hk
  have e8 : a1.mode = _ := congrArg Animator.mode hk
  have e9 : a1.tearPeriod = _ := congrArg Animator.tearPeriod hk
  have e10 : a1.lastTimestamp = _ := congrArg Animator.lastTimestamp hk
  refine ⟨e1, e2, e3, e4, e5, e6, e7, e8, e9, e10, ?_, ?_, ?_⟩
  · intro hm
    have : a1.tearPhase = _ := congrArg Animator.tearPhase hk
    simp only [if_neg hm] at this
    exact this
  · intro hm
    have : a1.winkState = _ := congrArg Animator.winkState hk
    simp only [if_neg hm] at this
    exact this
  · intro hm
    have h1 : a1.sleepElapsed = _ := congrArg Animator.sleepElapsed hk
    have h2 : a1.sleepDuration = _ := congrArg Animator.sleepDuration hk
    simp only [if_neg hm] at h1 h2
    exact ⟨h1, h2⟩

theorem render_frame_condition_witness :
    sadAnimator.bodyPixels = some sampleImage.data ∧ sadAnimator.Ready sampleImage.data ∧
    ∃ a1, render sadAnimator (fun _ => 0) (fun _ => 0) 16 16 = some a1 ∧
      a1.bodyPixels = some sampleImage.data ∧ a1.mode = "sad" ∧
      a1.winkState = sadAnimator.winkState ∧ a1.sleepElapsed = 0 :=
  have hr : sadAnimator.Ready sampleImage.data :=
    setSprite_ready (newAnimator 2 2 []) sampleImage none (fun _ => 0) 0 0 (by decide)
  have hthm := render_frame_condition sadAnimator sampleImage.data rfl (fun _ => 0)
    (fun _ => 0) 16 16
  ⟨rfl, hr,
   (hthm.2 hr).imp fun a1 h =>
     ⟨h.1, (hthm.1 a1 h.1).1, (hthm.1 a1 h.1).2.2.2.2.2.2.2.1,
      (hthm.1 a1 h.1).2.2.2.2.2.2.2.2.2.2.2.1 (by decide),
      ((hthm.1 a1 h.1).2.2.2.2.2.2.2.2.2.2.2.2 (by decide)).1⟩⟩

/-! ## Repeated palette entries -/

theorem lightenSaturateColor_dark_red :
    lightenSaturateColor (200, 10, 10) = (210, 0, 0) := by
  have h := jsRound_intCast 210
  have h0 := jsRound_intCast 0
  unfold lightenSaturateColor rgbToHsl hslToRgb hue2rgb
  norm_num at h h0 ⊢
  simp [h, h0]

theorem lightenSaturateColor_pure_red :
    lightenSaturateColor (210, 0, 0) = (210, 0, 0) := by
  have h := jsRound_intCast 210
  have h0 := jsRound_intCast 0
  unfold lightenSaturateColor rgbToHsl hslToRgb hue2rgb
  norm_num at h h0 ⊢
  simp [h, h0]

theorem kMeans_five_colours :
    kMeansPalette [(1, 0, 1), (2, 1, 1), (0, 0, 0), (1, 1, 1), (1, 2, 1)] 3 [0, 2, 1] =
      some [(1, 1, 1), (0, 0, 0), (0, 0, 0)] := by
  decide

/-- C21 (counterexample): the 2x1 opaque buffer with the colours (200,10,10) and (210,0,0) has
two distinct colours, and with `K = 16` the palette after the saturation postprocess is
`[(210,0,0), (210,0,0)]`: both colours have saturation capped at 1. And for the 5x1 buffer with
the colours (1,0,1), (2,1,1), (0,0,0), (1,1,1), (1,2,1), `K = 3` and the drawn indices 0, 2, 1,
the third cluster becomes empty and the centres are (1,1,1), (0,0,0), (0,0,0), so the palette
repeats an entry whatever the postprocess is. -/
theorem palette_repeats_colour :
    hasOpaquePixel twinRedImage ∧
    (∃ out, applyPaletteQuantization lightenSaturateColor [] twinRedImage 16 =
      some (out, [(210, 0, 0), (210, 0, 0)])) ∧
    hasOpaquePixel fiveColourImage ∧
    ∀ lighten : Color → Color,
      ∃ out, applyPaletteQuantization lighten [0, 2, 1] fiveColourImage 3 =
        some (out, [lighten (1, 1, 1), lighten (0, 0, 0), lighten (0, 0, 0)]) := by
  refine ⟨⟨0, 0, by decide, by decide, by decide⟩, ?_, ⟨0, 0, by decide, by decide, by decide⟩,
    ?_⟩
  · obtain ⟨out, h, _⟩ := apq_few_colours lightenSaturateColor [] twinRedImage 16 (by decide)
      (by decide) (by decide)
    have hu : uniqueColors (opaqueColors twinRedImage.data) = [(200, 10, 10), (210, 0, 0)] := by
      decide
    rw [hu] at h
    simp only [List.map_cons, List.map_nil, lightenSaturateColor_dark_red,
      lightenSaturateColor_pure_red] at h
    exact ⟨out, h⟩
  · intro lighten
    have hu : uniqueColors (opaqueColors fiveColourImage.data) =
        [(1, 0, 1), (2, 1, 1), (0, 0, 0), (1, 1, 1), (1, 2, 1)] := by decide
    have hk : kMeansPalette (uniqueColors (opaqueColors fiveColourImage.data))
        (min 3 (max 1 (uniqueColors (opaqueColors fiveColourImage.data)).length)) [0, 2, 1] =
          some [(1, 1, 1), (0, 0, 0), (0, 0, 0)] := by
      rw [hu]
      exact kMeans_five_colours
    obtain ⟨_, _, h⟩ := apq_of_centers lighten [0, 2, 1] fiveColourImage 3 (by decide)
      (by decide) (by decide) _ hk
    exact ⟨_, h⟩

/-- C21 (amended): for every well-formed buffer with at least one pixel of alpha above 20 and
every `K ≥ 1` that is at least the number of distinct opaque colours,
`applyPaletteQuantization` returns; the centres before the saturation postprocess are the
distinct opaque colours, a non-empty list with no two equal RGB triples, and the returned
palette has no two equal triples exactly when the postprocess maps these colours to distinct
colours. -/
theorem palette_distinct_when_few_colours (lighten : Color → Color) (draws : List Nat)
    (img : ImageData) (paletteSize : Nat) (hwf : img.WF) (hK : 1 ≤ paletteSize)
    (hex : hasOpaquePixel img) (hd : distinctColorCount img ≤ paletteSize) :
    ∃ out centers, applyPaletteQuantization lighten draws img paletteSize =
        some (out, lightenSaturatePalette lighten centers) ∧
      centers = uniqueColors (opaqueColors img.data) ∧ centers ≠ [] ∧ centers.Nodup ∧
      ((lightenSaturatePalette lighten centers).Nodup ↔
        ∀ c1 ∈ centers, ∀ c2 ∈ centers, lighten c1 = lighten c2 → c1 = c2) := by
  obtain ⟨out, h, _⟩ := apq_few_colours lighten draws img paletteSize hwf hK hd
  refine ⟨out, _, h, rfl, ?_, uniqueColors_nodup _, ?_⟩
  · intro hnil
    have hpos := unique_pos img (opaqueColors_ne_nil img hwf.1 hex)
    rw [hnil] at hpos
    exact absurd hpos (by decide)
  · unfold lightenSaturatePalette
    exact List.nodup_map_iff_inj_on (uniqueColors_nodup _)

theorem palette_distinct_when_few_colours_witness :
    sampleImage.WF ∧ 1 ≤ 16 ∧ hasOpaquePixel sampleImage ∧
    distinctColorCount sampleImage ≤ 16 ∧
    ∃ out centers, applyPaletteQuantization sampleLighten [] sampleImage 16 =
        some (out, lightenSaturatePalette sampleLighten centers) ∧ centers.Nodup :=
  ⟨by decide, by decide, ⟨0, 0, by decide, by decide, by decide⟩, by decide,
   (palette_distinct_when_few_colours sampleLighten [] sampleImage 16 (by decide) (by decide)
      ⟨0, 0, by decide, by decide, by decide⟩ (by decide)).imp fun _ h => h.imp fun _ h2 => ⟨h2.1, h2.2.2.2.1⟩⟩

/-! ## `mapYWithTransform` against the stretch at scale 1 -/

theorem jsRound_shrink (m d n : Int) (hd0 : 0 ≤ d) (hdn : d < n) :
    jsRound ((m : ℚ) + (d : ℚ) / (n : ℚ) * ((n : ℚ) - 1)) =
      if 2 * d ≤ n then m + d else m + d - 1 := by
  have hn : (0 : ℚ) < (n : ℚ) := by
    have : (0 : Int) < n := by omega
    exact_mod_cast this
  have e : (m : ℚ) + (d : ℚ) / (n : ℚ) * ((n : ℚ) - 1) = (m : ℚ) + (d : ℚ) - (d : ℚ) / (n : ℚ) := by
    field_simp
    ring
  have hf0 : (0 : ℚ) ≤ (d : ℚ) / (n : ℚ) := div_nonneg (by exact_mod_cast hd0) hn.le
  have hf1 : (d : ℚ) / (n : ℚ) < 1 := by
    rw [div_lt_one hn]
    exact_mod_cast hdn
  rw [e]
  unfold jsRound
  split_ifs with h
  · have hf : (d : ℚ) / (n : ℚ) ≤ 1 / 2 := by
      rw [div_le_iff₀ hn]
      have : ((2 * d : Int) : ℚ) ≤ (n : ℚ) := by exact_mod_cast h
      push_cast at this
      linarith
    rw [Int.floor_eq_iff]
    push_cast
    constructor <;> linarith
  · have hf : 1 / 2 < (d : ℚ) / (n : ℚ) := by
      rw [lt_div_iff₀ hn]
      have : (n : ℚ) < ((2 * d : Int) : ℚ) := by exact_mod_cast (not_le.1 h)
      push_cast at this
      linarith
    rw [Int.floor_eq_iff]
    push_cast
    constructor <;> linarith

theorem mapY_unit_stretch (a : Animator) (b : Bounds) (hb : a.bounds = some b)
    (hin : b.inside a.width a.height) (y : Nat) (hy1 : b.minY ≤ y) (hy2 : y ≤ b.maxY)
    (ox oy : Int) :
    mapYWithTransform a (y : Int)
        { offsetX := ox, offsetY := oy, stretch := some (stretchSpan b a.height 1) } =
      some (if 2 * (y - b.minY) ≤ b.maxY + 1 - b.minY then (y : Int) else (y : Int) - 1) := by
  obtain ⟨_, _, hm, hh⟩ := hin
  rw [stretchSpan_one b a.height hm hh]
  unfold mapYWithTransform
  simp only [hb]
  have hbh : max (1 : Int) ((b.maxY : Int) - (b.minY : Int) + 1) =
      ((b.maxY + 1 - b.minY : Nat) : Int) := by omega
  rw [hbh]
  have hq : ((b.minY : Int) : ℚ) +
      (((y : Int) : ℚ) - (b.minY : ℚ)) / (((b.maxY + 1 - b.minY : Nat) : Int) : ℚ) *
        ((((b.maxY + 1 - b.minY : Nat) : Int) : ℚ) - 1) =
      ((b.minY : Int) : ℚ) +
      (((y - b.minY : Nat) : Int) : ℚ) / (((b.maxY + 1 - b.minY : Nat) : Int) : ℚ) *
        ((((b.maxY + 1 - b.minY : Nat) : Int) : ℚ) - 1) := by
    have : (((y - b.minY : Nat) : Int) : ℚ) = ((y : Int) : ℚ) - (b.minY : ℚ) := by
      push_cast [Nat.cast_sub hy1]
      ring
    rw [this]
  rw [hq, jsRound_shrink (b.minY : Int) ((y - b.minY : Nat) : Int)
    ((b.maxY + 1 - b.minY : Nat) : Int) (by omega) (by omega)]
  unfold clamp
  congr 1
  split_ifs <;> omega

/-- C28 (failing case): the installed 1x5 sprite has bounds rows 0 to 3; the stretch at scale
1.0 returns the span `{minY: 0, height: 4}` and draws source row 3 on row 3 (the frame pixel
`(0, 3)` holds the sprite bytes 9, 9, 9, 255), while `mapYWithTransform(3)` with that span
returns 2: the ratio is taken over `bodyHeight`, not over `bodyHeight - 1` as in the stretch. -/
theorem eye_row_not_stretch_row :
    tallAnimator.bounds = some { minX := 0, maxX := 0, minY := 0, maxY := 3 } ∧
    ∃ f, unitStretchFrame tallAnimator = some (f, { minY := 0, height := 4 }) ∧
      (∀ c, c < 4 → framePixel tallAnimator f 0 3 c =
        framePixel tallAnimator tallImage.data 0 3 c) ∧
      framePixel tallAnimator f 0 3 3 = 255 ∧
      mapYWithTransform tallAnimator 3
        { offsetX := 0, offsetY := 0, stretch := some { minY := 0, height := 4 } } = some 2 := by
  have hb : tallAnimator.bounds = some { minX := 0, maxX := 0, minY := 0, maxY := 3 } := by
    decide
  have hinst : tallAnimator.Installed tallImage.data :=
    setSprite_installed _ tallImage none _ 0 0 (by decide)
  have hin : Bounds.inside { minX := 0, maxX := 0, minY := 0, maxY := 3 } tallAnimator.width
      tallAnimator.height := by decide
  obtain ⟨f, hf, _, hpix⟩ := unitStretch_spec tallAnimator tallImage.data _ hinst hb hin
  have hspan : stretchSpan { minX := 0, maxX := 0, minY := 0, maxY := 3 } tallAnimator.height 1 =
      { minY := 0, height := 4 } :=
    stretchSpan_one _ _ (by decide) (by decide)
  have hmap := mapY_unit_stretch tallAnimator _ hb hin 3 (by decide) (by decide) 0 0
  rw [hspan] at hmap
  have hp : ∀ c, c < 4 → framePixel tallAnimator f 0 3 c =
      framePixel tallAnimator tallImage.data 0 3 c := by
    intro c hc
    rw [hpix 0 3 c (by decide) (by decide) hc]
    exact if_pos (by decide)
  refine ⟨hb, f, hf, hp, ?_, ?_⟩
  · rw [hp 3 (by decide)]
    decide
  · exact hmap.trans (by decide)

/-! ## The pixels addressed by `drawAnchoredVerticalStretch` -/

theorem stretchPixel_rows (base : List Nat) (width : Nat) (b : Bounds) (span : Span)
    (frame : List Nat) (x step : Nat) :
    stretchPixel base width b span frame x step =
      if (base[(((stretchRows b span step).1 * (width : Int) + (x : Int)) * 4).toNat + 3]?).getD
            0 = 0 ∧
          (base[(((stretchRows b span step).2.1 * (width : Int) + (x : Int)) * 4).toNat +
            3]?).getD 0 = 0 then frame
      else
        store4 frame ((((stretchRows b span step).2.2 * (width : Int) + (x : Int)) * 4).toNat)
          (mixBytes base[(((stretchRows b span step).1 * (width : Int) + (x : Int)) * 4).toNat]?
            base[(((stretchRows b span step).2.1 * (width : Int) + (x : Int)) * 4).toNat]?
            ((b.minY : ℚ) + (if span.height = 1 then 0
                else (step : ℚ) / ((span.height : ℚ) - 1)) *
              (((max 1 ((b.maxY : Int) - (b.minY : Int) + 1) : Int) : ℚ) - 1) -
              ((stretchRows b span step).1 : ℚ)))
          (mixBytes
            base[(((stretchRows b span step).1 * (width : Int) + (x : Int)) * 4).toNat + 1]?
            base[(((stretchRows b span step).2.1 * (width : Int) + (x : Int)) * 4).toNat + 1]?
            ((b.minY : ℚ) + (if span.height = 1 then 0
                else (step : ℚ) / ((span.height : ℚ) - 1)) *
              (((max 1 ((b.maxY : Int) - (b.minY : Int) + 1) : Int) : ℚ) - 1) -
              ((stretchRows b span step).1 : ℚ)))
          (mixBytes
            base[(((stretchRows b span step).1 * (width : Int) + (x : Int)) * 4).toNat + 2]?
            base[(((stretchRows b span step).2.1 * (width : Int) + (x : Int)) * 4).toNat + 2]?
            ((b.minY : ℚ) + (if span.height = 1 then 0
                else (step : ℚ) / ((span.height : ℚ) - 1)) *
              (((max 1 ((b.maxY : Int) - (b.minY : Int) + 1) : Int) : ℚ) - 1) -
              ((stretchRows b span step).1 : ℚ)))
          (mixBytes
            base[(((stretchRows b span step).1 * (width : Int) + (x : Int)) * 4).toNat + 3]?
            base[(((stretchRows b span step).2.1 * (width : Int) + (x : Int)) * 4).toNat + 3]?
            ((b.minY : ℚ) + (if span.height = 1 then 0
                else (step : ℚ) / ((span.height : ℚ) - 1)) *
              (((max 1 ((b.maxY : Int) - (b.minY : Int) + 1) : Int) : ℚ) - 1) -
              ((stretchRows b span step).1 : ℚ))) := rfl

theorem stretchSpan_range (b : Bounds) (height : Nat) (scale : ℚ) (hh : 1 ≤ height) :
    1 ≤ (stretchSpan b height scale).height ∧
    (stretchSpan b height scale).height ≤ (height : Int) ∧
    0 ≤ (stretchSpan b height scale).minY ∧
    (stretchSpan b height scale).minY ≤ (height : Int) - (stretchSpan b height scale).height := by
  unfold stretchSpan clamp
  simp only []
  generalize jsRound (((max 1 ((b.maxY : Int) - (b.minY : Int) + 1) : Int) : ℚ) * scale) = r
  omega

theorem stretchRows_inside (b : Bounds) (span : Span) (height : Nat) (step : Nat)
    (hy : b.minY ≤ b.maxY) (hs1 : 1 ≤ span.height)
    (hs2 : 0 ≤ span.minY) (hs3 : span.minY ≤ (height : Int) - span.height)
    (hstep : (step : Int) < span.height) :
    ((b.minY : Int) ≤ (stretchRows b span step).1 ∧
      (stretchRows b span step).1 ≤ (b.maxY : Int)) ∧
    ((b.minY : Int) ≤ (stretchRows b span step).2.1 ∧
      (stretchRows b span step).2.1 ≤ (b.maxY : Int)) ∧
    (0 ≤ (stretchRows b span step).2.2 ∧ (stretchRows b span step).2.2 < (height : Int)) := by
  unfold stretchRows
  simp only []
  have hbh : max (1 : Int) ((b.maxY : Int) - (b.minY : Int) + 1) =
      (b.maxY : Int) - (b.minY : Int) + 1 := by omega
  rw [hbh]
  have hr0 : (0 : ℚ) ≤ (if span.height = 1 then (0 : ℚ)
      else (step : ℚ) / ((span.height : ℚ) - 1)) := by
    split_ifs with h1
    · exact le_refl _
    · have : (1 : Int) < span.height := by omega
      have h2 : (0 : ℚ) < (span.height : ℚ) - 1 := by
        have : ((1 : Int) : ℚ) < (span.height : ℚ) := by exact_mod_cast this
        push_cast at this
        linarith
      exact div_nonneg (by positivity) h2.le
  have hr1 : (if span.height = 1 then (0 : ℚ)
      else (step : ℚ) / ((span.height : ℚ) - 1)) ≤ 1 := by
    split_ifs with h1
    · norm_num
    · have : (1 : Int) < span.height := by omega
      have h2 : (0 : ℚ) < (span.height : ℚ) - 1 := by
        have : ((1 : Int) : ℚ) < (span.height : ℚ) := by exact_mod_cast this
        push_cast at this
        linarith
      rw [div_le_one h2]
      have h3 : ((step : Int) : ℚ) ≤ ((span.height - 1 : Int) : ℚ) := by
        exact_mod_cast (by omega : (step : Int) ≤ span.height - 1)
      push_cast at h3
      exact h3
  generalize (if span.height = 1 then (0 : ℚ)
      else (step : ℚ) / ((span.height : ℚ) - 1)) = ratio at hr0 hr1
  have hd : (0 : ℚ) ≤ (((b.maxY : Int) - (b.minY : Int) + 1 : Int) : ℚ) - 1 := by
    have : ((0 : Int) : ℚ) ≤ (((b.maxY : Int) - (b.minY : Int) : Int) : ℚ) := by
      exact_mod_cast (by omega : (0 : Int) ≤ (b.maxY : Int) - (b.minY : Int))
    push_cast at this ⊢
    linarith
  have hlo : ((b.minY : Int) : ℚ) ≤
      (b.minY : ℚ) + ratio * ((((b.maxY : Int) - (b.minY : Int) + 1 : Int) : ℚ) - 1) := by
    have := mul_nonneg hr0 hd
    push_cast at this ⊢
    linarith
  have hhi : (b.minY : ℚ) + ratio * ((((b.maxY : Int) - (b.minY : Int) + 1 : Int) : ℚ) - 1) ≤
      ((b.maxY : Int) : ℚ) := by
    have := mul_le_mul_of_nonneg_right hr1 hd
    push_cast at this ⊢
    linarith
  have h0lo := Int.le_floor.2 hlo
  have h0hi : ⌊(b.minY : ℚ) +
      ratio * ((((b.maxY : Int) - (b.minY : Int) + 1 : Int) : ℚ) - 1)⌋ ≤ (b.maxY : Int) := by
    have := Int.floor_le ((b.minY : ℚ) +
      ratio * ((((b.maxY : Int) - (b.minY : Int) + 1 : Int) : ℚ) - 1))
    exact_mod_cast this.trans hhi
  generalize ⌊(b.minY : ℚ) +
      ratio * ((((b.maxY : Int) - (b.minY : Int) + 1 : Int) : ℚ) - 1)⌋ = y0 at h0lo h0hi
  refine ⟨⟨h0lo, h0hi⟩, ⟨?_, ?_⟩, ?_, ?_⟩ <;> omega

theorem stretchRows_single (b : Bounds) (span : Span) (h1 : span.height = 1) (step : Nat) :
    stretchRows b span step =
      ((b.minY : Int), min (b.maxY : Int) ((b.minY : Int) + 1), span.minY + (step : Int)) := by
  unfold stretchRows
  simp only [h1, ↓reduceIte, zero_mul, add_zero]
  have : ⌊(b.minY : ℚ)⌋ = (b.minY : Int) := by simp
  rw [this]

theorem stretchTouched_inside (a : Animator) (body : List Nat) (b : Bounds) (scale : ℚ)
    (hbody : a.bodyPixels = some body) (hb : a.bounds = some b)
    (hin : b.inside a.width a.height) :
    ∃ touched, stretchTouched a scale = some touched ∧
      ∀ p ∈ touched, 0 ≤ p.1 ∧ p.1 < (a.width : Int) ∧ 0 ≤ p.2 ∧ p.2 < (a.height : Int) := by
  obtain ⟨hx1, hx2, hy1, hy2⟩ := hin
  obtain ⟨s1, s2, s3, s4⟩ := stretchSpan_range b a.height scale (by omega)
  unfold stretchTouched
  rw [hbody, hb]
  refine ⟨_, rfl, ?_⟩
  intro p hp
  simp only [List.mem_flatMap, List.mem_range', List.mem_range] at hp
  obtain ⟨x, ⟨i, hi, rfl⟩, step, hstep, hmem⟩ := hp
  have hst : (step : Int) < (stretchSpan b a.height scale).height := by omega
  obtain ⟨⟨r1, r2⟩, ⟨r3, r4⟩, r5, r6⟩ :=
    stretchRows_inside b (stretchSpan b a.height scale) a.height step hy1 s1 s3 s4 hst
  simp only [List.mem_cons, List.mem_singleton, List.not_mem_nil, or_false] at hmem
  rcases hmem with rfl | rfl | rfl <;> simp only [] <;> omega

/-- C27 (counterexample): the 1x1 sprite `[255, 0, 0, 0]` installed without an eye pair has no
pixel with alpha above 20, so its bounds are the fallback box `{4, 12, 4, 12}` of
`computeBounds`; the stretch at scale 1 then addresses the source pixel `(4, 4)`, outside the
1x1 buffer. -/
theorem stretch_reads_outside_buffer :
    ghostAnimator.bodyPixels = some [255, 0, 0, 0] ∧
    ghostAnimator.width = 1 ∧ ghostAnimator.height = 1 ∧
    ghostAnimator.bounds = some (computeBounds ghostImage.data 1 1) ∧
    computeBounds ghostImage.data 1 1 = { minX := 4, maxX := 12, minY := 4, maxY := 12 } ∧
    ∃ touched, stretchTouched ghostAnimator 1 = some touched ∧
      ((4 : Int), (4 : Int)) ∈ touched := by
  have hb : ghostAnimator.bounds =
      some { minX := 4, maxX := 12, minY := 4, maxY := 12 } := by decide
  refine ⟨rfl, rfl, rfl, by decide, by decide, ?_⟩
  obtain ⟨s1, s2, s3, s4⟩ := stretchSpan_range
    { minX := 4, maxX := 12, minY := 4, maxY := 12 } 1 1 (le_refl _)
  have hh : (stretchSpan { minX := 4, maxX := 12, minY := 4, maxY := 12 } 1 1).height = 1 := by
    omega
  have hbody : ghostAnimator.bodyPixels = some [255, 0, 0, 0] := rfl
  have hheight : ghostAnimator.height = 1 := rfl
  unfold stretchTouched
  rw [hbody, hb]
  simp only [hheight]
  refine ⟨_, rfl, ?_⟩
  simp only [List.mem_flatMap, List.mem_range', List.mem_range]
  refine ⟨4, ⟨0, by decide, by decide⟩, 0, by rw [hh]; decide, ?_⟩
  rw [stretchRows_single _ _ hh]
  simp

/-- C27 (amended): for every sprite installed by `setSprite` without an eye pair
that has a pixel with alpha above 20, or is at least 13 pixels wide and high, and for every
scale: the bounds computed by `computeBounds` lie inside the buffer, every source pixel
`(x, y0)`, `(x, y1)` and every destination pixel `(x, destY)` that `drawAnchoredVerticalStretch`
addresses satisfies `0 ≤ x < width` and `0 ≤ y < height`, the call returns, and the span it
returns satisfies `1 ≤ newHeight ≤ height` and `0 ≤ newTop ≤ height - newHeight`. -/
theorem stretch_stays_inside (a0 : Animator) (img : ImageData) (rand : Nat → ℚ)
    (now nowRun : ℚ) (frame : List Nat) (scale : ℚ)
    (hvis : hasOpaquePixel img ∨ (13 ≤ img.width ∧ 13 ≤ img.height)) :
    (computeBounds img.data img.width img.height).inside img.width img.height ∧
    (setSprite a0 (some img) none rand now nowRun).bounds =
      some (computeBounds img.data img.width img.height) ∧
    (∃ touched, stretchTouched (setSprite a0 (some img) none rand now nowRun) scale =
        some touched ∧
      ∀ p ∈ touched, 0 ≤ p.1 ∧ p.1 < (img.width : Int) ∧ 0 ≤ p.2 ∧ p.2 < (img.height : Int)) ∧
    ∃ fr span, drawAnchoredVerticalStretch (setSprite a0 (some img) none rand now nowRun) frame
        scale = some (fr, span) ∧
      1 ≤ span.height ∧ span.height ≤ (img.height : Int) ∧
      0 ≤ span.minY ∧ span.minY ≤ (img.height : Int) - span.height := by
  obtain ⟨f1, f2, f3, _, _, f6, _⟩ := setSprite_fields a0 img none rand now nowRun
  have hin : (computeBounds img.data img.width img.height).inside img.width img.height := by
    by_cases hex : hasOpaquePixel img
    · exact computeBounds_inside img.data img.width img.height hex
    · rcases hvis with h | ⟨h13w, h13h⟩
      · exact absurd h hex
      · rw [computeBounds_of_transparent img.data img.width img.height (by omega)
          (fun x y hx hy hop => hex ⟨x, y, hx, hy, hop⟩)]
        unfold Bounds.inside
        simp only []
        omega
  have hin2 : (computeBounds img.data img.width img.height).inside
      (setSprite a0 (some img) none rand now nowRun).width
      (setSprite a0 (some img) none rand now nowRun).height := by
    rw [f1, f2]
    exact hin
  refine ⟨hin, f6, ?_, ?_⟩
  · obtain ⟨touched, h1, h2⟩ := stretchTouched_inside _ img.data _ scale f3 f6 hin2
    refine ⟨touched, h1, ?_⟩
    intro p hp
    have := h2 p hp
    rw [f1, f2] at this
    exact this
  · obtain ⟨fr, hfr, _⟩ := drawAnchoredVerticalStretch_some _ frame img.data _ scale f3 f6
    obtain ⟨s1, s2, s3, s4⟩ := stretchSpan_range (computeBounds img.data img.width img.height)
      img.height scale (by obtain ⟨_, _, _, h⟩ := hin; omega)
    rw [f2] at hfr
    exact ⟨fr, _, hfr, s1, s2, s3, s4⟩

theorem stretch_stays_inside_witness :
    (hasOpaquePixel sampleImage ∨ (13 ≤ 2 ∧ 13 ≤ 2)) ∧
    (computeBounds sampleImage.data 2 2).inside 2 2 ∧
    ∃ touched, stretchTouched sampleAnimator (114 / 100) = some touched ∧
      ∀ p ∈ touched, 0 ≤ p.1 ∧ p.1 < (2 : Int) ∧ 0 ≤ p.2 ∧ p.2 < (2 : Int) :=
  ⟨Or.inl ⟨0, 0, by decide, by decide, by decide⟩, by decide,
   (stretch_stays_inside (newAnimator 2 2 []) sampleImage (fun _ => 0) 0 0 [] (114 / 100)
      (Or.inl ⟨0, 0, by decide, by decide, by decide⟩)).2.2.1⟩

/-! ## The centres of `kMeansPalette` and their clusters -/

theorem edge_above (pixels : List Nat) (width height x : Nat) :
    ∀ y, y < height → isOpaque pixels width x y →
      ∃ y1, y1 < height ∧ isEdgePixel pixels width height x y1 := by
  intro y
  induction y with
  | zero =>
    intro hy hop
    exact ⟨0, hy, hop, Or.inr (Or.inl rfl)⟩
  | succ y ih =>
    intro hy hop
    by_cases hup : isOpaque pixels width x y
    · exact ih (by omega) hup
    · refine ⟨y + 1, hy, hop, ?_⟩
      right; right; right; right; right; right; left
      exact hup

/-- C36. For every animator with base sprite `pixels`, `computeEdgePixels` returns the empty
list if and only if no pixel of the sprite has alpha above 20; so every sprite with a visible
pixel has at least one edge pixel for `overlayEdgeShake` to jitter. -/
theorem edge_pixels_empty_iff (a : Animator) (pixels : List Nat)
    (hbody : a.bodyPixels = some pixels) :
    (computeEdgePixels a = [] ↔
      ∀ x y, x < a.width → y < a.height → ¬ isOpaque pixels a.width x y) ∧
    ((∃ x y, x < a.width ∧ y < a.height ∧ isOpaque pixels a.width x y) →
      computeEdgePixels a ≠ []) := by
  have heq := computeEdgePixels_eq a pixels hbody
  have key : (∃ x y, x < a.width ∧ y < a.height ∧ isOpaque pixels a.width x y) →
      computeEdgePixels a ≠ [] := by
    rintro ⟨x, y, hx, hy, hop⟩ hnil
    obtain ⟨y1, hy1, hedge⟩ := edge_above pixels a.width a.height x y hy hop
    have hmem : EdgePixel.mk x y1 (load pixels ((y1 * a.width + x) * 4),
        load pixels ((y1 * a.width + x) * 4 + 1), load pixels ((y1 * a.width + x) * 4 + 2),
        load pixels ((y1 * a.width + x) * 4 + 3)) ∈ computeEdgePixels a := by
      rw [heq]
      exact (mem_edgePixelsSpec _ _ _ _).2 ⟨hx, hy1, hedge, rfl⟩
    rw [hnil] at hmem
    cases hmem
  refine ⟨⟨?_, ?_⟩, key⟩
  · intro hnil x y hx hy hop
    exact key ⟨x, y, hx, hy, hop⟩ hnil
  · intro hno
    rw [heq]
    apply List.eq_nil_iff_forall_not_mem.2
    intro e he
    obtain ⟨h1, h2, h3, _⟩ := (mem_edgePixelsSpec _ _ _ e).1 he
    exact hno e.x e.y h1 h2 h3.1

theorem edge_pixels_empty_iff_witness :
    ghostAnimator.bodyPixels = some ghostImage.data ∧ computeEdgePixels ghostAnimator = [] ∧
    sampleAnimator.bodyPixels = some sampleImage.data ∧ computeEdgePixels sampleAnimator ≠ [] :=
  ⟨rfl,
   (edge_pixels_empty_iff ghostAnimator ghostImage.data rfl).1.2 (by
     intro x y hx hy
     have hx1 : x < 1 := hx
     have hy1 : y < 1 := hy
     interval_cases x
     interval_cases y
     unfold isOpaque
     decide),
   rfl,
   (edge_pixels_empty_iff sampleAnimator sampleImage.data rfl).2
     ⟨0, 0, by decide, by decide, by decide⟩⟩

/-! ## The shifted eye layout -/

theorem quarter_le_three_quarters (w : Int) (hw : 1 ≤ w) :
    0 ≤ ⌊(w : ℚ) * 0.25⌋ ∧ ⌊(w : ℚ) * 0.25⌋ ≤ ⌈(w : ℚ) * 0.75⌉ := by
  have hq : (1 : ℚ) ≤ (w : ℚ) := by exact_mod_cast hw
  constructor
  · apply Int.floor_nonneg.2
    have : (0 : ℚ) ≤ (w : ℚ) * 0.25 := by norm_num; linarith
    exact this
  · have h1 := Int.floor_le ((w : ℚ) * 0.25)
    have h2 := Int.le_ceil ((w : ℚ) * 0.75)
    have h3 : (w : ℚ) * 0.25 ≤ (w : ℚ) * 0.75 := by norm_num; linarith
    exact_mod_cast h1.trans (h3.trans h2)

theorem simpleEyeLayout_shifted (bufWidth bufHeight : Nat) (minX maxX minY maxY : Int)
    (hw : 2 ≤ bufWidth) (hh : 2 ≤ bufHeight) :
    0 ≤ (simpleEyeLayout bufWidth bufHeight minX maxX minY maxY true).leftX ∧
    (simpleEyeLayout bufWidth bufHeight minX maxX minY maxY true).leftX <
      (simpleEyeLayout bufWidth bufHeight minX maxX minY maxY true).rightX ∧
    (simpleEyeLayout bufWidth bufHeight minX maxX minY maxY true).rightX ≤
      (bufWidth : Int) - 1 ∧
    0 ≤ (simpleEyeLayout bufWidth bufHeight minX maxX minY maxY true).baseY ∧
    (simpleEyeLayout bufWidth bufHeight minX maxX minY maxY true).baseY ≤
      (bufHeight : Int) - 2 := by
  obtain ⟨h0, hle⟩ := quarter_le_three_quarters (max 1 (maxX - minX)) (le_max_left _ _)
  unfold simpleEyeLayout clamp
  simp only [↓reduceIte]
  generalize ⌊((max 1 (maxX - minX) : Int) : ℚ) * 0.25⌋ = fl at h0 hle
  generalize ⌈((max 1 (maxX - minX) : Int) : ℚ) * 0.75⌉ = ce at hle
  generalize jsRound ((minY : ℚ) + ((maxY : ℚ) - (minY : ℚ)) * 0.4) = ro
  split_ifs <;> simp only [] <;> omega

theorem getSimpleEyeLayout_eq (a : Animator) (b : Bounds) (hb : a.bounds = some b)
    (shift : Bool) :
    getSimpleEyeLayout a shift =
      some (simpleEyeLayout a.width a.height (b.minX : Int) (b.maxX : Int) (b.minY : Int)
        (b.maxY : Int) shift) := by
  unfold getSimpleEyeLayout simpleEyeLayout
  rw [hb]
  simp only [Int.cast_natCast]
  split_ifs <;> rfl

/-- C34. For every buffer of width and height at least 2 and all integer bounds, the
computation of `getSimpleEyeLayout(true)` gives `0 ≤ leftX < rightX ≤ width - 1` and
`0 ≤ baseY ≤ height - 2`, so the two eyes are in distinct columns and the rows `baseY` and
`baseY + 1` lie inside the buffer; for an animator with bounds set, `getSimpleEyeLayout(true)`
returns that layout. -/
theorem shifted_layout_inside (a : Animator) (b : Bounds) (hb : a.bounds = some b)
    (hw : 2 ≤ a.width) (hh : 2 ≤ a.height) :
    (∀ minX maxX minY maxY : Int,
      0 ≤ (simpleEyeLayout a.width a.height minX maxX minY maxY true).leftX ∧
      (simpleEyeLayout a.width a.height minX maxX minY maxY true).leftX <
        (simpleEyeLayout a.width a.height minX maxX minY maxY true).rightX ∧
      (simpleEyeLayout a.width a.height minX maxX minY maxY true).rightX ≤
        (a.width : Int) - 1 ∧
      0 ≤ (simpleEyeLayout a.width a.height minX maxX minY maxY true).baseY ∧
      (simpleEyeLayout a.width a.height minX maxX minY maxY true).baseY ≤
        (a.height : Int) - 2) ∧
    ∃ layout, getSimpleEyeLayout a true = some layout ∧
      0 ≤ layout.leftX ∧ layout.leftX < layout.rightX ∧ layout.rightX ≤ (a.width : Int) - 1 ∧
      0 ≤ layout.baseY ∧ layout.baseY ≤ (a.height : Int) - 2 ∧
      layout.baseY + 1 ≤ (a.height : Int) - 1 := by
  refine ⟨fun minX maxX minY maxY =>
    simpleEyeLayout_shifted a.width a.height minX maxX minY maxY hw hh, ?_⟩
  obtain ⟨h1, h2, h3, h4, h5⟩ := simpleEyeLayout_shifted a.width a.height (b.minX : Int)
    (b.maxX : Int) (b.minY : Int) (b.maxY : Int) hw hh
  exact ⟨_, getSimpleEyeLayout_eq a b hb true, h1, h2, h3, h4, h5, by omega⟩

theorem shifted_layout_inside_witness :
    sampleAnimator.bounds = some { minX := 0, maxX := 1, minY := 0, maxY := 1 } ∧
    2 ≤ sampleAnimator.width ∧ 2 ≤ sampleAnimator.height ∧
    ∃ layout, getSimpleEyeLayout sampleAnimator true = some layout ∧
      layout.leftX < layout.rightX :=
  ⟨by decide, by decide, by decide,
   (shifted_layout_inside sampleAnimator { minX := 0, maxX := 1, minY := 0, maxY := 1 }
      (by decide) (by decide) (by decide)).2.imp fun _ h => ⟨h.1, h.2.2.1⟩⟩

/-! ## The sleepy timers -/

theorem jsRound_mono (q1 q2 : ℚ) (h : q1 ≤ q2) : jsRound q1 ≤ jsRound q2 := by
  unfold jsRound
  exact Int.floor_mono (by linarith)

theorem jsRound_between (s e : Int) (v : ℚ) (h1 : (s : ℚ) ≤ v) (h2 : v ≤ (e : ℚ)) :
    s ≤ jsRound v ∧ jsRound v ≤ e := by
  have a1 := jsRound_mono _ _ h1
  have a2 := jsRound_mono _ _ h2
  rw [jsRound_intCast] at a1 a2
  exact ⟨a1, a2⟩

theorem drawSadEyesAndTears_tear (a : Animator) (b : Bounds) (hb : a.bounds = some b)
    (frame : List Nat) (delta : ℚ) :
    ∃ layout f2, getSimpleEyeLayout a false = some layout ∧
      drawSadEyesAndTears a frame delta =
        some (setPixel a
          (setPixel a f2 (getEyePosition a true layout).x
            (tearRow a b.maxY (getEyePosition a true layout)
              (jsMod (a.tearPhase + delta / a.tearPeriod) 1)) WHITE)
          (getEyePosition a false layout).x
          (tearRow a b.maxY (getEyePosition a false layout)
            (jsMod (a.tearPhase + delta / a.tearPeriod) 1)) WHITE,
          { a with tearPhase := jsMod (a.tearPhase + delta / a.tearPeriod) 1 }) := by
  obtain ⟨layout, hlay⟩ := getSimpleEyeLayout_some a b hb false
  refine ⟨layout,
    setPixel a
      (setPixel a
        (setPixel a
          (setPixel a frame (getEyePosition a true layout).x (getEyePosition a true layout).y
            BLACK)
          (clamp ((getEyePosition a true layout).x + 1) 0 ((a.width : Int) - 1))
          (getEyePosition a true layout).y WHITE)
        (getEyePosition a false layout).x (getEyePosition a false layout).y BLACK)
      (clamp ((getEyePosition a false layout).x + 1) 0 ((a.width : Int) - 1))
      (getEyePosition a false layout).y WHITE, hlay, ?_⟩
  unfold drawSadEyesAndTears
  rw [hlay, hb]
  rfl

theorem tearRow_between (a : Animator) (maxY : Nat) (eye : Point) (p : ℚ) (hp0 : 0 ≤ p) :
    min (clamp (eye.y + 1) 0 ((a.height : Int) - 1)) (clamp (maxY : Int) 0 ((a.height : Int) - 1)) ≤
      tearRow a maxY eye p ∧
    tearRow a maxY eye p ≤
      max (clamp (eye.y + 1) 0 ((a.height : Int) - 1))
        (clamp (maxY : Int) 0 ((a.height : Int) - 1)) := by
  unfold tearRow
  simp only []
  generalize clamp (eye.y + 1) 0 ((a.height : Int) - 1) = s
  generalize clamp (maxY : Int) 0 ((a.height : Int) - 1) = e
  split_ifs with h
  · have ht0 : (0 : ℚ) ≤ p / 0.9 := div_nonneg hp0 (by norm_num)
    have ht1 : p / 0.9 ≤ 1 := by
      rw [div_le_one (by norm_num)]
      exact h.le
    generalize p / 0.9 = t at ht0 ht1
    by_cases hse : s ≤ e
    · have hq : (0 : ℚ) ≤ (e : ℚ) - (s : ℚ) := by
        have : (s : ℚ) ≤ (e : ℚ) := by exact_mod_cast hse
        linarith
      obtain ⟨r1, r2⟩ := jsRound_between s e ((s : ℚ) + ((e : ℚ) - (s : ℚ)) * t)
        (by nlinarith) (by nlinarith)
      omega
    · have hq : (e : ℚ) - (s : ℚ) ≤ 0 := by
        have : (e : ℚ) ≤ (s : ℚ) := by exact_mod_cast (by omega : e ≤ s)
        linarith
      obtain ⟨r1, r2⟩ := jsRound_between e s ((s : ℚ) + ((e : ℚ) - (s : ℚ)) * t)
        (by nlinarith) (by nlinarith)
      omega
  · omega

/-- C32. In sad mode, for an animator with bounds `b`, every eye anchor and every tear phase
`p ≥ 0`, with `startY = clamp(eye.y + 1, 0, height - 1)` and `endY = clamp(b.maxY, 0, height -
1)`: the tear row that `drawSadEyesAndTears` paints is `round(startY + (endY - startY) * p /
0.9)` when `p < 0.9` and `startY` when `p ≥ 0.9`; it lies between `startY` and `endY`
inclusive, hence inside a buffer of height at least 1; it is `startY` at `p = 0`; and when
`startY ≤ endY` it is non-decreasing in `p` on [0, 0.9). -/
theorem tear_row_profile (a : Animator) (b : Bounds) (hb : a.bounds = some b) (eye : Point)
    (p : ℚ) (hp0 : 0 ≤ p) :
    (∀ frame delta, ∃ layout f2, getSimpleEyeLayout a false = some layout ∧
      drawSadEyesAndTears a frame delta =
        some (setPixel a
          (setPixel a f2 (getEyePosition a true layout).x
            (tearRow a b.maxY (getEyePosition a true layout)
              (jsMod (a.tearPhase + delta / a.tearPeriod) 1)) WHITE)
          (getEyePosition a false layout).x
          (tearRow a b.maxY (getEyePosition a false layout)
            (jsMod (a.tearPhase + delta / a.tearPeriod) 1)) WHITE,
          { a with tearPhase := jsMod (a.tearPhase + delta / a.tearPeriod) 1 })) ∧
    (p < 0.9 → tearRow a b.maxY eye p =
      jsRound (((clamp (eye.y + 1) 0 ((a.height : Int) - 1) : Int) : ℚ) +
        (((clamp (b.maxY : Int) 0 ((a.height : Int) - 1) : Int) : ℚ) -
          ((clamp (eye.y + 1) 0 ((a.height : Int) - 1) : Int) : ℚ)) * p / 0.9)) ∧
    (0.9 ≤ p → tearRow a b.maxY eye p = clamp (eye.y + 1) 0 ((a.height : Int) - 1)) ∧
    (min (clamp (eye.y + 1) 0 ((a.height : Int) - 1))
        (clamp (b.maxY : Int) 0 ((a.height : Int) - 1)) ≤ tearRow a b.maxY eye p ∧
      tearRow a b.maxY eye p ≤
        max (clamp (eye.y + 1) 0 ((a.height : Int) - 1))
          (clamp (b.maxY : Int) 0 ((a.height : Int) - 1))) ∧
    (1 ≤ a.height → 0 ≤ tearRow a b.maxY eye p ∧ tearRow a b.maxY eye p < (a.height : Int)) ∧
    tearRow a b.maxY eye 0 = clamp (eye.y + 1) 0 ((a.height : Int) - 1) ∧
    (clamp (eye.y + 1) 0 ((a.height : Int) - 1) ≤ clamp (b.maxY : Int) 0 ((a.height : Int) - 1) →
      ∀ q, p ≤ q → q < 0.9 → tearRow a b.maxY eye p ≤ tearRow a b.maxY eye q) := by
  have hbetween := tearRow_between a b.maxY eye p hp0
  refine ⟨fun frame delta => drawSadEyesAndTears_tear a b hb frame delta, ?_, ?_, hbetween,
    ?_, ?_, ?_⟩
  · intro h
    unfold tearRow
    simp only []
    rw [if_pos h, if_pos h, mul_div_assoc]
  · intro h
    unfold tearRow
    simp only []
    rw [if_neg (not_lt.2 h)]
  · intro hh
    obtain ⟨h1, h2⟩ := hbetween
    unfold clamp at h1 h2
    constructor <;> omega
  · unfold tearRow
    simp only []
    rw [if_pos (by norm_num), if_pos (by norm_num)]
    have : ((clamp (eye.y + 1) 0 ((a.height : Int) - 1) : Int) : ℚ) +
        (((clamp (b.maxY : Int) 0 ((a.height : Int) - 1) : Int) : ℚ) -
          ((clamp (eye.y + 1) 0 ((a.height : Int) - 1) : Int) : ℚ)) * (0 / 0.9) =
        ((clamp (eye.y + 1) 0 ((a.height : Int) - 1) : Int) : ℚ) := by
      rw [zero_div, mul_zero, add_zero]
    rw [this, jsRound_intCast]
  · intro hse q hpq hq
    unfold tearRow
    simp only []
    rw [if_pos hq, if_pos hq, if_pos (lt_of_le_of_lt hpq hq), if_pos (lt_of_le_of_lt hpq hq)]
    apply jsRound_mono
    have hd : (0 : ℚ) ≤ ((clamp (b.maxY : Int) 0 ((a.height : Int) - 1) : Int) : ℚ) -
        ((clamp (eye.y + 1) 0 ((a.height : Int) - 1) : Int) : ℚ) := by
      have : ((clamp (eye.y + 1) 0 ((a.height : Int) - 1) : Int) : ℚ) ≤
          ((clamp (b.maxY : Int) 0 ((a.height : Int) - 1) : Int) : ℚ) := by exact_mod_cast hse
      linarith
    have ht : p / 0.9 ≤ q / 0.9 := div_le_div_of_nonneg_right hpq (by norm_num)
    have := mul_le_mul_of_nonneg_left ht hd
    linarith

theorem tear_row_profile_witness :
    sadAnimator.bounds = some { minX := 0, maxX := 1, minY := 0, maxY := 1 } ∧
    (0 : ℚ) ≤ 9 / 20 ∧
    tearRow sadAnimator 1 { x := 0, y := -1 } (9 / 20) = 1 ∧
    tearRow sadAnimator 1 { x := 0, y := -1 } 0 = 0 :=
  have h := tear_row_profile sadAnimator { minX := 0, maxX := 1, minY := 0, maxY := 1 }
    (by decide) { x := 0, y := -1 } (9 / 20) (by norm_num)
  ⟨by decide, by norm_num,
   (h.2.1 (by norm_num)).trans (by
     have hc1 : clamp ((-1 : Int) + 1) 0 ((sadAnimator.height : Int) - 1) = 0 := by decide
     have hc2 : clamp ((1 : Nat) : Int) 0 ((sadAnimator.height : Int) - 1) = 1 := by decide
     simp only [hc1, hc2]
     unfold jsRound
     rw [Int.floor_eq_iff]
     norm_num),
   h.2.2.2.2.2.1.trans (by decide)⟩

/-! ## The calm frame -/

theorem clampByte_white (c : Nat) : clampByte (WHITE.chan c) = WHITE.chan c := by
  apply clampByte_of_le
  unfold Rgba.chan WHITE
  split_ifs <;> simp

theorem clamp_of_mem (v lo hi : Int) (h1 : lo ≤ v) (h2 : v ≤ hi) : clamp v lo hi = v := by
  unfold clamp
  omega

theorem framePixel_setPixel_point (a : Animator) (buf : List Nat) (p : Point) (color : Rgba)
    (hp : p.inBuffer a.width a.height) (hlen : buf.length = a.width * a.height * 4)
    (x y c : Nat) (hx : x < a.width) (hc : c < 4) :
    framePixel a (setPixel a buf p.x p.y color) x y c =
      if atPoint x y p then clampByte (color.chan c) else framePixel a buf x y c := by
  obtain ⟨h1, h2, h3, h4⟩ := hp
  obtain ⟨px, hpx⟩ := Int.eq_ofNat_of_zero_le h1
  obtain ⟨py, hpy⟩ := Int.eq_ofNat_of_zero_le h3
  have hiff : atPoint x y p ↔ (x = px ∧ y = py) := by
    unfold atPoint
    rw [hpx, hpy]
    omega
  rw [hpx, hpy, framePixel_setPixel a buf px py color (by omega) (by omega) hlen x y c hx hc]
  by_cases h : x = px ∧ y = py
  · rw [if_pos h, if_pos (hiff.2 h)]
  · rw [if_neg h, if_neg (mt hiff.1 h)]

theorem framePixel_paintEye (a : Animator) (frame : List Nat) (eye : EyePoint) (d : Direction)
    (hp : eye.pupil.inBuffer a.width a.height) (hh : eye.highlight.inBuffer a.width a.height)
    (hlen : frame.length = a.width * a.height * 4) (x y c : Nat) (hx : x < a.width)
    (hc : c < 4) :
    framePixel a (paintEye a frame eye d) x y c =
      if atPoint x y (if d = Direction.right then eye.pupil else eye.highlight) then
        WHITE.chan c
      else if atPoint x y (if d = Direction.right then eye.highlight else eye.pupil) then
        BLACK.chan c
      else framePixel a frame x y c := by
  unfold paintEye
  cases d with
  | left =>
    simp only [reduceCtorEq, ↓reduceIte]
    rw [framePixel_setPixel_point a _ eye.highlight WHITE hh
        (by rw [length_setPixel]; exact hlen) x y c hx hc,
      framePixel_setPixel_point a _ eye.pupil BLACK hp hlen x y c hx hc, clampByte_white,
      clampByte_black]
  | right =>
    simp only [↓reduceIte]
    rw [framePixel_setPixel_point a _ eye.pupil WHITE hp
        (by rw [length_setPixel]; exact hlen) x y c hx hc,
      framePixel_setPixel_point a _ eye.highlight BLACK hh hlen x y c hx hc, clampByte_white,
      clampByte_black]

theorem transformEye_identity (a : Animator) (eye : EyePoint)
    (hp : eye.pupil.inBuffer a.width a.height) (hh : eye.highlight.inBuffer a.width a.height) :
    transformEye a eye { offsetX := 0, offsetY := 0, stretch := none } = some eye := by
  obtain ⟨p1, p2, p3, p4⟩ := hp
  obtain ⟨q1, q2, q3, q4⟩ := hh
  unfold transformEye mapYWithTransform
  simp only [add_zero, jsRound_intCast]
  rw [clamp_of_mem eye.pupil.y 0 _ p3 (by omega), clamp_of_mem eye.highlight.y 0 _ q3 (by omega),
    clamp_of_mem eye.pupil.y 0 _ p3 (by omega), clamp_of_mem eye.highlight.y 0 _ q3 (by omega),
    clamp_of_mem eye.pupil.x 0 _ p1 (by omega), clamp_of_mem eye.highlight.x 0 _ q1 (by omega)]

theorem render_calm_mode (a : Animator) (body : List Nat) (hbody : a.bodyPixels = some body)
    (hmode : a.mode = "calm") (rand : Nat → ℚ) (sinTurns : ℚ → ℚ) (t delta : ℚ) :
    render a rand sinTurns t delta = renderCalm a sinTurns t := by
  unfold render
  rw [hbody, hmode]
  simp only []
  rw [if_neg (by decide), if_neg (by decide), if_neg (by decide), if_neg (by decide),
    if_neg (by decide)]

theorem renderCalm_frame (a : Animator) (body : List Nat) (e : EyePair) (hr : a.Ready body)
    (he : a.eyes = some e)
    (h1 : e.left.pupil.inBuffer a.width a.height)
    (h2 : e.left.highlight.inBuffer a.width a.height)
    (h3 : e.right.pupil.inBuffer a.width a.height)
    (h4 : e.right.highlight.inBuffer a.width a.height) (sinTurns : ℚ → ℚ) (t : ℚ) :
    ∃ a1, renderCalm a sinTurns t = some a1 ∧ a1.display.length = body.length ∧
      ∀ x y c, x < a.width → y < a.height → c < 4 →
        framePixel a a1.display x y c =
          if atPoint x y (if computeEyeDirection sinTurns t 3200 = Direction.right
              then e.right.pupil else e.right.highlight) then WHITE.chan c
          else if atPoint x y (if computeEyeDirection sinTurns t 3200 = Direction.right
              then e.right.highlight else e.right.pupil) then BLACK.chan c
          else if atPoint x y (if computeEyeDirection sinTurns t 3200 = Direction.right
              then e.left.pupil else e.left.highlight) then WHITE.chan c
          else if atPoint x y (if computeEyeDirection sinTurns t 3200 = Direction.right
              then e.left.highlight else e.left.pupil) then BLACK.chan c
          else framePixel a body x y c := by
  have hlen : body.length = a.width * a.height * 4 := hr.1.2.1
  have hdraw : drawFacingEyes a body (computeEyeDirection sinTurns t 3200)
      { offsetX := 0, offsetY := 0, stretch := none } =
      some (paintEye a (paintEye a body e.left (computeEyeDirection sinTurns t 3200)) e.right
        (computeEyeDirection sinTurns t 3200)) := by
    unfold drawFacingEyes
    rw [he]
    simp only [transformEye_identity a e.left h1 h2, transformEye_identity a e.right h3 h4]
  obtain ⟨a1, hc, _, hdisp, _⟩ := commitFrame_ready a body
    (paintEye a (paintEye a body e.left (computeEyeDirection sinTurns t 3200)) e.right
      (computeEyeDirection sinTurns t 3200)) hr
    (by rw [length_paintEye, length_paintEye])
  refine ⟨a1, ?_, by rw [hdisp, length_paintEye, length_paintEye], ?_⟩
  · unfold renderCalm
    rw [prepareFrameWithBody_installed a body hr.1.1]
    simp only []
    rw [hdraw]
    exact hc
  · intro x y c hx _ hc4
    rw [hdisp, framePixel_paintEye a _ e.right _ h3 h4
        (by rw [length_paintEye]; exact hlen) x y c hx hc4,
      framePixel_paintEye a _ e.left _ h1 h2 hlen x y c hx hc4]

theorem atPoint_inj (x y : Nat) (p q : Point) (hp : atPoint x y p) (hq : atPoint x y q) :
    p = q := by
  obtain ⟨px, py⟩ := p
  obtain ⟨qx, qy⟩ := q
  unfold atPoint at hp hq
  simp only at hp hq
  rw [← hp.1, ← hp.2, ← hq.1, ← hq.2]

theorem wideEyes_eq : wideEyes = addEyesToPixelArt wideImage.data 5 1 := by
  rw [addEyesToPixelArt_eq]
  decide

theorem longEyes_eq : longEyes = addEyesToPixelArt longImage.data 7 1 := by
  rw [addEyesToPixelArt_eq]
  decide

theorem wideImage_WF : wideImage.WF := by
  unfold ImageData.WF
  decide

theorem longImage_WF : longImage.WF := by
  unfold ImageData.WF
  decide

theorem computeEyeDirection_zero (t p : ℚ) :
    computeEyeDirection (fun _ => 0) t p = Direction.left := by
  unfold computeEyeDirection
  simp

/-- C33 (counterexample). The 5x1 opaque sprite `wideImage` is installed with the eye pair
`addEyesToPixelArt` computes for it: the four eye points lie inside the buffer and the pupil
and the highlight of each eye differ, but the left highlight and the right pupil are both the
pixel `(2, 0)`. The right eye is painted after the left one, so in the calm frame for direction
left the left eye's highlight pixel `(2, 0)` is opaque black, not white. -/
theorem calm_highlight_under_other_pupil :
    wideAnimator.Ready wideImage.data ∧ wideAnimator.mode = "calm" ∧
    wideAnimator.eyes = some wideEyes ∧
    wideEyes = addEyesToPixelArt wideImage.data 5 1 ∧
    wideEyes.left.pupil.inBuffer wideAnimator.width wideAnimator.height ∧
    wideEyes.left.highlight.inBuffer wideAnimator.width wideAnimator.height ∧
    wideEyes.right.pupil.inBuffer wideAnimator.width wideAnimator.height ∧
    wideEyes.right.highlight.inBuffer wideAnimator.width wideAnimator.height ∧
    wideEyes.left.pupil ≠ wideEyes.left.highlight ∧
    wideEyes.right.pupil ≠ wideEyes.right.highlight ∧
    computeEyeDirection (fun _ => 0) 0 3200 = Direction.left ∧
    atPoint 2 0 wideEyes.left.highlight ∧
    ∃ a1, render wideAnimator (fun _ => 0) (fun _ => 0) 0 0 = some a1 ∧
      ∀ c, c < 4 → framePixel wideAnimator a1.display 2 0 c = BLACK.chan c := by
  obtain ⟨f1, f2, f3, _, f5, _, _, _, f9⟩ :=
    setSprite_fields (newAnimator 5 1 []) wideImage (some wideEyes) (fun _ => 0) 0 0
  have hw : wideAnimator.width = 5 := f1
  have hh : wideAnimator.height = 1 := f2
  have he : wideAnimator.eyes = some wideEyes := f5
  have hm : wideAnimator.mode = "calm" := f9
  have hr : wideAnimator.Ready wideImage.data :=
    setSprite_ready (newAnimator 5 1 []) wideImage (some wideEyes) (fun _ => 0) 0 0 wideImage_WF
  have h1 : wideEyes.left.pupil.inBuffer wideAnimator.width wideAnimator.height := by
    rw [hw, hh]; decide
  have h2 : wideEyes.left.highlight.inBuffer wideAnimator.width wideAnimator.height := by
    rw [hw, hh]; decide
  have h3 : wideEyes.right.pupil.inBuffer wideAnimator.width wideAnimator.height := by
    rw [hw, hh]; decide
  have h4 : wideEyes.right.highlight.inBuffer wideAnimator.width wideAnimator.height := by
    rw [hw, hh]; decide
  refine ⟨hr, hm, he, wideEyes_eq, h1, h2, h3, h4, by decide, by decide,
    computeEyeDirection_zero 0 3200, by decide, ?_⟩
  obtain ⟨a1, hc, _, hpix⟩ := renderCalm_frame wideAnimator wideImage.data wideEyes hr he
    h1 h2 h3 h4 (fun _ => 0) 0
  refine ⟨a1, ?_, ?_⟩
  · rw [render_calm_mode wideAnimator wideImage.data hr.1.1 hm]
    exact hc
  · intro c hc4
    rw [hpix 2 0 c (by rw [hw]; decide) (by rw [hh]; decide) hc4, computeEyeDirection_zero]
    simp only [reduceCtorEq, ↓reduceIte]
    rw [if_neg (by decide), if_pos (by decide)]

/-- C33 (amended). For every installed sprite with an eye pair whose four points lie inside
the buffer and in which no pupil coincides with a highlight of either eye, the calm tick
returns a frame of the sprite's size in which, for direction left, the pupil pixel of each eye
is opaque black and its highlight pixel opaque white, for direction right these two colours are
swapped, and in both cases every other pixel equals the sprite's body pixels. -/
theorem calm_frame_eye_colours (a : Animator) (body : List Nat) (e : EyePair)
    (hr : a.Ready body) (hmode : a.mode = "calm") (he : a.eyes = some e)
    (h1 : e.left.pupil.inBuffer a.width a.height)
    (h2 : e.left.highlight.inBuffer a.width a.height)
    (h3 : e.right.pupil.inBuffer a.width a.height)
    (h4 : e.right.highlight.inBuffer a.width a.height)
    (hll : e.left.pupil ≠ e.left.highlight) (hrr : e.right.pupil ≠ e.right.highlight)
    (hlr : e.left.pupil ≠ e.right.highlight) (hrl : e.right.pupil ≠ e.left.highlight)
    (rand : Nat → ℚ) (sinTurns : ℚ → ℚ) (t delta : ℚ) :
    ∃ a1, render a rand sinTurns t delta = some a1 ∧ a1.display.length = body.length ∧
      ∀ x y c, x < a.width → y < a.height → c < 4 →
        framePixel a a1.display x y c =
          if atPoint x y e.left.pupil ∨ atPoint x y e.right.pupil then
            (if computeEyeDirection sinTurns t 3200 = Direction.left then BLACK
              else WHITE).chan c
          else if atPoint x y e.left.highlight ∨ atPoint x y e.right.highlight then
            (if computeEyeDirection sinTurns t 3200 = Direction.left then WHITE
              else BLACK).chan c
          else framePixel a body x y c := by
  obtain ⟨a1, hc, hlen, hpix⟩ := renderCalm_frame a body e hr he h1 h2 h3 h4 sinTurns t
  refine ⟨a1, ?_, hlen, ?_⟩
  · rw [render_calm_mode a body hr.1.1 hmode]
    exact hc
  · intro x y c hx hy hc4
    rw [hpix x y c hx hy hc4]
    have n1 : ¬ (atPoint x y e.left.pupil ∧ atPoint x y e.left.highlight) :=
      fun h => hll (atPoint_inj x y _ _ h.1 h.2)
    have n2 : ¬ (atPoint x y e.right.pupil ∧ atPoint x y e.right.highlight) :=
      fun h => hrr (atPoint_inj x y _ _ h.1 h.2)
    have n3 : ¬ (atPoint x y e.left.pupil ∧ atPoint x y e.right.highlight) :=
      fun h => hlr (atPoint_inj x y _ _ h.1 h.2)
    have n4 : ¬ (atPoint x y e.right.pupil ∧ atPoint x y e.left.highlight) :=
      fun h => hrl (atPoint_inj x y _ _ h.1 h.2)
    generalize computeEyeDirection sinTurns t 3200 = d
    cases d <;> simp only [reduceCtorEq, ↓reduceIte] <;>
      by_cases c1 : atPoint x y e.left.pupil <;>
      by_cases c2 : atPoint x y e.left.highlight <;>
      by_cases c3 : atPoint x y e.right.pupil <;>
      by_cases c4 : atPoint x y e.right.highlight <;>
      simp only [c1, c2, c3, c4, if_true, if_false, or_true, true_or, or_self, and_self,
        and_true, and_false, not_true_eq_false, not_false_eq_true] at n1 n2 n3 n4 ⊢

theorem calm_frame_eye_colours_witness :
    longAnimator.Ready longImage.data ∧ longAnimator.mode = "calm" ∧
    longAnimator.eyes = some longEyes ∧
    ∃ a1, render longAnimator (fun _ => 0) (fun _ => 0) 0 0 = some a1 ∧
      a1.display.length = longImage.data.length ∧
      ∀ x y c, x < longAnimator.width → y < longAnimator.height → c < 4 →
        framePixel longAnimator a1.display x y c =
          if atPoint x y longEyes.left.pupil ∨ atPoint x y longEyes.right.pupil then
            (if computeEyeDirection (fun _ => 0) 0 3200 = Direction.left then BLACK
              else WHITE).chan c
          else if atPoint x y longEyes.left.highlight ∨ atPoint x y longEyes.right.highlight then
            (if computeEyeDirection (fun _ => 0) 0 3200 = Direction.left then WHITE
              else BLACK).chan c
          else framePixel longAnimator longImage.data x y c := by
  obtain ⟨f1, f2, _, _, f5, _, _, _, f9⟩ :=
    setSprite_fields (newAnimator 7 1 []) longImage (some longEyes) (fun _ => 0) 0 0
  have hw : longAnimator.width = 7 := f1
  have hh : longAnimator.height = 1 := f2
  have he : longAnimator.eyes = some longEyes := f5
  have hm : longAnimator.mode = "calm" := f9
  have hr : longAnimator.Ready longImage.data :=
    setSprite_ready (newAnimator 7 1 []) longImage (some longEyes) (fun _ => 0) 0 0 longImage_WF
  exact ⟨hr, hm, he, calm_frame_eye_colours longAnimator longImage.data longEyes hr hm he
    (by rw [hw, hh]; decide) (by rw [hw, hh]; decide) (by rw [hw, hh]; decide)
    (by rw [hw, hh]; decide) (by decide) (by decide) (by decide) (by decide)
    (fun _ => 0) (fun _ => 0) 0 0⟩

end Tamagotchi
